import Mathlib

/-!
# Tremelo audio unit: the modulation kernel

A shallow embedding of `TremeloUnit::TremeloUnitKernel` and of
`TremeloUnit::NewFactoryPresetSet` (files `AUSource/TremeloUnit.hpp` and
`AUSource/TremeloUnit.cpp`) and theorems about them.

The kernel is embedded twice, with the same control flow.

* The kernel over an ordered field (`TremeloUnitKernel.index`, `sampleStep`, `prepare`,
  `TremeloUnitKernel.Process`) computes in exact arithmetic.  It carries the statements that
  do not depend on how a product or a quotient is rounded: the structure of `Process`
  (buffer split, silence flag, `Reset`), the bounds checks of the parameters, the counter
  resets stated on the index of the iteration, the start-up at counter 0, the tables with
  the real `sin`, and the factory presets.
* The kernel of the namespace `Machine` computes as the compiled code does.  Every `float`
  operation is rounded to IEEE binary32 and every `double` operation to IEEE binary64, to
  the nearest value with ties to even; `static_cast<long>` and `(int)` are defined only when
  the truncated value is a value of the 64-bit or of the 32-bit type; the increment of the
  counter is defined only below `2 ^ 63`.  It carries the statements about the value of the
  index, of `mNextScale`, of the gain and of the output samples.

Modelling conventions of the exact kernel.

* Sample values, gains and scale factors (`Float32`, `float`, `double` in the source) are
  elements of an arbitrary linearly ordered field `α` with a floor function.  Arithmetic is
  exact: rounding, infinities and NaN of IEEE arithmetic are outside this kernel.  Taking
  `α := ℚ` gives an executable kernel, `α := ℝ` gives the kernel with the real `sin`.
* `long mSamplesProcessed` is an unbounded `Int` (the counter needs `2^63` samples to wrap).
* `static_cast<long>(x)` and `(int) x` truncate toward zero; `%` on integers is the C
  remainder, `Int.tmod`.
* The two wave tables are `float[kWaveArraySize]`; they are functions on `Fin kWaveArraySize`.
  A read outside the array is undefined behaviour in the source and is a failure (`none`)
  here, so `Process` returns an `Option`.
* The source and destination buffers are lists; the pointer walk `destP += 1` is `List.tail`.
* The parameter store read by `GetParameter` is a function on the `Parameters` enumeration.
* Division is the division of the field, with `x / 0 = 0`.  The source divides by the clamped
  frequency, which is at least 0.5, and by `samplesPerTremeloCycle`, which is 0 only for a
  sample rate of 0; statements that depend on the value of `mNextScale` assume a positive
  sample rate, as the constructor's contract does.

Modelling conventions of the kernel `Machine`.

* A finite value of `float` or `double` is the rational number it denotes, so the kernel is
  a kernel over `ℚ` and its definitions evaluate.  `Machine.roundFloat32` and
  `Machine.roundFloat64` round a rational number to the format; they cover the subnormal
  range.  Expressions of type `float` are evaluated in `float` precision, as on the x86-64
  and ARM64 targets of the audio unit, and every operation is rounded on its own (no fused
  multiply-add).
* An operation whose IEEE result is not a finite number (overflow, division by zero), a
  conversion to an integer type outside its range, a signed overflow and a read outside a
  table give `none`.  NaN and the infinities are not values of this kernel; the parameters,
  the sample rate and the input samples are taken to be finite values of `float`.
* The wave tables of `Machine.construct` are parameters: the source fills them with the
  library function `sin` in `double` arithmetic, which has no rational closed form.
* The buffers, the parameter store, the remainder and the truncation are as in the exact
  kernel.
-/

namespace TremeloUnit

/-! ## Constants of `TremeloUnit.hpp` -/

section Constants

variable {α : Type} [LinearOrderedField α]

/-- The minimum value of the Frequency parameter (`TremeloUnit.hpp` line 26). -/
def kMinimumValue_Tremelo_Freq : α := 0.5

/-- The maximum value of the Frequency parameter (`TremeloUnit.hpp` line 28). -/
def kMaximumValue_Tremelo_Freq : α := 20.0

/-- The minimum value of the Depth parameter (`TremeloUnit.hpp` line 32). -/
def kMinimumValue_Tremelo_Depth : α := 0.0

/-- The maximum value of the Depth parameter (`TremeloUnit.hpp` line 33). -/
def kMaximumValue_Tremelo_Depth : α := 100.0

end Constants

/-- The waveform selector value of the sine wave (`TremeloUnit.hpp` line 36). -/
def kSineWave_Tremelo_Waveform : Int := 1

/-- The waveform selector value of the square wave (`TremeloUnit.hpp` line 37). -/
def kSquareWave_Tremelo_Waveform : Int := 2

/-- The identifiers of the three parameters (`enum Parameters`, `TremeloUnit.hpp` line 44). -/
inductive Parameters
  | kParameter_Frequency
  | kParameter_Depth
  | kParameter_Waveform
  deriving DecidableEq, Repr

/-- The number of points in a wave table (`enum {kWaveArraySize = 2000}`). -/
abbrev kWaveArraySize : Nat := 2000

/-- The ceiling of the sample counter (`enum {sampleLimit = (int) 10E6}`). -/
def sampleLimit : Int := 10000000

/-- The two targets `&mSine[0]` and `&mSquare[0]` of `waveArrayPointer`. -/
inductive WavePointer
  | sine
  | square
  deriving DecidableEq, Repr

/-- The data members of `TremeloUnitKernel` (`TremeloUnit.hpp` lines 158-174). -/
structure TremeloUnitKernel (α : Type) where
  /-- The wave table for the tremelo sine wave. -/
  mSine : Fin kWaveArraySize → α
  /-- The wave table for the tremelo square wave. -/
  mSquare : Fin kWaveArraySize → α
  /-- Points to the wave table to use for the current audio input buffer. -/
  waveArrayPointer : WavePointer
  /-- The sample rate of the audio signal being processed. -/
  mSampleFrequency : α
  /-- The number of samples since rendering started or since the counter was reset. -/
  mSamplesProcessed : Int
  /-- The scaling factor in use. -/
  mCurrentScale : α
  /-- The scaling factor that the user most recently requested. -/
  mNextScale : α

section Kernel

variable {α : Type} [LinearOrderedField α] [FloorRing α]

/-- The conversion `static_cast<long>(x)` (and `(int) x`): truncation toward zero. -/
def toLong (x : α) : Int :=
  if 0 ≤ x then ⌊x⌋ else ⌈x⌉

/-- The constructor `TremeloUnitKernel::TremeloUnitKernel` (`TremeloUnit.cpp` lines 261-292).
The library function `sin` and the constant `M_PI` are parameters, `sampleRate` is the value
of `GetSampleRate()`.  The constructor leaves `waveArrayPointer` and `mNextScale`
uninitialised; their indeterminate initial values are the last two parameters. -/
def TremeloUnitKernel.construct (sin : α → α) (M_PI : α) (sampleRate : α)
    (waveArrayPointer : WavePointer) (mNextScale : α) : TremeloUnitKernel α where
  mSamplesProcessed := 0
  mCurrentScale := 0
  mSine := fun i =>
    let radians : α := (i.val : α) * 2.0 * M_PI / (kWaveArraySize : α)
    (sin radians + 1.0) * 0.5
  mSquare := fun i =>
    let radians : α := (i.val : α) * 2.0 * M_PI / (kWaveArraySize : α)
    let radians : α := radians + 0.32
    (sin radians +
      0.3 * sin (3 * radians) +
      0.15 * sin (5 * radians) +
      0.075 * sin (7 * radians) +
      0.0375 * sin (9 * radians) +
      0.01875 * sin (11 * radians) +
      0.009375 * sin (13 * radians) +
      0.8) * 0.63
  mSampleFrequency := sampleRate
  waveArrayPointer := waveArrayPointer
  mNextScale := mNextScale

/-- The method `TremeloUnitKernel::Reset` (`TremeloUnit.cpp` lines 300-303). -/
def TremeloUnitKernel.Reset (k : TremeloUnitKernel α) : TremeloUnitKernel α :=
  { k with mCurrentScale := 0, mSamplesProcessed := 0 }

/-- The array that `waveArrayPointer` points to. -/
def TremeloUnitKernel.waveArray (k : TremeloUnitKernel α) : Fin kWaveArraySize → α :=
  match k.waveArrayPointer with
  | WavePointer.sine => k.mSine
  | WavePointer.square => k.mSquare

/-- The read `table[index]` of a `float[kWaveArraySize]` at an `int` index: `none` when the
index is outside the array. -/
def readTable (table : Fin kWaveArraySize → α) (index : Int) : Option α :=
  if h : 0 ≤ index ∧ index < (kWaveArraySize : Int) then
    some (table ⟨index.toNat, by have h1 := h.1; have h2 := h.2; omega⟩)
  else
    none

/-- The position in the wave table for the current sample (`TremeloUnit.cpp` line 407):
`static_cast<long>(mSamplesProcessed * mCurrentScale) % kWaveArraySize`. -/
def TremeloUnitKernel.index (k : TremeloUnitKernel α) : Int :=
  Int.tmod (toLong ((k.mSamplesProcessed : α) * k.mCurrentScale)) (kWaveArraySize : Int)

/-- The final tremelo gain according to the depth setting (`TremeloUnit.cpp` line 428). -/
def tremeloGain (rawTremeloGain tremeloDepth : α) : α :=
  (rawTremeloGain * tremeloDepth - tremeloDepth + 100.0) * 0.01

/-- One iteration of the sample processing loop (`TremeloUnit.cpp` lines 407-444): the
kernel after the iteration and the output sample stored at `*destP`. -/
def sampleStep (k : TremeloUnitKernel α) (tremeloDepth inputSample : α) :
    Option (TremeloUnitKernel α × α) :=
  let index : Int := k.index
  let k : TremeloUnitKernel α :=
    if k.mNextScale ≠ k.mCurrentScale ∧ index = 0 then
      { k with mCurrentScale := k.mNextScale, mSamplesProcessed := 0 }
    else k
  let k : TremeloUnitKernel α :=
    if k.mSamplesProcessed ≥ sampleLimit ∧ index = 0 then
      { k with mSamplesProcessed := 0 }
    else k
  match readTable k.waveArray index with
  | none => none
  | some rawTremeloGain =>
    let outputSample : α := inputSample * tremeloGain rawTremeloGain tremeloDepth
    some ({ k with mSamplesProcessed := k.mSamplesProcessed + 1 }, outputSample)

/-- The sample processing loop (`TremeloUnit.cpp` lines 393-445) over the source buffer,
writing through the destination pointer. -/
def processLoop (k : TremeloUnitKernel α) (tremeloDepth : α) :
    List α → List α → Option (TremeloUnitKernel α × List α)
  | [], inDestP => some (k, inDestP)
  | inputSample :: sourceP, inDestP =>
    match sampleStep k tremeloDepth inputSample with
    | none => none
    | some (k1, outputSample) =>
      match processLoop k1 tremeloDepth sourceP inDestP.tail with
      | none => none
      | some (k2, destP) => some (k2, outputSample :: destP)

/-- The bounds checking of the frequency parameter (`TremeloUnit.cpp` lines 353-358). -/
def clampFrequency (tremeloFrequency : α) : α :=
  let tremeloFrequency : α :=
    if tremeloFrequency < kMinimumValue_Tremelo_Freq then kMinimumValue_Tremelo_Freq
    else tremeloFrequency
  if tremeloFrequency > kMaximumValue_Tremelo_Freq then kMaximumValue_Tremelo_Freq
  else tremeloFrequency

/-- The bounds checking of the depth parameter (`TremeloUnit.cpp` lines 360-365). -/
def clampDepth (tremeloDepth : α) : α :=
  let tremeloDepth : α :=
    if tremeloDepth < kMinimumValue_Tremelo_Depth then kMinimumValue_Tremelo_Depth
    else tremeloDepth
  if tremeloDepth > kMaximumValue_Tremelo_Depth then kMaximumValue_Tremelo_Depth
  else tremeloDepth

/-- The part of `Process` before the loop (`TremeloUnit.cpp` lines 339-372): the kernel with
`waveArrayPointer` and `mNextScale` assigned from the parameters. -/
def prepare (k : TremeloUnitKernel α) (GetParameter : Parameters → α) : TremeloUnitKernel α :=
  let tremeloFrequency : α := GetParameter Parameters.kParameter_Frequency
  let tremeloWaveform : Int := toLong (GetParameter Parameters.kParameter_Waveform)
  let k : TremeloUnitKernel α :=
    if tremeloWaveform = kSineWave_Tremelo_Waveform then
      { k with waveArrayPointer := WavePointer.sine }
    else
      { k with waveArrayPointer := WavePointer.square }
  let tremeloFrequency : α := clampFrequency tremeloFrequency
  let samplesPerTremeloCycle : α := k.mSampleFrequency / tremeloFrequency
  { k with mNextScale := (kWaveArraySize : α) / samplesPerTremeloCycle }

/-- The method `TremeloUnitKernel::Process` (`TremeloUnit.cpp` lines 309-447).  The number of
samples to process is the length of the source buffer.  The result is the kernel after the
call and the contents of the destination buffer. -/
def TremeloUnitKernel.Process (k : TremeloUnitKernel α) (GetParameter : Parameters → α)
    (inSourceP inDestP : List α) (ioSilence : Bool) :
    Option (TremeloUnitKernel α × List α) :=
  if !ioSilence then
    let tremeloDepth : α := clampDepth (GetParameter Parameters.kParameter_Depth)
    processLoop (prepare k GetParameter) tremeloDepth inSourceP inDestP
  else
    some (k, inDestP)

/-- The effect of one loop iteration on the kernel alone (`TremeloUnit.cpp` lines 407-422
and 444): the two counter resets at index 0, then the increment of the counter. -/
def TremeloUnitKernel.advance (k : TremeloUnitKernel α) : TremeloUnitKernel α :=
  let index : Int := k.index
  let k : TremeloUnitKernel α :=
    if k.mNextScale ≠ k.mCurrentScale ∧ index = 0 then
      { k with mCurrentScale := k.mNextScale, mSamplesProcessed := 0 }
    else k
  let k : TremeloUnitKernel α :=
    if k.mSamplesProcessed ≥ sampleLimit ∧ index = 0 then
      { k with mSamplesProcessed := 0 }
    else k
  { k with mSamplesProcessed := k.mSamplesProcessed + 1 }

/-- The kernel states of the data model: the counter is not negative (it is an unsigned
quantity in the specification), the scale factors are not negative and the sample rate is
positive. -/
def TremeloUnitKernel.WellFormed (k : TremeloUnitKernel α) : Prop :=
  0 ≤ k.mSamplesProcessed ∧ 0 ≤ k.mCurrentScale ∧ 0 < k.mSampleFrequency

end Kernel

/-- A call that the host makes on a kernel: `Process` with the parameter values in the store
at the time of the call, the two buffers and the silence flag, or `Reset`. -/
inductive Call (α : Type)
  | process (GetParameter : Parameters → α) (inSourceP inDestP : List α) (ioSilence : Bool)
  | reset

/-- The kernel after a sequence of host calls, `none` when one of the calls fails. -/
def runCalls {α : Type} [LinearOrderedField α] [FloorRing α] (k : TremeloUnitKernel α) :
    List (Call α) → Option (TremeloUnitKernel α)
  | [] => some k
  | Call.process GetParameter inSourceP inDestP ioSilence :: calls =>
    match k.Process GetParameter inSourceP inDestP ioSilence with
    | none => none
    | some (k1, _) => runCalls k1 calls
  | Call.reset :: calls => runCalls k.Reset calls

/-! ## Factory presets (`TremeloUnit.hpp` lines 53-88, `TremeloUnit.cpp` lines 212-240) -/

section Presets

variable {α : Type} [LinearOrderedField α]

/-- The frequency of the "Slow & Gentle" factory preset. -/
def kParameter_Preset_Frequency_Slow : α := 2.0

/-- The frequency of the "Fast & Hard" factory preset. -/
def kParameter_Preset_Frequency_Fast : α := 20.0

/-- The depth of the "Slow & Gentle" factory preset. -/
def kParameter_Preset_Depth_Slow : α := 50.0

/-- The depth of the "Fast & Hard" factory preset. -/
def kParameter_Preset_Depth_Fast : α := 90.0

/-- The waveform of the "Slow & Gentle" factory preset, `kSineWave_Tremelo_Waveform` as a
`float`. -/
def kParameter_Preset_Waveform_Slow : α := (kSineWave_Tremelo_Waveform : α)

/-- The waveform of the "Fast & Hard" factory preset, `kSquareWave_Tremelo_Waveform` as a
`float`. -/
def kParameter_Preset_Waveform_Fast : α := (kSquareWave_Tremelo_Waveform : α)

end Presets

/-- The preset number of the "Slow & Gentle" factory preset (`enum Presets`). -/
def kPreset_Slow : Int := 0

/-- The preset number of the "Fast & Hard" factory preset (`enum Presets`). -/
def kPreset_Fast : Int := 1

/-- The total number of factory presets (`enum Presets`). -/
def kNumberOfPresets : Nat := 2

/-- The type `AUPreset` of the audio unit framework: a preset number and a name. -/
structure AUPreset where
  /-- The number of the preset. -/
  presetNumber : Int
  /-- The name of the preset. -/
  presetName : String
  deriving DecidableEq, Repr

/-- The array of factory presets (`TremeloUnit.hpp` lines 82-85). -/
def kPresets : List AUPreset :=
  [AUPreset.mk kPreset_Slow "Slow & Gentle", AUPreset.mk kPreset_Fast "Fast & Hard"]

/-- The two results of `NewFactoryPresetSet`, constants of the audio unit framework. -/
inductive OSStatus
  | noErr
  | kAudioUnitErr_InvalidProperty
  deriving DecidableEq, Repr

/-- The state of the audio unit that `NewFactoryPresetSet` assigns: the parameter store
written by `SetParameter` and the preset recorded by `SetAFactoryPresetAsCurrent`. -/
structure AudioUnitState (α : Type) where
  /-- The values of the three parameters. -/
  parameters : Parameters → α
  /-- The preset last made current. -/
  currentPreset : Option AUPreset

section PresetSet

variable {α : Type} [LinearOrderedField α]

/-- The framework call `SetParameter (id, value)`. -/
def SetParameter (u : AudioUnitState α) (inID : Parameters) (inValue : α) : AudioUnitState α :=
  { u with parameters := Function.update u.parameters inID inValue }

/-- The framework call `SetAFactoryPresetAsCurrent (preset)`. -/
def SetAFactoryPresetAsCurrent (u : AudioUnitState α) (inPreset : AUPreset) :
    AudioUnitState α :=
  { u with currentPreset := some inPreset }

/-- The `for` loop of `NewFactoryPresetSet` over the remaining entries of `kPresets`
(`TremeloUnit.cpp` lines 218-237); when the loop ends without a match the method returns
`kAudioUnitErr_InvalidProperty` (line 239). -/
def presetLoop (u : AudioUnitState α) (chosenPreset : Int) :
    List AUPreset → OSStatus × AudioUnitState α
  | [] => (OSStatus.kAudioUnitErr_InvalidProperty, u)
  | preset :: presets =>
    if chosenPreset = preset.presetNumber then
      let u : AudioUnitState α :=
        if chosenPreset = kPreset_Slow then
          SetParameter
            (SetParameter
              (SetParameter u Parameters.kParameter_Frequency kParameter_Preset_Frequency_Slow)
              Parameters.kParameter_Depth kParameter_Preset_Depth_Slow)
            Parameters.kParameter_Waveform kParameter_Preset_Waveform_Slow
        else if chosenPreset = kPreset_Fast then
          SetParameter
            (SetParameter
              (SetParameter u Parameters.kParameter_Frequency kParameter_Preset_Frequency_Fast)
              Parameters.kParameter_Depth kParameter_Preset_Depth_Fast)
            Parameters.kParameter_Waveform kParameter_Preset_Waveform_Fast
        else u
      (OSStatus.noErr, SetAFactoryPresetAsCurrent u preset)
    else presetLoop u chosenPreset presets

/-- The method `TremeloUnit::NewFactoryPresetSet` (`TremeloUnit.cpp` lines 212-240).  The
guard `chosenPreset == kPreset_Slow || kPreset_Fast` has the constant `kPreset_Fast` as its
second operand, which is true when it is not 0. -/
def NewFactoryPresetSet (u : AudioUnitState α) (inNewFactoryPreset : AUPreset) :
    OSStatus × AudioUnitState α :=
  let chosenPreset : Int := inNewFactoryPreset.presetNumber
  if chosenPreset = kPreset_Slow ∨ kPreset_Fast ≠ 0 then
    presetLoop u chosenPreset kPresets
  else
    (OSStatus.kAudioUnitErr_InvalidProperty, u)

end PresetSet

/-! ## The kernel in the arithmetic of the compiled code

The same methods over `ℚ`, with every arithmetic operation rounded to the type the source
computes it in, and with the conversions to `long` and `int` defined only inside the range of
the type. -/

namespace Machine

/-- Rounding to the nearest integer, ties to the even integer. -/
def roundHalfEven (x : ℚ) : Int :=
  if x - ⌊x⌋ < 1 / 2 then ⌊x⌋
  else if 1 / 2 < x - ⌊x⌋ then ⌊x⌋ + 1
  else if ⌊x⌋ % 2 = 0 then ⌊x⌋ else ⌊x⌋ + 1

/-- The exponent of the unit in the last place of `x` in a binary format with `p` significand
bits whose smallest subnormal is `2 ^ emin`. -/
def ulpExponent (p : Nat) (emin : Int) (x : ℚ) : Int :=
  max (Int.log 2 |x| - ((p : Int) - 1)) emin

/-- The value of the binary format nearest to `x`, ties to even; `none` when the rounded
value is not finite, that is when its magnitude reaches `2 ^ emax`. -/
def roundToFormat (p : Nat) (emin emax : Int) (x : ℚ) : Option ℚ :=
  if |(roundHalfEven (x / 2 ^ ulpExponent p emin x) : ℚ) * 2 ^ ulpExponent p emin x|
      < 2 ^ emax then
    some ((roundHalfEven (x / 2 ^ ulpExponent p emin x) : ℚ) * 2 ^ ulpExponent p emin x)
  else none

/-- Rounding to `float` (IEEE binary32). -/
def roundFloat32 (x : ℚ) : Option ℚ := roundToFormat 24 (-149) 128 x

/-- Rounding to `double` (IEEE binary64). -/
def roundFloat64 (x : ℚ) : Option ℚ := roundToFormat 53 (-1074) 1024 x

/-- The conversion `static_cast<long>` of a `float`: truncation toward zero; the conversion
is undefined, `none`, when the truncated value is not a value of the 64-bit type `long`. -/
def floatToLong (x : ℚ) : Option Int :=
  if -(2 : Int) ^ 63 ≤ toLong x ∧ toLong x < (2 : Int) ^ 63 then some (toLong x) else none

/-- The conversion `(int)` of a `float`: truncation toward zero; undefined, `none`, when the
truncated value is not a value of the 32-bit type `int`. -/
def floatToInt (x : ℚ) : Option Int :=
  if -(2 : Int) ^ 31 ≤ toLong x ∧ toLong x < (2 : Int) ^ 31 then some (toLong x) else none

/-- The constructor with its two wave tables as parameters: the source fills them with the
library function `sin` in `double` arithmetic and stores them as `float`
(`TremeloUnit.cpp` lines 261-292). -/
def construct (mSine mSquare : Fin kWaveArraySize → ℚ) (sampleRate : ℚ)
    (waveArrayPointer : WavePointer) (mNextScale : ℚ) : TremeloUnitKernel ℚ where
  mSamplesProcessed := 0
  mCurrentScale := 0
  mSine := mSine
  mSquare := mSquare
  mSampleFrequency := sampleRate
  waveArrayPointer := waveArrayPointer
  mNextScale := mNextScale

/-- The position in the wave table (`TremeloUnit.cpp` line 407):
`static_cast<long>(mSamplesProcessed * mCurrentScale) % kWaveArraySize`, where the counter
is converted to `float`, the product is a `float` product and the remainder is the C
remainder. -/
def index (k : TremeloUnitKernel ℚ) : Option Int :=
  (roundFloat32 (k.mSamplesProcessed : ℚ)).bind fun counter =>
    (roundFloat32 (counter * k.mCurrentScale)).bind fun product =>
      (floatToLong product).bind fun position =>
        some (Int.tmod position (kWaveArraySize : Int))

/-- The two counter resets of an iteration (`TremeloUnit.cpp` lines 412-422) for the index
computed at line 407. -/
def resync (k : TremeloUnitKernel ℚ) (index : Int) : TremeloUnitKernel ℚ :=
  let k : TremeloUnitKernel ℚ :=
    if k.mNextScale ≠ k.mCurrentScale ∧ index = 0 then
      { k with mCurrentScale := k.mNextScale, mSamplesProcessed := 0 }
    else k
  if k.mSamplesProcessed ≥ sampleLimit ∧ index = 0 then
    { k with mSamplesProcessed := 0 }
  else k

/-- The statement `mSamplesProcessed += 1` (`TremeloUnit.cpp` line 443) on the 64-bit type
`long`: the signed overflow is undefined, `none`. -/
def increment (k : TremeloUnitKernel ℚ) : Option (TremeloUnitKernel ℚ) :=
  if k.mSamplesProcessed + 1 < (2 : Int) ^ 63 then
    some { k with mSamplesProcessed := k.mSamplesProcessed + 1 }
  else none

/-- The final tremelo gain (`TremeloUnit.cpp` line 428):
`(rawTremeloGain * tremeloDepth - tremeloDepth + 100.0) * 0.01`.  The product and the
difference are `float` operations; `100.0` and `0.01` are `double` literals, so the sum and
the last product are `double` operations; the result is stored in a `float`. -/
def tremeloGain (rawTremeloGain tremeloDepth : ℚ) : Option ℚ :=
  (roundFloat32 (rawTremeloGain * tremeloDepth)).bind fun product =>
    (roundFloat32 (product - tremeloDepth)).bind fun difference =>
      (roundFloat64 (difference + 100)).bind fun sum =>
        (roundFloat64 (1 / 100)).bind fun hundredth =>
          (roundFloat64 (sum * hundredth)).bind fun gain =>
            roundFloat32 gain

/-- One iteration of the sample processing loop (`TremeloUnit.cpp` lines 407-444). -/
def sampleStep (k : TremeloUnitKernel ℚ) (tremeloDepth inputSample : ℚ) :
    Option (TremeloUnitKernel ℚ × ℚ) :=
  (index k).bind fun index =>
    (readTable (resync k index).waveArray index).bind fun rawTremeloGain =>
      (tremeloGain rawTremeloGain tremeloDepth).bind fun tremeloGain =>
        (roundFloat32 (inputSample * tremeloGain)).bind fun outputSample =>
          (increment (resync k index)).bind fun k =>
            some (k, outputSample)

/-- The effect of one loop iteration on the kernel alone. -/
def advance (k : TremeloUnitKernel ℚ) : Option (TremeloUnitKernel ℚ) :=
  (index k).bind fun index => increment (resync k index)

/-- The kernel after a number of loop iterations. -/
def steps : Nat → TremeloUnitKernel ℚ → Option (TremeloUnitKernel ℚ)
  | 0, k => some k
  | n + 1, k => (steps n k).bind advance

/-- The sample processing loop (`TremeloUnit.cpp` lines 393-445). -/
def processLoop (k : TremeloUnitKernel ℚ) (tremeloDepth : ℚ) :
    List ℚ → List ℚ → Option (TremeloUnitKernel ℚ × List ℚ)
  | [], inDestP => some (k, inDestP)
  | inputSample :: sourceP, inDestP =>
    (sampleStep k tremeloDepth inputSample).bind fun r =>
      (processLoop r.1 tremeloDepth sourceP inDestP.tail).bind fun r2 =>
        some (r2.1, r.2 :: r2.2)

/-- The part of `Process` before the loop (`TremeloUnit.cpp` lines 339-372).  The two
quotients are `float` divisions; a quotient that is not a finite number is `none`. -/
def prepare (k : TremeloUnitKernel ℚ) (GetParameter : Parameters → ℚ) :
    Option (TremeloUnitKernel ℚ) :=
  (floatToInt (GetParameter Parameters.kParameter_Waveform)).bind fun tremeloWaveform =>
    let k : TremeloUnitKernel ℚ :=
      if tremeloWaveform = kSineWave_Tremelo_Waveform then
        { k with waveArrayPointer := WavePointer.sine }
      else
        { k with waveArrayPointer := WavePointer.square }
    let tremeloFrequency : ℚ := clampFrequency (GetParameter Parameters.kParameter_Frequency)
    (roundFloat32 (k.mSampleFrequency / tremeloFrequency)).bind fun samplesPerTremeloCycle =>
      if samplesPerTremeloCycle = 0 then none
      else
        (roundFloat32 ((kWaveArraySize : ℚ) / samplesPerTremeloCycle)).bind fun mNextScale =>
          some { k with mNextScale := mNextScale }

/-- The method `TremeloUnitKernel::Process` (`TremeloUnit.cpp` lines 309-447).  The loop
variable `i` is an `int` that counts up to the number of samples: incrementing it past
`2 ^ 31 - 1` is undefined, `none`. -/
def Process (k : TremeloUnitKernel ℚ) (GetParameter : Parameters → ℚ)
    (inSourceP inDestP : List ℚ) (ioSilence : Bool) :
    Option (TremeloUnitKernel ℚ × List ℚ) :=
  if !ioSilence then
    (prepare k GetParameter).bind fun k =>
      if inSourceP.length < 2 ^ 31 then
        processLoop k (clampDepth (GetParameter Parameters.kParameter_Depth)) inSourceP inDestP
      else none
  else
    some (k, inDestP)

/-- The kernel after a sequence of host calls, `none` when one of the calls fails. -/
def runCalls (k : TremeloUnitKernel ℚ) : List (Call ℚ) → Option (TremeloUnitKernel ℚ)
  | [] => some k
  | Call.process GetParameter inSourceP inDestP ioSilence :: calls =>
    (Process k GetParameter inSourceP inDestP ioSilence).bind fun r => runCalls r.1 calls
  | Call.reset :: calls => runCalls k.Reset calls

/-- The counter reset of an iteration from which the reset at `sampleLimit`
(`TremeloUnit.cpp` lines 420-422) is removed: lines 412-415 alone. -/
def resyncWithoutRuleB (k : TremeloUnitKernel ℚ) (index : Int) : TremeloUnitKernel ℚ :=
  if k.mNextScale ≠ k.mCurrentScale ∧ index = 0 then
    { k with mCurrentScale := k.mNextScale, mSamplesProcessed := 0 }
  else k

/-- One loop iteration from which the reset at `sampleLimit` is removed. -/
def sampleStepWithoutRuleB (k : TremeloUnitKernel ℚ) (tremeloDepth inputSample : ℚ) :
    Option (TremeloUnitKernel ℚ × ℚ) :=
  (index k).bind fun index =>
    (readTable (resyncWithoutRuleB k index).waveArray index).bind fun rawTremeloGain =>
      (tremeloGain rawTremeloGain tremeloDepth).bind fun tremeloGain =>
        (roundFloat32 (inputSample * tremeloGain)).bind fun outputSample =>
          (increment (resyncWithoutRuleB k index)).bind fun k =>
            some (k, outputSample)

/-- The effect on the kernel alone of an iteration without the reset at `sampleLimit`. -/
def advanceWithoutRuleB (k : TremeloUnitKernel ℚ) : Option (TremeloUnitKernel ℚ) :=
  (index k).bind fun index => increment (resyncWithoutRuleB k index)

/-- The kernel after a number of iterations without the reset at `sampleLimit`. -/
def stepsWithoutRuleB : Nat → TremeloUnitKernel ℚ → Option (TremeloUnitKernel ℚ)
  | 0, k => some k
  | n + 1, k => (stepsWithoutRuleB n k).bind advanceWithoutRuleB

/-- The reset at `sampleLimit` happens in the iteration that starts in state `k`: the index
is 0, no scale is pending (otherwise lines 412-415 have set the counter to 0) and the counter
has reached `sampleLimit`. -/
def ruleBFires (k : TremeloUnitKernel ℚ) : Prop :=
  index k = some 0 ∧ k.mNextScale = k.mCurrentScale ∧ k.mSamplesProcessed ≥ sampleLimit

end Machine

/-! ## Concrete kernels over `ℚ` used to evaluate the definitions -/

/-- A constructed kernel over `ℚ` at sample rate 10000; the stand-ins for `sin` and `M_PI`
are rational. -/
def freshKernel : TremeloUnitKernel ℚ :=
  TremeloUnitKernel.construct (fun _ => 0) (22 / 7) 10000 WavePointer.sine 0

/-- A parameter store over `ℚ`: frequency, depth and waveform selector. -/
def sampleParameters (frequency depth waveform : ℚ) : Parameters → ℚ
  | Parameters.kParameter_Frequency => frequency
  | Parameters.kParameter_Depth => depth
  | Parameters.kParameter_Waveform => waveform

/-- A kernel over `ℚ` with constant tables for the machine arithmetic: sample rate, counter
and the two scale factors are given. -/
def machineKernel (sampleRate : ℚ) (mSamplesProcessed : Int) (mCurrentScale mNextScale : ℚ) :
    TremeloUnitKernel ℚ where
  mSine := fun _ => 1 / 2
  mSquare := fun _ => 1
  waveArrayPointer := WavePointer.sine
  mSampleFrequency := sampleRate
  mSamplesProcessed := mSamplesProcessed
  mCurrentScale := mCurrentScale
  mNextScale := mNextScale

/-! ## Polynomials with rational coefficients

The odd harmonics `sin (k x)` are polynomials in `sin x`, so the sum of harmonics in the
square wave table is a polynomial of degree 13 in `sin x`.  The definitions below bound a
polynomial on an interval from its expansion around the midpoint; they are evaluated on
rational numbers. -/

section Poly

variable {α : Type} [LinearOrderedField α]

/-- The value at `x` of the polynomial with the given coefficients, constant term first. -/
def polyEval (p : List ℚ) (x : α) : α :=
  p.foldr (fun c acc => (c : α) + x * acc) 0

/-- The sum of two polynomials. -/
def polyAdd : List ℚ → List ℚ → List ℚ
  | [], q => q
  | p, [] => p
  | a :: p, b :: q => (a + b) :: polyAdd p q

/-- The polynomial `h ↦ p (m + h)`. -/
def polyShift (m : ℚ) : List ℚ → List ℚ
  | [] => []
  | c :: p => polyAdd [c] (polyAdd ((polyShift m p).map (fun a => m * a)) (0 :: polyShift m p))

/-- The sum of `|c_j| r^j`: a bound of `|q h|` for `|h| ≤ r`. -/
def polyAbsBound (q : List ℚ) (r : ℚ) : ℚ :=
  q.foldr (fun c acc => |c| + r * acc) 0

/-- An upper bound of `q h` for `|h| ≤ r`. -/
def polyUpper (q : List ℚ) (r : ℚ) : ℚ :=
  match q with
  | [] => 0
  | c :: q => c + r * polyAbsBound q r

/-- A lower bound of `q h` for `|h| ≤ r`. -/
def polyLower (q : List ℚ) (r : ℚ) : ℚ :=
  match q with
  | [] => 0
  | c :: q => c - r * polyAbsBound q r

/-- The test that `p ≤ B` on the `i`-th of the `N` equal parts of `[-1, 1]`. -/
def checkInterval (p : List ℚ) (B : ℚ) (N i : ℕ) : Bool :=
  decide (polyUpper (polyShift (-1 + (2 * (i : ℚ) + 1) / (N : ℚ)) p) (1 / (N : ℚ)) ≤ B)

/-- The test that `p ≤ B` on each of the `N` equal parts of `[-1, 1]`. -/
def checkAll (p : List ℚ) (B : ℚ) (N : ℕ) : Bool :=
  (List.range N).all (checkInterval p B N)

/-- The polynomial `P` with
`sin x + 0.3 sin 3x + 0.15 sin 5x + 0.075 sin 7x + 0.0375 sin 9x + 0.01875 sin 11x
+ 0.009375 sin 13x = P (sin x)`. -/
def squarePoly : List ℚ :=
  [0, 1229 / 320, 0, -327 / 16, 0, 387 / 5, 0, -864 / 5, 0, 1092 / 5, 0, -144, 0, 192 / 5]

end Poly

/-! ## Basic facts about one loop iteration -/

section StepLemmas

set_option linter.unusedSectionVars false

variable {α : Type} [LinearOrderedField α] [FloorRing α]

theorem toLong_nonneg {x : α} (hx : 0 ≤ x) : 0 ≤ toLong x := by
  unfold toLong
  rw [if_pos hx]
  exact Int.floor_nonneg.mpr hx

theorem toLong_zero : toLong (0 : α) = 0 := by
  simp [toLong]

theorem index_lt (k : TremeloUnitKernel α) : k.index < (kWaveArraySize : Int) := by
  unfold TremeloUnitKernel.index
  exact Int.tmod_lt_of_pos _ (by norm_num)

theorem index_nonneg_of_nonneg (k : TremeloUnitKernel α) (hc : 0 ≤ k.mSamplesProcessed)
    (hs : 0 ≤ k.mCurrentScale) : 0 ≤ k.index := by
  unfold TremeloUnitKernel.index
  apply Int.tmod_nonneg
  apply toLong_nonneg
  exact mul_nonneg (by exact_mod_cast hc) hs

theorem readTable_eq_none_iff (table : Fin kWaveArraySize → α) (index : Int) :
    readTable table index = none ↔ ¬ (0 ≤ index ∧ index < (kWaveArraySize : Int)) := by
  unfold readTable
  by_cases h : 0 ≤ index ∧ index < (kWaveArraySize : Int)
  · rw [dif_pos h]
    exact ⟨fun hh => (by cases hh), fun hh => absurd h hh⟩
  · rw [dif_neg h]
    exact ⟨fun _ => h, fun _ => rfl⟩

theorem advance_waveArray (k : TremeloUnitKernel α) : k.advance.waveArray = k.waveArray := by
  unfold TremeloUnitKernel.advance TremeloUnitKernel.waveArray
  simp only
  split_ifs <;> rfl

/-- One iteration succeeds exactly when the table read is inside the array; the kernel it
leaves is `advance` and the output sample is the input sample times the gain. -/
theorem sampleStep_eq (k : TremeloUnitKernel α) (tremeloDepth inputSample : α) :
    sampleStep k tremeloDepth inputSample =
      (readTable k.waveArray k.index).map
        (fun rawTremeloGain =>
          (k.advance, inputSample * tremeloGain rawTremeloGain tremeloDepth)) := by
  unfold sampleStep TremeloUnitKernel.advance TremeloUnitKernel.waveArray
  simp only
  split_ifs <;> (cases hr : readTable _ k.index <;> simp_all)

theorem advance_mCurrentScale (k : TremeloUnitKernel α) :
    k.advance.mCurrentScale =
      if k.mNextScale ≠ k.mCurrentScale ∧ k.index = 0 then k.mNextScale
      else k.mCurrentScale := by
  unfold TremeloUnitKernel.advance
  simp only
  split_ifs <;> rfl

theorem advance_mSamplesProcessed (k : TremeloUnitKernel α) :
    k.advance.mSamplesProcessed =
      if (k.mNextScale ≠ k.mCurrentScale ∨ k.mSamplesProcessed ≥ sampleLimit) ∧ k.index = 0
      then 1 else k.mSamplesProcessed + 1 := by
  unfold TremeloUnitKernel.advance
  simp only
  by_cases hi : k.index = 0
  · by_cases hs : k.mNextScale = k.mCurrentScale
    · by_cases hl : k.mSamplesProcessed ≥ sampleLimit
      · simp [hi, hs, hl]
      · simp [hi, hs, hl]
    · simp [hi, hs, sampleLimit]
  · simp [hi]

theorem advance_mNextScale (k : TremeloUnitKernel α) :
    k.advance.mNextScale = k.mNextScale := by
  unfold TremeloUnitKernel.advance
  simp only
  split_ifs <;> rfl

theorem sampleStep_eq_none_iff (k : TremeloUnitKernel α) (tremeloDepth inputSample : α) :
    sampleStep k tremeloDepth inputSample = none ↔ k.index < 0 := by
  rw [sampleStep_eq, Option.map_eq_none', readTable_eq_none_iff]
  have h := index_lt k
  constructor
  · intro hn
    by_contra hc
    exact hn ⟨not_lt.mp hc, h⟩
  · intro hn hc
    exact absurd hc.1 (not_le.mpr hn)

theorem sampleStep_fst {k k' : TremeloUnitKernel α} {tremeloDepth inputSample outputSample : α}
    (h : sampleStep k tremeloDepth inputSample = some (k', outputSample)) :
    k' = k.advance := by
  rw [sampleStep_eq] at h
  cases hr : readTable k.waveArray k.index with
  | none => rw [hr] at h; cases h
  | some raw =>
    rw [hr] at h
    simp only [Option.map_some', Option.some.injEq, Prod.mk.injEq] at h
    exact h.1.symm

theorem advance_waveArrayPointer (k : TremeloUnitKernel α) :
    k.advance.waveArrayPointer = k.waveArrayPointer := by
  unfold TremeloUnitKernel.advance
  simp only
  split_ifs <;> rfl

theorem advance_mSampleFrequency (k : TremeloUnitKernel α) :
    k.advance.mSampleFrequency = k.mSampleFrequency := by
  unfold TremeloUnitKernel.advance
  simp only
  split_ifs <;> rfl

theorem advance_mSine (k : TremeloUnitKernel α) : k.advance.mSine = k.mSine := by
  unfold TremeloUnitKernel.advance
  simp only
  split_ifs <;> rfl

theorem advance_mSquare (k : TremeloUnitKernel α) : k.advance.mSquare = k.mSquare := by
  unfold TremeloUnitKernel.advance
  simp only
  split_ifs <;> rfl

/-- The fields that the loop never assigns are the same after any number of iterations. -/
theorem advance_iterate_frame (n : Nat) (k : TremeloUnitKernel α) :
    (TremeloUnitKernel.advance^[n] k).mSine = k.mSine ∧
    (TremeloUnitKernel.advance^[n] k).mSquare = k.mSquare ∧
    (TremeloUnitKernel.advance^[n] k).waveArrayPointer = k.waveArrayPointer ∧
    (TremeloUnitKernel.advance^[n] k).mSampleFrequency = k.mSampleFrequency ∧
    (TremeloUnitKernel.advance^[n] k).mNextScale = k.mNextScale := by
  induction n generalizing k with
  | zero => exact ⟨rfl, rfl, rfl, rfl, rfl⟩
  | succ n ih =>
    rw [Function.iterate_succ_apply]
    obtain ⟨h1, h2, h3, h4, h5⟩ := ih k.advance
    rw [h1, h2, h3, h4, h5]
    exact ⟨advance_mSine k, advance_mSquare k, advance_waveArrayPointer k,
      advance_mSampleFrequency k, advance_mNextScale k⟩

theorem advance_iterate_waveArray (n : Nat) (k : TremeloUnitKernel α) :
    (TremeloUnitKernel.advance^[n] k).waveArray = k.waveArray := by
  obtain ⟨h1, h2, h3, _, _⟩ := advance_iterate_frame n k
  unfold TremeloUnitKernel.waveArray
  rw [h1, h2, h3]

/-- The loop invariant that keeps every table read inside the array. -/
theorem advance_nonneg (k : TremeloUnitKernel α) (hc : 0 ≤ k.mSamplesProcessed)
    (hs : 0 ≤ k.mCurrentScale) (hn : 0 ≤ k.mNextScale) :
    0 ≤ k.advance.mSamplesProcessed ∧ 0 ≤ k.advance.mCurrentScale ∧
      0 ≤ k.advance.mNextScale := by
  rw [advance_mSamplesProcessed, advance_mCurrentScale, advance_mNextScale]
  refine ⟨?_, ?_, hn⟩
  · split_ifs
    · norm_num
    · omega
  · split_ifs
    · exact hn
    · exact hs

theorem advance_iterate_nonneg (n : Nat) (k : TremeloUnitKernel α)
    (hc : 0 ≤ k.mSamplesProcessed) (hs : 0 ≤ k.mCurrentScale) (hn : 0 ≤ k.mNextScale) :
    0 ≤ (TremeloUnitKernel.advance^[n] k).mSamplesProcessed ∧
      0 ≤ (TremeloUnitKernel.advance^[n] k).mCurrentScale ∧
      0 ≤ (TremeloUnitKernel.advance^[n] k).mNextScale := by
  induction n generalizing k with
  | zero => exact ⟨hc, hs, hn⟩
  | succ n ih =>
    rw [Function.iterate_succ_apply]
    obtain ⟨h1, h2, h3⟩ := advance_nonneg k hc hs hn
    exact ih k.advance h1 h2 h3

theorem processLoop_nil (k : TremeloUnitKernel α) (tremeloDepth : α) (inDestP : List α) :
    processLoop k tremeloDepth [] inDestP = some (k, inDestP) := rfl

theorem processLoop_cons (k : TremeloUnitKernel α) (tremeloDepth x : α)
    (xs inDestP : List α) :
    processLoop k tremeloDepth (x :: xs) inDestP =
      (sampleStep k tremeloDepth x).bind fun r =>
        (processLoop r.1 tremeloDepth xs inDestP.tail).map fun r2 => (r2.1, r.2 :: r2.2) := by
  rw [processLoop]
  cases h1 : sampleStep k tremeloDepth x with
  | none => rfl
  | some r =>
    obtain ⟨k1, y⟩ := r
    simp only [Option.some_bind]
    cases h2 : processLoop k1 tremeloDepth xs inDestP.tail with
    | none => rfl
    | some r2 => rfl

/-- The kernel after the loop is the kernel after as many iterations as there are samples. -/
theorem processLoop_fst {k k' : TremeloUnitKernel α} {tremeloDepth : α}
    {xs inDestP outDestP : List α}
    (h : processLoop k tremeloDepth xs inDestP = some (k', outDestP)) :
    k' = TremeloUnitKernel.advance^[xs.length] k := by
  induction xs generalizing k k' inDestP outDestP with
  | nil =>
    rw [processLoop_nil] at h
    simp only [Option.some.injEq, Prod.mk.injEq] at h
    exact h.1.symm
  | cons x xs ih =>
    rw [processLoop_cons] at h
    cases h1 : sampleStep k tremeloDepth x with
    | none => rw [h1] at h; cases h
    | some r =>
      obtain ⟨k1, y⟩ := r
      rw [h1] at h
      simp only [Option.some_bind] at h
      cases h2 : processLoop k1 tremeloDepth xs inDestP.tail with
      | none => rw [h2] at h; cases h
      | some r2 =>
        obtain ⟨k2, rest⟩ := r2
        rw [h2] at h
        simp only [Option.map_some', Option.some.injEq, Prod.mk.injEq] at h
        have hk1 := sampleStep_fst h1
        have hk2 := ih h2
        rw [List.length_cons, Function.iterate_succ_apply, ← hk1, ← hk2]
        exact h.1.symm

/-- The loop succeeds from every state with a non-negative counter and non-negative scale
factors. -/
theorem processLoop_isSome (k : TremeloUnitKernel α) (tremeloDepth : α)
    (xs inDestP : List α) (hc : 0 ≤ k.mSamplesProcessed) (hs : 0 ≤ k.mCurrentScale)
    (hn : 0 ≤ k.mNextScale) :
    ∃ r, processLoop k tremeloDepth xs inDestP = some r := by
  induction xs generalizing k inDestP with
  | nil => exact ⟨_, rfl⟩
  | cons x xs ih =>
    rw [processLoop_cons]
    cases h1 : sampleStep k tremeloDepth x with
    | none =>
      have hneg := (sampleStep_eq_none_iff k tremeloDepth x).mp h1
      exact absurd (index_nonneg_of_nonneg k hc hs) (not_le.mpr hneg)
    | some r =>
      obtain ⟨k1, y⟩ := r
      have hk1 := sampleStep_fst h1
      obtain ⟨a, b, c⟩ := advance_nonneg k hc hs hn
      rw [← hk1] at a b c
      obtain ⟨r2, hr2⟩ := ih k1 inDestP.tail a b c
      refine ⟨(r2.1, y :: r2.2), ?_⟩
      simp only [Option.some_bind, hr2, Option.map_some']

/-! ## Facts about the parameter resolution and the whole loop -/

theorem clampFrequency_bounds (f : α) :
    (0.5 : α) ≤ clampFrequency f ∧ clampFrequency f ≤ 20 := by
  unfold clampFrequency kMinimumValue_Tremelo_Freq kMaximumValue_Tremelo_Freq
  simp only
  split_ifs with h1 h2 h3 <;> constructor <;> norm_num at * <;> linarith

theorem clampDepth_bounds (d : α) : (0 : α) ≤ clampDepth d ∧ clampDepth d ≤ 100 := by
  unfold clampDepth kMinimumValue_Tremelo_Depth kMaximumValue_Tremelo_Depth
  simp only
  split_ifs with h1 h2 h3 <;> constructor <;> norm_num at * <;> linarith

theorem clampDepth_of_hundred_le {d : α} (h : 100 ≤ d) : clampDepth d = 100 := by
  unfold clampDepth kMinimumValue_Tremelo_Depth kMaximumValue_Tremelo_Depth
  simp only
  split_ifs with h1 h2 h3 <;> norm_num at * <;> linarith

theorem prepare_mSamplesProcessed (k : TremeloUnitKernel α) (GetParameter : Parameters → α) :
    (prepare k GetParameter).mSamplesProcessed = k.mSamplesProcessed := by
  unfold prepare
  simp only
  split_ifs <;> rfl

theorem prepare_mCurrentScale (k : TremeloUnitKernel α) (GetParameter : Parameters → α) :
    (prepare k GetParameter).mCurrentScale = k.mCurrentScale := by
  unfold prepare
  simp only
  split_ifs <;> rfl

theorem prepare_mSampleFrequency (k : TremeloUnitKernel α) (GetParameter : Parameters → α) :
    (prepare k GetParameter).mSampleFrequency = k.mSampleFrequency := by
  unfold prepare
  simp only
  split_ifs <;> rfl

theorem prepare_mSine (k : TremeloUnitKernel α) (GetParameter : Parameters → α) :
    (prepare k GetParameter).mSine = k.mSine := by
  unfold prepare
  simp only
  split_ifs <;> rfl

theorem prepare_mSquare (k : TremeloUnitKernel α) (GetParameter : Parameters → α) :
    (prepare k GetParameter).mSquare = k.mSquare := by
  unfold prepare
  simp only
  split_ifs <;> rfl

theorem prepare_mNextScale (k : TremeloUnitKernel α) (GetParameter : Parameters → α) :
    (prepare k GetParameter).mNextScale =
      (kWaveArraySize : α) /
        (k.mSampleFrequency / clampFrequency (GetParameter Parameters.kParameter_Frequency)) := by
  unfold prepare
  simp only
  split_ifs <;> rfl

theorem prepare_waveArrayPointer (k : TremeloUnitKernel α) (GetParameter : Parameters → α) :
    (prepare k GetParameter).waveArrayPointer =
      if toLong (GetParameter Parameters.kParameter_Waveform) = kSineWave_Tremelo_Waveform
      then WavePointer.sine else WavePointer.square := by
  unfold prepare
  simp only
  split_ifs <;> rfl

theorem prepare_mNextScale_pos (k : TremeloUnitKernel α) (GetParameter : Parameters → α)
    (hr : 0 < k.mSampleFrequency) : 0 < (prepare k GetParameter).mNextScale := by
  rw [prepare_mNextScale]
  have hf := (clampFrequency_bounds (GetParameter Parameters.kParameter_Frequency)).1
  have hf0 : (0 : α) < clampFrequency (GetParameter Parameters.kParameter_Frequency) :=
    lt_of_lt_of_le (by norm_num) hf
  exact div_pos (by norm_num) (div_pos hr hf0)

/-- Two kernels that agree on the tables, the sample rate and the state are prepared to the
same kernel: `prepare` overwrites `waveArrayPointer` and `mNextScale`. -/
theorem prepare_congr (k k' : TremeloUnitKernel α) (GetParameter : Parameters → α)
    (h1 : k'.mSine = k.mSine) (h2 : k'.mSquare = k.mSquare)
    (h3 : k'.mSampleFrequency = k.mSampleFrequency)
    (h4 : k'.mSamplesProcessed = k.mSamplesProcessed)
    (h5 : k'.mCurrentScale = k.mCurrentScale) :
    prepare k' GetParameter = prepare k GetParameter := by
  cases k
  cases k'
  simp only at h1 h2 h3 h4 h5
  subst h1 h2 h3 h4 h5
  unfold prepare
  simp only
  split_ifs <;> rfl

/-- Preparing again a kernel that the loop left after a preparation with the same
parameters changes nothing. -/
theorem prepare_advance_iterate (k : TremeloUnitKernel α) (GetParameter : Parameters → α)
    (n : Nat) :
    prepare (TremeloUnitKernel.advance^[n] (prepare k GetParameter)) GetParameter =
      TremeloUnitKernel.advance^[n] (prepare k GetParameter) := by
  obtain ⟨h1, h2, h3, h4, h5⟩ := advance_iterate_frame n (prepare k GetParameter)
  have hp := prepare_waveArrayPointer k GetParameter
  have hn := prepare_mNextScale k GetParameter
  have hf := prepare_mSampleFrequency k GetParameter
  generalize TremeloUnitKernel.advance^[n] (prepare k GetParameter) = k2 at *
  generalize prepare k GetParameter = k1 at *
  rw [hp] at h3
  rw [hn] at h5
  rw [hf] at h4
  cases k2
  simp only at h3 h4 h5
  subst h3 h4 h5
  unfold prepare
  simp only
  split_ifs <;> rfl

/-- Processing a concatenation is processing the first part, then the second part from the
state and destination position that the first part left. -/
theorem processLoop_append (k : TremeloUnitKernel α) (tremeloDepth : α)
    (xs ys inDestP : List α) :
    processLoop k tremeloDepth (xs ++ ys) inDestP =
      (processLoop k tremeloDepth xs inDestP).bind fun r =>
        (processLoop r.1 tremeloDepth ys (r.2.drop xs.length)).map fun r2 =>
          (r2.1, r.2.take xs.length ++ r2.2) := by
  induction xs generalizing k inDestP with
  | nil =>
    rw [processLoop_nil]
    simp
  | cons x xs ih =>
    rw [List.cons_append, processLoop_cons, processLoop_cons]
    cases h1 : sampleStep k tremeloDepth x with
    | none => rfl
    | some r =>
      simp only [Option.some_bind]
      rw [ih]
      cases h2 : processLoop r.1 tremeloDepth xs inDestP.tail with
      | none => rfl
      | some r2 =>
        simp only [Option.some_bind, Option.map_some', List.length_cons, List.drop_succ_cons,
          List.take_succ_cons, List.cons_append, Option.map_map]
        rfl

theorem Reset_wellFormed (k : TremeloUnitKernel α) (h : k.WellFormed) : k.Reset.WellFormed :=
  ⟨le_refl 0, le_refl 0, h.2.2⟩

/-- A successful `Process` call keeps the tables and the sample rate, and keeps the kernel
well-formed. -/
theorem Process_frame {k k' : TremeloUnitKernel α} {GetParameter : Parameters → α}
    {inSourceP inDestP outDestP : List α} {ioSilence : Bool}
    (h : k.Process GetParameter inSourceP inDestP ioSilence = some (k', outDestP)) :
    k'.mSine = k.mSine ∧ k'.mSquare = k.mSquare ∧
      k'.mSampleFrequency = k.mSampleFrequency ∧ (k.WellFormed → k'.WellFormed) := by
  unfold TremeloUnitKernel.Process at h
  cases ioSilence with
  | true =>
    simp only [Bool.not_true, Bool.false_eq_true, if_false, Option.some.injEq,
      Prod.mk.injEq] at h
    rw [← h.1]
    exact ⟨rfl, rfl, rfl, id⟩
  | false =>
    simp only [Bool.not_false, if_true] at h
    have hk := processLoop_fst h
    obtain ⟨h1, h2, _, h4, _⟩ := advance_iterate_frame inSourceP.length (prepare k GetParameter)
    rw [← hk] at h1 h2 h4
    rw [h1, h2, h4, prepare_mSine, prepare_mSquare, prepare_mSampleFrequency]
    refine ⟨rfl, rfl, rfl, ?_⟩
    intro hw
    obtain ⟨hc, hs, hr⟩ := hw
    have hinv := advance_iterate_nonneg inSourceP.length (prepare k GetParameter)
      (by rw [prepare_mSamplesProcessed]; exact hc)
      (by rw [prepare_mCurrentScale]; exact hs)
      (le_of_lt (prepare_mNextScale_pos k GetParameter hr))
    rw [← hk] at hinv
    refine ⟨hinv.1, hinv.2.1, ?_⟩
    rw [h4, prepare_mSampleFrequency]
    exact hr

/-- Every kernel that a sequence of host calls reaches has the tables and the sample rate of
the kernel it started from, and is well-formed when that kernel is. -/
theorem runCalls_frame {k k' : TremeloUnitKernel α} {calls : List (Call α)}
    (h : runCalls k calls = some k') :
    k'.mSine = k.mSine ∧ k'.mSquare = k.mSquare ∧
      k'.mSampleFrequency = k.mSampleFrequency ∧ (k.WellFormed → k'.WellFormed) := by
  induction calls generalizing k with
  | nil =>
    simp only [runCalls, Option.some.injEq] at h
    rw [← h]
    exact ⟨rfl, rfl, rfl, id⟩
  | cons c calls ih =>
    cases c with
    | process GetParameter inSourceP inDestP ioSilence =>
      rw [runCalls] at h
      cases hp : k.Process GetParameter inSourceP inDestP ioSilence with
      | none => rw [hp] at h; cases h
      | some r =>
        obtain ⟨k1, out⟩ := r
        rw [hp] at h
        simp only at h
        obtain ⟨a1, a2, a3, a4⟩ := Process_frame hp
        obtain ⟨b1, b2, b3, b4⟩ := ih h
        exact ⟨b1.trans a1, b2.trans a2, b3.trans a3, fun hw => b4 (a4 hw)⟩
    | reset =>
      rw [runCalls] at h
      obtain ⟨b1, b2, b3, b4⟩ := ih h
      exact ⟨b1, b2, b3, fun hw => b4 (Reset_wellFormed k hw)⟩

theorem construct_wellFormed (sin : α → α) (M_PI sampleRate : α)
    (waveArrayPointer : WavePointer) (mNextScale : α) (hr : 0 < sampleRate) :
    (TremeloUnitKernel.construct sin M_PI sampleRate waveArrayPointer mNextScale).WellFormed :=
  ⟨le_refl 0, le_refl 0, hr⟩

/-- A non-silent `Process` call succeeds on every well-formed kernel. -/
theorem Process_isSome (k : TremeloUnitKernel α) (GetParameter : Parameters → α)
    (inSourceP inDestP : List α) (hw : k.WellFormed) :
    ∃ r, k.Process GetParameter inSourceP inDestP false = some r := by
  obtain ⟨hc, hs, hr⟩ := hw
  unfold TremeloUnitKernel.Process
  simp only [Bool.not_false, if_true]
  apply processLoop_isSome
  · rw [prepare_mSamplesProcessed]; exact hc
  · rw [prepare_mCurrentScale]; exact hs
  · exact le_of_lt (prepare_mNextScale_pos k GetParameter hr)

theorem index_of_counter_zero (k : TremeloUnitKernel α) (hc : k.mSamplesProcessed = 0) :
    k.index = 0 := by
  unfold TremeloUnitKernel.index
  rw [hc]
  simp [toLong]

theorem Process_of_silence (k : TremeloUnitKernel α) (GetParameter : Parameters → α)
    (inSourceP inDestP : List α) :
    k.Process GetParameter inSourceP inDestP true = some (k, inDestP) := by
  simp [TremeloUnitKernel.Process]

theorem clampFrequency_eq_max_min (f : α) : clampFrequency f = max 0.5 (min 20 f) := by
  unfold clampFrequency kMinimumValue_Tremelo_Freq kMaximumValue_Tremelo_Freq
  simp only
  by_cases h1 : f < 0.5
  · have h2 : ¬ ((0.5 : α) > 20.0) := by norm_num
    have h3 : f ≤ 20 := by
      have : (0.5 : α) ≤ 20 := by norm_num
      exact le_trans (le_of_lt h1) this
    rw [if_pos h1, if_neg h2, min_eq_right h3, max_eq_left (le_of_lt h1)]
  · rw [if_neg h1]
    have h1' : (0.5 : α) ≤ f := not_lt.mp h1
    by_cases h2 : f > 20.0
    · have h2' : (20 : α) ≤ f := by
        have h4 : (20.0 : α) = 20 := by norm_num
        rw [h4] at h2
        exact le_of_lt h2
      rw [if_pos h2, min_eq_left h2', max_eq_right (by norm_num)]
      norm_num
    · have h2' : f ≤ 20 := by
        have h4 : (20.0 : α) = 20 := by norm_num
        rw [h4] at h2
        exact not_lt.mp h2
      rw [if_neg h2, min_eq_right h2', max_eq_right h1']

theorem clampDepth_eq_max_min (d : α) : clampDepth d = max 0 (min 100 d) := by
  unfold clampDepth kMinimumValue_Tremelo_Depth kMaximumValue_Tremelo_Depth
  simp only
  have e0 : (0.0 : α) = 0 := by norm_num
  have e100 : (100.0 : α) = 100 := by norm_num
  rw [e0, e100]
  by_cases h1 : d < 0
  · have h2 : ¬ ((0 : α) > 100) := by norm_num
    have h3 : d ≤ 100 := le_trans (le_of_lt h1) (by norm_num)
    rw [if_pos h1, if_neg h2, min_eq_right h3, max_eq_left (le_of_lt h1)]
  · rw [if_neg h1]
    have h1' : (0 : α) ≤ d := not_lt.mp h1
    by_cases h2 : d > 100
    · rw [if_pos h2, min_eq_left (le_of_lt h2), max_eq_right (by norm_num)]
    · rw [if_neg h2, min_eq_right (not_lt.mp h2), max_eq_right h1']

theorem readTable_isSome (table : Fin kWaveArraySize → α) (index : Int) (h0 : 0 ≤ index)
    (h1 : index < (kWaveArraySize : Int)) : ∃ rawTremeloGain,
      readTable table index = some rawTremeloGain := by
  cases h : readTable table index with
  | none => exact absurd ⟨h0, h1⟩ ((readTable_eq_none_iff table index).mp h)
  | some raw => exact ⟨raw, rfl⟩

end StepLemmas

/-! ## The counter in the steady state and the overflow guard -/

section CounterBound

variable {α : Type} [LinearOrderedField α] [FloorRing α]

end CounterBound
section SameParameters

variable {α : Type} [LinearOrderedField α] [FloorRing α]

end SameParameters

/-! ## Bounds of polynomials and of the sum of harmonics -/

section PolyLemmas
variable {α : Type} [LinearOrderedField α]

theorem polyEval_nil (x : α) : polyEval [] x = 0 := rfl

theorem polyEval_cons (c : ℚ) (p : List ℚ) (x : α) :
    polyEval (c :: p) x = (c : α) + x * polyEval p x := rfl

theorem polyEval_add (p q : List ℚ) (x : α) :
    polyEval (polyAdd p q) x = polyEval p x + polyEval q x := by
  induction p generalizing q with
  | nil => simp [polyAdd, polyEval_nil]
  | cons a p ih =>
    cases q with
    | nil => simp [polyAdd, polyEval_nil]
    | cons b q =>
      rw [polyAdd, polyEval_cons, polyEval_cons, polyEval_cons, ih]
      push_cast
      ring

theorem polyEval_map_mul (m : ℚ) (p : List ℚ) (x : α) :
    polyEval (p.map (fun a => m * a)) x = (m : α) * polyEval p x := by
  induction p with
  | nil => simp [polyEval_nil]
  | cons a p ih =>
    rw [List.map_cons, polyEval_cons, polyEval_cons, ih]
    push_cast
    ring

theorem polyShift_eval (m : ℚ) (p : List ℚ) (h : α) :
    polyEval (polyShift m p) h = polyEval p ((m : α) + h) := by
  induction p with
  | nil => rfl
  | cons c p ih =>
    rw [polyShift, polyEval_add, polyEval_add, polyEval_map_mul, polyEval_cons, polyEval_cons,
      polyEval_cons, polyEval_nil, ih]
    push_cast
    ring

theorem polyAbsBound_nonneg (q : List ℚ) (r : ℚ) (hr : 0 ≤ r) : 0 ≤ polyAbsBound q r := by
  induction q with
  | nil => exact le_refl 0
  | cons c q ih =>
    show 0 ≤ |c| + r * polyAbsBound q r
    exact add_nonneg (abs_nonneg c) (mul_nonneg hr ih)

theorem abs_polyEval_le (q : List ℚ) (r : ℚ) (h : α) (hh : |h| ≤ (r : α)) :
    |polyEval q h| ≤ ((polyAbsBound q r : ℚ) : α) := by
  have hr : (0 : ℚ) ≤ r := by
    have : (0 : α) ≤ (r : α) := le_trans (abs_nonneg h) hh
    exact_mod_cast this
  induction q with
  | nil => simp [polyEval_nil, polyAbsBound]
  | cons c q ih =>
    rw [polyEval_cons]
    show _ ≤ ((|c| + r * polyAbsBound q r : ℚ) : α)
    push_cast
    have h1 : |(c : α) + h * polyEval q h| ≤ |(c : α)| + |h * polyEval q h| := abs_add _ _
    have h2 : |h * polyEval q h| ≤ (r : α) * ((polyAbsBound q r : ℚ) : α) := by
      rw [abs_mul]
      exact mul_le_mul hh ih (abs_nonneg _) (le_trans (abs_nonneg h) hh)
    linarith

theorem polyEval_le_polyUpper (q : List ℚ) (r : ℚ) (h : α) (hh : |h| ≤ (r : α)) :
    polyEval q h ≤ ((polyUpper q r : ℚ) : α) := by
  cases q with
  | nil => simp [polyEval_nil, polyUpper]
  | cons c q =>
    rw [polyEval_cons]
    show _ ≤ ((c + r * polyAbsBound q r : ℚ) : α)
    push_cast
    have h2 : h * polyEval q h ≤ (r : α) * ((polyAbsBound q r : ℚ) : α) := by
      have h3 := abs_polyEval_le q r h hh
      calc h * polyEval q h ≤ |h * polyEval q h| := le_abs_self _
        _ = |h| * |polyEval q h| := abs_mul _ _
        _ ≤ (r : α) * ((polyAbsBound q r : ℚ) : α) :=
            mul_le_mul hh h3 (abs_nonneg _) (le_trans (abs_nonneg h) hh)
    linarith

theorem polyEval_le_of_checkInterval (p : List ℚ) (B : ℚ) (N i : ℕ) (hN : 0 < N)
    (hc : checkInterval p B N i = true) (x : α)
    (h1 : -1 + 2 * (i : α) / (N : α) ≤ x) (h2 : x ≤ -1 + 2 * ((i : α) + 1) / (N : α)) :
    polyEval p x ≤ (B : α) := by
  unfold checkInterval at hc
  have hle := of_decide_eq_true hc
  have hN' : (0 : α) < (N : α) := by exact_mod_cast hN
  have hx : x = ((-1 + (2 * (i : ℚ) + 1) / (N : ℚ) : ℚ) : α) +
      (x - ((-1 + (2 * (i : ℚ) + 1) / (N : ℚ) : ℚ) : α)) := by ring
  have hh : |x - ((-1 + (2 * (i : ℚ) + 1) / (N : ℚ) : ℚ) : α)| ≤ ((1 / (N : ℚ) : ℚ) : α) := by
    push_cast
    rw [abs_le]
    constructor
    · have : -1 + 2 * (i : α) / (N : α) = -1 + (2 * (i : α) + 1) / (N : α) - 1 / (N : α) := by
        field_simp
        ring
      linarith
    · have : -1 + 2 * ((i : α) + 1) / (N : α) = -1 + (2 * (i : α) + 1) / (N : α) + 1 / (N : α) := by
        field_simp
        ring
      linarith
  rw [hx, ← polyShift_eval]
  have hb := polyEval_le_polyUpper (polyShift (-1 + (2 * (i : ℚ) + 1) / (N : ℚ)) p)
    (1 / (N : ℚ)) _ hh
  have hle' : ((polyUpper (polyShift (-1 + (2 * (i : ℚ) + 1) / (N : ℚ)) p) (1 / (N : ℚ)) : ℚ) : α)
      ≤ (B : α) := by exact_mod_cast hle
  exact le_trans hb hle'

theorem polyEval_le_of_checkAll (p : List ℚ) (B : ℚ) (N : ℕ) (hN : 0 < N)
    (hc : checkAll p B N = true) (x : α) (h1 : -1 ≤ x) (h2 : x ≤ 1) :
    polyEval p x ≤ (B : α) := by
  have hN' : (0 : α) < (N : α) := by exact_mod_cast hN
  have hall : ∀ i, i < N → checkInterval p B N i = true := by
    intro i hi
    unfold checkAll at hc
    rw [List.all_eq_true] at hc
    exact hc i (List.mem_range.mpr hi)
  have key : ∀ n : ℕ, n ≤ N → ∀ y : α, -1 ≤ y → y ≤ -1 + 2 * (n : α) / (N : α) →
      polyEval p y ≤ (B : α) := by
    intro n
    induction n with
    | zero =>
      intro _ y hy1 hy2
      simp only [Nat.cast_zero, mul_zero, zero_div, add_zero] at hy2
      apply polyEval_le_of_checkInterval p B N 0 hN (hall 0 hN) y
      · simp only [Nat.cast_zero, mul_zero, zero_div, add_zero]
        exact hy1
      · have hpos : (0 : α) ≤ 2 * (((0 : ℕ) : α) + 1) / (N : α) := by positivity
        linarith
    | succ n ih =>
      intro hn y hy1 hy2
      by_cases hcase : y ≤ -1 + 2 * (n : α) / (N : α)
      · exact ih (Nat.le_of_succ_le hn) y hy1 hcase
      · apply polyEval_le_of_checkInterval p B N n hN (hall n hn) y
        · exact le_of_lt (not_le.mp hcase)
        · push_cast at hy2
          exact hy2
  apply key N (le_refl N) x h1
  have : 2 * (N : α) / (N : α) = 2 := by field_simp
  linarith

end PolyLemmas

theorem squarePoly_check : checkAll squarePoly (257/320) 40 = true := by decide!

theorem sin_add_two_mul (a p : ℝ) :
    Real.sin (a + 2 * p) =
      2 * (1 - 2 * Real.sin p ^ 2) * Real.sin a - Real.sin (a - 2 * p) := by
  have hc : Real.cos (2 * p) = 1 - 2 * Real.sin p ^ 2 := by
    rw [Real.cos_two_mul, Real.cos_sq']
    ring
  rw [Real.sin_add, Real.sin_sub, hc]
  ring

theorem harmonics_eq_polyEval (x : ℝ) :
    Real.sin x + 0.3 * Real.sin (3 * x) + 0.15 * Real.sin (5 * x) + 0.075 * Real.sin (7 * x) +
      0.0375 * Real.sin (9 * x) + 0.01875 * Real.sin (11 * x) + 0.009375 * Real.sin (13 * x)
      = polyEval squarePoly (Real.sin x) := by
  have h3 : Real.sin (3 * x) = 3 * Real.sin x - 4 * Real.sin x ^ 3 := Real.sin_three_mul x
  have h5 : Real.sin (5 * x) =
      2 * (1 - 2 * Real.sin x ^ 2) * Real.sin (3 * x) - Real.sin x := by
    have h := sin_add_two_mul (3 * x) x
    have e1 : 3 * x + 2 * x = 5 * x := by ring
    have e2 : 3 * x - 2 * x = x := by ring
    rw [e1, e2] at h
    exact h
  have h7 : Real.sin (7 * x) =
      2 * (1 - 2 * Real.sin x ^ 2) * Real.sin (5 * x) - Real.sin (3 * x) := by
    have h := sin_add_two_mul (5 * x) x
    have e1 : 5 * x + 2 * x = 7 * x := by ring
    have e2 : 5 * x - 2 * x = 3 * x := by ring
    rw [e1, e2] at h
    exact h
  have h9 : Real.sin (9 * x) =
      2 * (1 - 2 * Real.sin x ^ 2) * Real.sin (7 * x) - Real.sin (5 * x) := by
    have h := sin_add_two_mul (7 * x) x
    have e1 : 7 * x + 2 * x = 9 * x := by ring
    have e2 : 7 * x - 2 * x = 5 * x := by ring
    rw [e1, e2] at h
    exact h
  have h11 : Real.sin (11 * x) =
      2 * (1 - 2 * Real.sin x ^ 2) * Real.sin (9 * x) - Real.sin (7 * x) := by
    have h := sin_add_two_mul (9 * x) x
    have e1 : 9 * x + 2 * x = 11 * x := by ring
    have e2 : 9 * x - 2 * x = 7 * x := by ring
    rw [e1, e2] at h
    exact h
  have h13 : Real.sin (13 * x) =
      2 * (1 - 2 * Real.sin x ^ 2) * Real.sin (11 * x) - Real.sin (9 * x) := by
    have h := sin_add_two_mul (11 * x) x
    have e1 : 11 * x + 2 * x = 13 * x := by ring
    have e2 : 11 * x - 2 * x = 9 * x := by ring
    rw [e1, e2] at h
    exact h
  rw [h13, h11, h9, h7, h5, h3]
  unfold squarePoly
  simp only [polyEval_cons, polyEval_nil]
  push_cast
  ring

theorem harmonics_le (x : ℝ) :
    Real.sin x + 0.3 * Real.sin (3 * x) + 0.15 * Real.sin (5 * x) + 0.075 * Real.sin (7 * x) +
      0.0375 * Real.sin (9 * x) + 0.01875 * Real.sin (11 * x) + 0.009375 * Real.sin (13 * x)
      ≤ 257 / 320 := by
  rw [harmonics_eq_polyEval]
  have h := polyEval_le_of_checkAll squarePoly (257 / 320) 40 (by norm_num) squarePoly_check (Real.sin x)
    (Real.neg_one_le_sin x) (Real.sin_le_one x)
  have e : ((257 / 320 : ℚ) : ℝ) = 257 / 320 := by push_cast; ring
  rw [e] at h
  exact h

theorem polyLower_le_polyEval {α : Type} [LinearOrderedField α] (q : List ℚ) (r : ℚ) (h : α)
    (hh : |h| ≤ (r : α)) : ((polyLower q r : ℚ) : α) ≤ polyEval q h := by
  cases q with
  | nil => simp [polyEval_nil, polyLower]
  | cons c q =>
    rw [polyEval_cons]
    show ((c - r * polyAbsBound q r : ℚ) : α) ≤ _
    push_cast
    have h2 : -((r : α) * ((polyAbsBound q r : ℚ) : α)) ≤ h * polyEval q h := by
      have h3 := abs_polyEval_le q r h hh
      have h4 : |h * polyEval q h| ≤ (r : α) * ((polyAbsBound q r : ℚ) : α) := by
        rw [abs_mul]
        exact mul_le_mul hh h3 (abs_nonneg _) (le_trans (abs_nonneg h) hh)
      exact (abs_le.mp h4).1
    linarith

theorem squarePoly_lower_check :
    (248 / 315 : ℚ) < polyLower (polyShift 1 squarePoly) (1 / 1000) := by decide!

theorem squarePoly_upper_check :
    polyUpper (polyShift (-1) squarePoly) (1 / 1000) < (-401 / 500 : ℚ) := by decide!

/-- The offset of the phase of table entry 398 from a quarter period is tiny, so the cosine
of the offset is within a thousandth of 1. -/
theorem cos_offset_bounds :
    |Real.cos (0.32 - 0.102 * Real.pi) - ((1 : ℚ) : ℝ)| ≤ ((1 / 1000 : ℚ) : ℝ) := by
  have hpl := Real.pi_gt_d2
  have hpu := Real.pi_lt_d2
  have hcos := @Real.one_sub_sq_div_two_le_cos (0.32 - 0.102 * Real.pi)
  have hsq : (0.32 - 0.102 * Real.pi) ^ 2 ≤ (2 / 1000 : ℝ) ^ 2 := by
    apply sq_le_sq'
    · linarith
    · linarith
  have hs2 := Real.cos_le_one (0.32 - 0.102 * Real.pi)
  have h3 : (2 / 1000 : ℝ) ^ 2 / 2 ≤ 1 / 1000 := by norm_num
  push_cast
  rw [abs_le]
  constructor <;> linarith

/-- The sum of harmonics at the phase of table entry 398 is above `248 / 315`. -/
theorem harmonics_398_gt :
    (248 / 315 : ℝ) < polyEval squarePoly
      (Real.sin (((398 : ℕ) : ℝ) * 2.0 * Real.pi / ((2000 : ℕ) : ℝ) + 0.32)) := by
  have hx : ((398 : ℕ) : ℝ) * 2.0 * Real.pi / ((2000 : ℕ) : ℝ) + 0.32 =
      (0.32 - 0.102 * Real.pi) + Real.pi / 2 := by
    push_cast
    ring
  rw [hx, Real.sin_add_pi_div_two]
  have hlow := polyLower_le_polyEval (polyShift 1 squarePoly) (1 / 1000)
    (Real.cos (0.32 - 0.102 * Real.pi) - ((1 : ℚ) : ℝ)) cos_offset_bounds
  rw [polyShift_eval] at hlow
  have e : ((1 : ℚ) : ℝ) + (Real.cos (0.32 - 0.102 * Real.pi) - ((1 : ℚ) : ℝ)) =
      Real.cos (0.32 - 0.102 * Real.pi) := by ring
  rw [e] at hlow
  have hc : ((248 / 315 : ℚ) : ℝ) <
      ((polyLower (polyShift 1 squarePoly) (1 / 1000) : ℚ) : ℝ) := by
    exact_mod_cast squarePoly_lower_check
  have h4 : ((248 / 315 : ℚ) : ℝ) = 248 / 315 := by push_cast; ring
  rw [← h4]
  exact lt_of_lt_of_le hc hlow

/-- The sum of harmonics at the phase of table entry 1398 is below `-401 / 500`. -/
theorem harmonics_1398_lt :
    polyEval squarePoly
      (Real.sin (((1398 : ℕ) : ℝ) * 2.0 * Real.pi / ((2000 : ℕ) : ℝ) + 0.32))
      < (-401 / 500 : ℝ) := by
  have hx : ((1398 : ℕ) : ℝ) * 2.0 * Real.pi / ((2000 : ℕ) : ℝ) + 0.32 =
      ((0.32 - 0.102 * Real.pi) + Real.pi / 2) + Real.pi := by
    push_cast
    ring
  rw [hx, Real.sin_add_pi, Real.sin_add_pi_div_two]
  have hh : |(-Real.cos (0.32 - 0.102 * Real.pi)) - (((-1 : ℚ) : ℚ) : ℝ)| ≤
      ((1 / 1000 : ℚ) : ℝ) := by
    have h := cos_offset_bounds
    have e : (-Real.cos (0.32 - 0.102 * Real.pi)) - (((-1 : ℚ) : ℚ) : ℝ) =
        -(Real.cos (0.32 - 0.102 * Real.pi) - ((1 : ℚ) : ℝ)) := by
      push_cast
      ring
    rw [e, abs_neg]
    exact h
  have hup := polyEval_le_polyUpper (polyShift (-1) squarePoly) (1 / 1000)
    ((-Real.cos (0.32 - 0.102 * Real.pi)) - (((-1 : ℚ) : ℚ) : ℝ)) hh
  rw [polyShift_eval] at hup
  have e : (((-1 : ℚ) : ℚ) : ℝ) + ((-Real.cos (0.32 - 0.102 * Real.pi)) - (((-1 : ℚ) : ℚ) : ℝ)) =
      -Real.cos (0.32 - 0.102 * Real.pi) := by ring
  rw [e] at hup
  have hc : ((polyUpper (polyShift (-1) squarePoly) (1 / 1000) : ℚ) : ℝ) <
      ((-401 / 500 : ℚ) : ℝ) := by
    exact_mod_cast squarePoly_upper_check
  have h4 : ((-401 / 500 : ℚ) : ℝ) = -401 / 500 := by push_cast; ring
  rw [← h4]
  exact lt_of_le_of_lt hup hc

/-- Every entry of the square wave table of a constructed kernel, with the real `sin` and
`π`, in terms of the polynomial of the harmonics. -/
theorem mSquare_eq_polyEval (sampleRate mNextScale : ℝ) (waveArrayPointer : WavePointer)
    (i : Fin kWaveArraySize) :
    (TremeloUnitKernel.construct Real.sin Real.pi sampleRate waveArrayPointer
        mNextScale).mSquare i =
      (polyEval squarePoly
        (Real.sin (((i.val : ℕ) : ℝ) * 2.0 * Real.pi / ((2000 : ℕ) : ℝ) + 0.32)) + 0.8)
        * 0.63 := by
  simp only [TremeloUnitKernel.construct, kWaveArraySize]
  rw [harmonics_eq_polyEval]

/-! ## The claims that do not depend on rounding -/

section Claims

variable {α : Type} [LinearOrderedField α] [FloorRing α]

/-- C1: buffer-split invariance of `Process`.  For every kernel, parameter values, source
buffer, destination buffer and split point `n`, one non-silent call on the whole source
buffer gives the same result (failure, or the same final kernel and the same destination
contents) as a call on the first `n` samples followed by a call, with the same parameter
values, on the remaining samples writing from position `n` of the destination. -/
theorem Process_split (k : TremeloUnitKernel α) (GetParameter : Parameters → α)
    (inSourceP inDestP : List α) (n : Nat) :
    k.Process GetParameter inSourceP inDestP false =
      (k.Process GetParameter (inSourceP.take n) inDestP false).bind fun r =>
        (r.1.Process GetParameter (inSourceP.drop n) (r.2.drop n) false).map fun r2 =>
          (r2.1, r.2.take n ++ r2.2) := by
  unfold TremeloUnitKernel.Process
  simp only [Bool.not_false, if_true]
  have hsplit := processLoop_append (prepare k GetParameter)
    (clampDepth (GetParameter Parameters.kParameter_Depth))
    (inSourceP.take n) (inSourceP.drop n) inDestP
  rw [List.take_append_drop] at hsplit
  rw [hsplit]
  cases h : processLoop (prepare k GetParameter)
      (clampDepth (GetParameter Parameters.kParameter_Depth)) (inSourceP.take n) inDestP with
  | none => rfl
  | some r =>
    obtain ⟨k1, out1⟩ := r
    have hk1 := processLoop_fst h
    have hp : prepare k1 GetParameter = k1 := by
      rw [hk1]
      exact prepare_advance_iterate k GetParameter _
    simp only [Option.some_bind]
    rw [hp]
    by_cases hn : n ≤ inSourceP.length
    · rw [List.length_take, min_eq_left hn]
    · have hn' : inSourceP.length ≤ n := le_of_lt (not_le.mp hn)
      rw [List.drop_of_length_le hn', processLoop_nil, processLoop_nil]
      simp only [Option.map_some', List.take_append_drop]

/-- C7: silence pass-through.  A `Process` call with the silence flag set succeeds, returns
the destination buffer as it was and the kernel as it was (so `mSamplesProcessed` and
`mCurrentScale` keep their values). -/
theorem Process_silence (k : TremeloUnitKernel α) (GetParameter : Parameters → α)
    (inSourceP inDestP : List α) :
    k.Process GetParameter inSourceP inDestP true = some (k, inDestP) :=
  Process_of_silence k GetParameter inSourceP inDestP

/-- C8: `Reset` restores the just-constructed behaviour.  For every kernel reached from a
constructed kernel by a sequence of `Process` and `Reset` calls, the kernel after `Reset` has
counter 0 and current scale 0, the next `Process` call starts at index 0, a non-silent
`Process` call gives exactly the result (success, final kernel, destination contents) of the
same call on a freshly constructed kernel with the same sample rate, and for either value of
the silence flag the counter, the current scale and the destination contents agree. -/
theorem Reset_restores_fresh (sin : α → α) (M_PI sampleRate : α)
    (waveArrayPointer waveArrayPointer' : WavePointer) (mNextScale mNextScale' : α)
    (calls : List (Call α)) (k : TremeloUnitKernel α)
    (hrun : runCalls
      (TremeloUnitKernel.construct sin M_PI sampleRate waveArrayPointer mNextScale) calls
        = some k)
    (GetParameter : Parameters → α) (inSourceP inDestP : List α) :
    k.Reset.mSamplesProcessed = 0 ∧ k.Reset.mCurrentScale = 0 ∧
    (prepare k.Reset GetParameter).index = 0 ∧
    k.Reset.Process GetParameter inSourceP inDestP false =
      (TremeloUnitKernel.construct sin M_PI sampleRate waveArrayPointer' mNextScale').Process
        GetParameter inSourceP inDestP false ∧
    ∀ ioSilence : Bool,
      (k.Reset.Process GetParameter inSourceP inDestP ioSilence).map
          (fun r => (r.1.mSamplesProcessed, r.1.mCurrentScale, r.2)) =
        ((TremeloUnitKernel.construct sin M_PI sampleRate waveArrayPointer'
            mNextScale').Process GetParameter inSourceP inDestP ioSilence).map
          (fun r => (r.1.mSamplesProcessed, r.1.mCurrentScale, r.2)) := by
  obtain ⟨h1, h2, h3, _⟩ := runCalls_frame hrun
  have hp : prepare k.Reset GetParameter =
      prepare (TremeloUnitKernel.construct sin M_PI sampleRate waveArrayPointer' mNextScale')
        GetParameter :=
    prepare_congr _ _ GetParameter
      (by rw [TremeloUnitKernel.Reset]; exact h1) (by rw [TremeloUnitKernel.Reset]; exact h2)
      (by rw [TremeloUnitKernel.Reset]; exact h3) rfl rfl
  have hns : k.Reset.Process GetParameter inSourceP inDestP false =
      (TremeloUnitKernel.construct sin M_PI sampleRate waveArrayPointer' mNextScale').Process
        GetParameter inSourceP inDestP false := by
    unfold TremeloUnitKernel.Process
    simp only [Bool.not_false, if_true]
    rw [hp]
  refine ⟨rfl, rfl, ?_, hns, ?_⟩
  · apply index_of_counter_zero
    rw [prepare_mSamplesProcessed]
    rfl
  · intro ioSilence
    cases ioSilence with
    | false => rw [hns]
    | true =>
      rw [Process_of_silence, Process_of_silence]
      rfl

theorem freshKernel_wellFormed : freshKernel.WellFormed := by
  unfold TremeloUnitKernel.WellFormed freshKernel TremeloUnitKernel.construct
  norm_num

/-- C8 at a concrete history: one `Process` call of two samples on a constructed kernel,
then `Reset`, then a call that gives the result of the same call on the constructed kernel. -/
theorem Reset_restores_fresh_witness :
    ∃ k, runCalls freshKernel
        [Call.process (sampleParameters 10 50 1) [1, 2] [0, 0] false] = some k ∧
      k.Reset.Process (sampleParameters 5 100 2) [1] [0] false =
        freshKernel.Process (sampleParameters 5 100 2) [1] [0] false := by
  obtain ⟨⟨k1, out⟩, h⟩ := Process_isSome freshKernel (sampleParameters 10 50 1) [1, 2] [0, 0]
    freshKernel_wellFormed
  have hrun : runCalls freshKernel
      [Call.process (sampleParameters 10 50 1) [1, 2] [0, 0] false] = some k1 := by
    simp only [runCalls, h]
  exact ⟨k1, hrun, (Reset_restores_fresh (fun _ => 0) (22 / 7) 10000 WavePointer.sine
    WavePointer.sine 0 0 _ k1 hrun (sampleParameters 5 100 2) [1] [0]).2.2.2.1⟩

/-- C3, counterexample: entry 398 of the square wave table of a constructed kernel (with the
real `sin` and `π`) is greater than 1, so it does not lie in `[0, 1]`. -/
theorem mSquare_398_exceeds_one :
    1 < (TremeloUnitKernel.construct Real.sin Real.pi 44100 WavePointer.sine 0).mSquare
        ⟨398, by norm_num⟩ ∧
    ¬ (0 ≤ (TremeloUnitKernel.construct Real.sin Real.pi 44100 WavePointer.sine 0).mSquare
        ⟨398, by norm_num⟩ ∧
      (TremeloUnitKernel.construct Real.sin Real.pi 44100 WavePointer.sine 0).mSquare
        ⟨398, by norm_num⟩ ≤ 1) := by
  have h : 1 < (TremeloUnitKernel.construct Real.sin Real.pi 44100 WavePointer.sine
      0).mSquare ⟨398, by norm_num⟩ := by
    rw [mSquare_eq_polyEval]
    have hg := harmonics_398_gt
    have e : (1 : ℝ) = (248 / 315 + 0.8) * 0.63 := by norm_num
    rw [e]
    apply mul_lt_mul_of_pos_right _ (by norm_num)
    linarith
  exact ⟨h, fun hc => absurd hc.2 (not_le.mpr h)⟩

/-- Entry 1398 of the square wave table of a constructed kernel (with the real `sin` and
`π`) is negative: the offset 0.8 does not keep the table from going negative. -/
theorem mSquare_1398_negative :
    (TremeloUnitKernel.construct Real.sin Real.pi 44100 WavePointer.sine 0).mSquare
        ⟨1398, by norm_num⟩ < 0 := by
  rw [mSquare_eq_polyEval]
  have hg := harmonics_1398_lt
  have e : (0 : ℝ) = (-(0.8 : ℝ) + 0.8) * 0.63 := by norm_num
  rw [e]
  apply mul_lt_mul_of_pos_right _ (by norm_num)
  have h5 : (-401 / 500 : ℝ) < -(0.8 : ℝ) := by norm_num
  linarith

/-- C3, amended: every entry of the square wave table of a constructed kernel (with the real
`sin` and `π`) is `0.63 * (sin p + 0.3 sin 3p + 0.15 sin 5p + 0.075 sin 7p + 0.0375 sin 9p +
0.01875 sin 11p + 0.009375 sin 13p + 0.8)` with `p = 2 π i / 2000 + 0.32`, and is at most
`1.01`: the peak is close to unity gain. -/
theorem mSquare_le (sampleRate mNextScale : ℝ) (waveArrayPointer : WavePointer)
    (i : Fin kWaveArraySize) :
    (TremeloUnitKernel.construct Real.sin Real.pi sampleRate waveArrayPointer
        mNextScale).mSquare i =
      0.63 * (Real.sin (2 * Real.pi * (i.val : ℝ) / 2000 + 0.32)
        + 0.3 * Real.sin (3 * (2 * Real.pi * (i.val : ℝ) / 2000 + 0.32))
        + 0.15 * Real.sin (5 * (2 * Real.pi * (i.val : ℝ) / 2000 + 0.32))
        + 0.075 * Real.sin (7 * (2 * Real.pi * (i.val : ℝ) / 2000 + 0.32))
        + 0.0375 * Real.sin (9 * (2 * Real.pi * (i.val : ℝ) / 2000 + 0.32))
        + 0.01875 * Real.sin (11 * (2 * Real.pi * (i.val : ℝ) / 2000 + 0.32))
        + 0.009375 * Real.sin (13 * (2 * Real.pi * (i.val : ℝ) / 2000 + 0.32))
        + 0.8) ∧
    (TremeloUnitKernel.construct Real.sin Real.pi sampleRate waveArrayPointer
        mNextScale).mSquare i ≤ 1.01 := by
  constructor
  · simp only [TremeloUnitKernel.construct, kWaveArraySize]
    have ha : (i.val : ℝ) * 2.0 * Real.pi / ((2000 : ℕ) : ℝ) =
        2 * Real.pi * (i.val : ℝ) / 2000 := by
      push_cast
      ring
    rw [ha]
    ring
  · simp only [TremeloUnitKernel.construct, kWaveArraySize]
    have hb := harmonics_le ((i.val : ℝ) * 2.0 * Real.pi / ((2000 : ℕ) : ℝ) + 0.32)
    have e : (1.01 : ℝ) = (253 / 315 + 0.8) * 0.63 := by norm_num
    rw [e]
    apply mul_le_mul_of_nonneg_right _ (by norm_num)
    have h6 : (257 / 320 : ℝ) ≤ 253 / 315 := by norm_num
    linarith

/-- C4: the sine wave table of a constructed kernel, with the real `sin` and `π`, is
`(sin (2 π i / 2000) + 1) / 2` at every index `i`, and every entry lies in `[0, 1]`. -/
theorem mSine_reference (sampleRate mNextScale : ℝ) (waveArrayPointer : WavePointer)
    (i : Fin kWaveArraySize) :
    (TremeloUnitKernel.construct Real.sin Real.pi sampleRate waveArrayPointer mNextScale).mSine i
        = (Real.sin (2 * Real.pi * (i.val : ℝ) / 2000) + 1) / 2 ∧
    0 ≤ (TremeloUnitKernel.construct Real.sin Real.pi sampleRate waveArrayPointer
        mNextScale).mSine i ∧
    (TremeloUnitKernel.construct Real.sin Real.pi sampleRate waveArrayPointer
        mNextScale).mSine i ≤ 1 := by
  have he : (TremeloUnitKernel.construct Real.sin Real.pi sampleRate waveArrayPointer
      mNextScale).mSine i = (Real.sin (2 * Real.pi * (i.val : ℝ) / 2000) + 1) / 2 := by
    simp only [TremeloUnitKernel.construct, kWaveArraySize]
    have ha : (i.val : ℝ) * 2.0 * Real.pi / ((2000 : ℕ) : ℝ) = 2 * Real.pi * (i.val : ℝ) / 2000 := by
      push_cast
      ring
    rw [ha]
    norm_num
    ring
  rw [he]
  have h1 := Real.neg_one_le_sin (2 * Real.pi * (i.val : ℝ) / 2000)
  have h2 := Real.sin_le_one (2 * Real.pi * (i.val : ℝ) / 2000)
  refine ⟨rfl, ?_, ?_⟩
  · linarith
  · linarith

end Claims

section PresetClaims

variable {α : Type} [LinearOrderedField α]

/-- C13: factory presets.  `NewFactoryPresetSet` with preset number 0 returns `noErr` and
sets frequency, depth and waveform to 2, 50 and 1 (sine); with preset number 1 it returns
`noErr` and sets them to 20, 90 and 2 (square); with every other preset number it returns
`kAudioUnitErr_InvalidProperty` and leaves the unit as it was; so the result is `noErr`
exactly when the preset number is the number of an entry of `kPresets`. -/
theorem NewFactoryPresetSet_presets (u : AudioUnitState α) (inNewFactoryPreset : AUPreset) :
    (inNewFactoryPreset.presetNumber = 0 →
      (NewFactoryPresetSet u inNewFactoryPreset).1 = OSStatus.noErr ∧
      (NewFactoryPresetSet u inNewFactoryPreset).2.parameters Parameters.kParameter_Frequency
        = 2 ∧
      (NewFactoryPresetSet u inNewFactoryPreset).2.parameters Parameters.kParameter_Depth
        = 50 ∧
      (NewFactoryPresetSet u inNewFactoryPreset).2.parameters Parameters.kParameter_Waveform
        = 1) ∧
    (inNewFactoryPreset.presetNumber = 1 →
      (NewFactoryPresetSet u inNewFactoryPreset).1 = OSStatus.noErr ∧
      (NewFactoryPresetSet u inNewFactoryPreset).2.parameters Parameters.kParameter_Frequency
        = 20 ∧
      (NewFactoryPresetSet u inNewFactoryPreset).2.parameters Parameters.kParameter_Depth
        = 90 ∧
      (NewFactoryPresetSet u inNewFactoryPreset).2.parameters Parameters.kParameter_Waveform
        = 2) ∧
    (inNewFactoryPreset.presetNumber ≠ 0 → inNewFactoryPreset.presetNumber ≠ 1 →
      NewFactoryPresetSet u inNewFactoryPreset =
        (OSStatus.kAudioUnitErr_InvalidProperty, u)) ∧
    ((NewFactoryPresetSet u inNewFactoryPreset).1 = OSStatus.noErr ↔
      inNewFactoryPreset.presetNumber ∈ kPresets.map AUPreset.presetNumber) := by
  have h0 : inNewFactoryPreset.presetNumber = 0 →
      NewFactoryPresetSet u inNewFactoryPreset =
        (OSStatus.noErr, SetAFactoryPresetAsCurrent
          (SetParameter
            (SetParameter
              (SetParameter u Parameters.kParameter_Frequency kParameter_Preset_Frequency_Slow)
              Parameters.kParameter_Depth kParameter_Preset_Depth_Slow)
            Parameters.kParameter_Waveform kParameter_Preset_Waveform_Slow)
          (AUPreset.mk kPreset_Slow "Slow & Gentle")) := by
    intro h
    simp [NewFactoryPresetSet, presetLoop, kPresets, kPreset_Slow, kPreset_Fast, h]
  have h1 : inNewFactoryPreset.presetNumber = 1 →
      NewFactoryPresetSet u inNewFactoryPreset =
        (OSStatus.noErr, SetAFactoryPresetAsCurrent
          (SetParameter
            (SetParameter
              (SetParameter u Parameters.kParameter_Frequency kParameter_Preset_Frequency_Fast)
              Parameters.kParameter_Depth kParameter_Preset_Depth_Fast)
            Parameters.kParameter_Waveform kParameter_Preset_Waveform_Fast)
          (AUPreset.mk kPreset_Fast "Fast & Hard")) := by
    intro h
    simp [NewFactoryPresetSet, presetLoop, kPresets, kPreset_Slow, kPreset_Fast, h]
  have h2 : inNewFactoryPreset.presetNumber ≠ 0 → inNewFactoryPreset.presetNumber ≠ 1 →
      NewFactoryPresetSet u inNewFactoryPreset =
        (OSStatus.kAudioUnitErr_InvalidProperty, u) := by
    intro ha hb
    simp [NewFactoryPresetSet, presetLoop, kPresets, kPreset_Slow, kPreset_Fast, ha, hb]
  refine ⟨?_, ?_, h2, ?_⟩
  · intro h
    rw [h0 h]
    simp [SetAFactoryPresetAsCurrent, SetParameter, Function.update,
      kParameter_Preset_Frequency_Slow, kParameter_Preset_Depth_Slow,
      kParameter_Preset_Waveform_Slow, kSineWave_Tremelo_Waveform]
    norm_num
  · intro h
    rw [h1 h]
    simp [SetAFactoryPresetAsCurrent, SetParameter, Function.update,
      kParameter_Preset_Frequency_Fast, kParameter_Preset_Depth_Fast,
      kParameter_Preset_Waveform_Fast, kSquareWave_Tremelo_Waveform]
    norm_num
  · by_cases ha : inNewFactoryPreset.presetNumber = 0
    · rw [h0 ha]
      simp [kPresets, kPreset_Slow, kPreset_Fast, ha]
    · by_cases hb : inNewFactoryPreset.presetNumber = 1
      · rw [h1 hb]
        simp [kPresets, kPreset_Slow, kPreset_Fast, hb]
      · rw [h2 ha hb]
        simp [kPresets, kPreset_Slow, kPreset_Fast, ha, hb]

/-- C13 at concrete requests on a unit over `ℚ`: preset 1 sets the frequency to 20 and
preset 7 is refused and changes nothing. -/
theorem NewFactoryPresetSet_presets_witness :
    (NewFactoryPresetSet (AudioUnitState.mk (sampleParameters 2 50 1) none)
        (AUPreset.mk 1 "Fast & Hard")).2.parameters Parameters.kParameter_Frequency = 20 ∧
    NewFactoryPresetSet (AudioUnitState.mk (sampleParameters 2 50 1) none)
        (AUPreset.mk 7 "unknown") =
      (OSStatus.kAudioUnitErr_InvalidProperty,
        AudioUnitState.mk (sampleParameters 2 50 1) none) :=
  ⟨((NewFactoryPresetSet_presets (AudioUnitState.mk (sampleParameters 2 50 1) none)
      (AUPreset.mk 1 "Fast & Hard")).2.1 rfl).2.1,
    (NewFactoryPresetSet_presets (AudioUnitState.mk (sampleParameters 2 50 1) none)
      (AUPreset.mk 7 "unknown")).2.2.1 (by decide) (by decide)⟩

end PresetClaims

/-! # The kernel in the arithmetic of the compiled code: theorems -/

namespace Machine

/-! ## Rounding to `float` and `double` -/

theorem roundHalfEven_sub_le (x : ℚ) : |(roundHalfEven x : ℚ) - x| ≤ 1 / 2 := by
  have h1 := Int.floor_le x
  have h2 := Int.lt_floor_add_one x
  unfold roundHalfEven
  rw [abs_le]
  split_ifs <;> push_cast <;> constructor <;> linarith

theorem roundHalfEven_intCast (n : Int) : roundHalfEven (n : ℚ) = n := by
  unfold roundHalfEven
  simp

theorem roundHalfEven_eq_of_abs_lt (x : ℚ) (n : Int) (h : |x - (n : ℚ)| < 1 / 2) :
    roundHalfEven x = n := by
  have hs := roundHalfEven_sub_le x
  rw [abs_lt] at h
  rw [abs_le] at hs
  have h3 : |((roundHalfEven x - n : Int) : ℚ)| < 1 := by
    rw [abs_lt]
    push_cast
    constructor <;> linarith
  have h4 : |roundHalfEven x - n| < 1 := by exact_mod_cast h3
  have h5 := Int.abs_lt_one_iff.mp h4
  omega

theorem roundHalfEven_nonneg {x : ℚ} (hx : 0 ≤ x) : 0 ≤ roundHalfEven x := by
  have h0 : 0 ≤ ⌊x⌋ := Int.floor_nonneg.mpr hx
  unfold roundHalfEven
  split_ifs <;> omega

theorem log_two_eq {x : ℚ} {e : Int} (h1 : 2 ^ e ≤ |x|) (h2 : |x| < 2 ^ (e + 1)) :
    Int.log 2 |x| = e := by
  have hpos : (0 : ℚ) < |x| := lt_of_lt_of_le (by positivity) h1
  have ha : e ≤ Int.log 2 |x| :=
    (Int.zpow_le_iff_le_log (by norm_num) hpos).mp (by exact_mod_cast h1)
  have hb : Int.log 2 |x| < e + 1 :=
    (Int.lt_zpow_iff_log_lt (by norm_num) hpos).mp (by exact_mod_cast h2)
  omega

/-- Evaluation of a rounding from the binade of the argument and the nearest multiple of the
unit in the last place. -/
theorem roundToFormat_eq (p : Nat) (emin emax : Int) (x : ℚ) (e g n : Int)
    (h1 : 2 ^ e ≤ |x|) (h2 : |x| < 2 ^ (e + 1)) (hg : g = max (e - ((p : Int) - 1)) emin)
    (hn : |x / 2 ^ g - (n : ℚ)| < 1 / 2) (hfin : |(n : ℚ) * 2 ^ g| < 2 ^ emax) :
    roundToFormat p emin emax x = some ((n : ℚ) * 2 ^ g) := by
  have hu : ulpExponent p emin x = g := by
    unfold ulpExponent
    rw [log_two_eq h1 h2, hg]
  unfold roundToFormat
  rw [hu, roundHalfEven_eq_of_abs_lt _ n hn, if_pos hfin]

theorem roundToFormat_zero (p : Nat) (emin emax : Int) :
    roundToFormat p emin emax 0 = some 0 := by
  unfold roundToFormat
  have h : roundHalfEven (0 / 2 ^ ulpExponent p emin 0) = 0 := by
    rw [zero_div]
    exact roundHalfEven_intCast 0
  rw [h]
  simp
  positivity

theorem roundToFormat_nonneg {p : Nat} {emin emax : Int} {x y : ℚ}
    (h : roundToFormat p emin emax x = some y) (hx : 0 ≤ x) : 0 ≤ y := by
  unfold roundToFormat at h
  split_ifs at h
  simp only [Option.some.injEq] at h
  rw [← h]
  apply mul_nonneg
  · exact_mod_cast roundHalfEven_nonneg (div_nonneg hx (by positivity))
  · positivity

/-- The error of a rounding is at most half a unit in the last place. -/
theorem roundToFormat_error {p : Nat} {emin emax : Int} {x y : ℚ}
    (h : roundToFormat p emin emax x = some y) :
    |y - x| ≤ 2 ^ ulpExponent p emin x / 2 := by
  unfold roundToFormat at h
  split_ifs at h
  simp only [Option.some.injEq] at h
  rw [← h]
  have hpos : (0 : ℚ) < 2 ^ ulpExponent p emin x := by positivity
  have hs := roundHalfEven_sub_le (x / 2 ^ ulpExponent p emin x)
  have e : (roundHalfEven (x / 2 ^ ulpExponent p emin x) : ℚ) * 2 ^ ulpExponent p emin x - x =
      ((roundHalfEven (x / 2 ^ ulpExponent p emin x) : ℚ) - x / 2 ^ ulpExponent p emin x)
        * 2 ^ ulpExponent p emin x := by
    field_simp
  rw [e, abs_mul, abs_of_pos hpos]
  calc |(roundHalfEven (x / 2 ^ ulpExponent p emin x) : ℚ) - x / 2 ^ ulpExponent p emin x|
        * 2 ^ ulpExponent p emin x ≤ 1 / 2 * 2 ^ ulpExponent p emin x :=
        mul_le_mul_of_nonneg_right hs (le_of_lt hpos)
    _ = 2 ^ ulpExponent p emin x / 2 := by ring

theorem ulpExponent_le {p : Nat} {emin : Int} {x : ℚ} {e : Int} (hx : x ≠ 0)
    (h2 : |x| < 2 ^ (e + 1)) (he : emin ≤ e - ((p : Int) - 1)) :
    ulpExponent p emin x ≤ e - ((p : Int) - 1) := by
  have hpos : (0 : ℚ) < |x| := abs_pos.mpr hx
  have hb : Int.log 2 |x| < e + 1 :=
    (Int.lt_zpow_iff_log_lt (by norm_num) hpos).mp (by exact_mod_cast h2)
  unfold ulpExponent
  apply max_le
  · omega
  · exact he

/-- A rounding of a value below `2 ^ (e + 1)` exists and is within `2 ^ (e - p)` of the
value. -/
theorem roundToFormat_near (p : Nat) (emin emax : Int) (x : ℚ) (e : Int)
    (h2 : |x| < 2 ^ (e + 1)) (he : emin ≤ e - ((p : Int) - 1)) (hp : 1 ≤ p)
    (hmax : e + 2 ≤ emax) :
    ∃ y, roundToFormat p emin emax x = some y ∧ |y - x| ≤ 2 ^ (e - (p : Int)) ∧
      (0 ≤ x → 0 ≤ y) := by
  by_cases hx : x = 0
  · subst hx
    refine ⟨0, roundToFormat_zero p emin emax, ?_, fun _ => le_refl 0⟩
    simp
    positivity
  · have hu := ulpExponent_le hx h2 he
    have hpow : (2 : ℚ) ^ ulpExponent p emin x / 2 ≤ 2 ^ (e - (p : Int)) := by
      have h3 : (2 : ℚ) ^ ulpExponent p emin x ≤ 2 ^ (e - ((p : Int) - 1)) :=
        zpow_le_zpow_right₀ (by norm_num) hu
      have h4 : (2 : ℚ) ^ (e - ((p : Int) - 1)) = 2 ^ (e - (p : Int)) * 2 := by
        rw [show e - ((p : Int) - 1) = (e - (p : Int)) + 1 by ring, zpow_add_one₀ (by norm_num)]
      rw [h4] at h3
      linarith
    have hs := roundHalfEven_sub_le (x / 2 ^ ulpExponent p emin x)
    have hposu : (0 : ℚ) < 2 ^ ulpExponent p emin x := by positivity
    have herr : |(roundHalfEven (x / 2 ^ ulpExponent p emin x) : ℚ) * 2 ^ ulpExponent p emin x
        - x| ≤ 2 ^ (e - (p : Int)) := by
      have e1 : (roundHalfEven (x / 2 ^ ulpExponent p emin x) : ℚ) * 2 ^ ulpExponent p emin x
          - x = ((roundHalfEven (x / 2 ^ ulpExponent p emin x) : ℚ)
            - x / 2 ^ ulpExponent p emin x) * 2 ^ ulpExponent p emin x := by
        field_simp
      rw [e1, abs_mul, abs_of_pos hposu]
      have := mul_le_mul_of_nonneg_right hs (le_of_lt hposu)
      linarith
    have hfin : |(roundHalfEven (x / 2 ^ ulpExponent p emin x) : ℚ)
        * 2 ^ ulpExponent p emin x| < 2 ^ emax := by
      have h5 : |(roundHalfEven (x / 2 ^ ulpExponent p emin x) : ℚ)
          * 2 ^ ulpExponent p emin x| ≤ |x| + 2 ^ (e - (p : Int)) := by
        have := abs_sub_abs_le_abs_sub
          ((roundHalfEven (x / 2 ^ ulpExponent p emin x) : ℚ) * 2 ^ ulpExponent p emin x) x
        linarith
      have h6 : (2 : ℚ) ^ (e - (p : Int)) ≤ 2 ^ (e + 1) :=
        zpow_le_zpow_right₀ (by norm_num) (by omega)
      have h7 : (2 : ℚ) ^ (e + 2) ≤ 2 ^ emax := zpow_le_zpow_right₀ (by norm_num) hmax
      have h8 : (2 : ℚ) ^ (e + 2) = 2 ^ (e + 1) * 2 := by
        rw [show e + 2 = (e + 1) + 1 by ring, zpow_add_one₀ (by norm_num)]
      linarith
    refine ⟨_, ?_, herr, ?_⟩
    · unfold roundToFormat
      rw [if_pos hfin]
    · intro h0
      apply mul_nonneg
      · exact_mod_cast roundHalfEven_nonneg (div_nonneg h0 (le_of_lt hposu))
      · exact le_of_lt hposu

theorem roundFloat32_near (x : ℚ) (e : Int) (h2 : |x| < 2 ^ (e + 1)) (he1 : -126 ≤ e)
    (he2 : e ≤ 126) :
    ∃ y, roundFloat32 x = some y ∧ |y - x| ≤ 2 ^ (e - 24) ∧ (0 ≤ x → 0 ≤ y) := by
  have h := roundToFormat_near 24 (-149) 128 x e h2 (by push_cast; omega) (by norm_num)
    (by omega)
  exact h

theorem roundFloat64_near (x : ℚ) (e : Int) (h2 : |x| < 2 ^ (e + 1)) (he1 : -1022 ≤ e)
    (he2 : e ≤ 1022) :
    ∃ y, roundFloat64 x = some y ∧ |y - x| ≤ 2 ^ (e - 53) ∧ (0 ≤ x → 0 ≤ y) := by
  have h := roundToFormat_near 53 (-1074) 1024 x e h2 (by push_cast; omega) (by norm_num)
    (by omega)
  exact h

/-- Integers of magnitude below `2 ^ 24` are values of `float`. -/
theorem roundFloat32_intCast (n : Int) (hn : |n| < 2 ^ 24) :
    roundFloat32 (n : ℚ) = some (n : ℚ) := by
  by_cases h0 : n = 0
  · subst h0
    exact roundToFormat_zero 24 (-149) 128
  · have hpos : (0 : ℚ) < |(n : ℚ)| := abs_pos.mpr (by exact_mod_cast h0)
    have h1 : (1 : ℚ) ≤ |(n : ℚ)| := by
      have : (1 : Int) ≤ |n| := Int.one_le_abs h0
      exact_mod_cast this
    have hlo : 0 ≤ Int.log 2 |(n : ℚ)| :=
      (Int.zpow_le_iff_le_log (by norm_num) hpos).mp (by simpa using h1)
    have hhi : Int.log 2 |(n : ℚ)| < 24 := by
      apply (Int.lt_zpow_iff_log_lt (by norm_num) hpos).mp
      have h24 : |(n : ℚ)| < 16777216 := by
        have : |n| < 16777216 := by
          have e : (2 : Int) ^ 24 = 16777216 := by norm_num
          rw [e] at hn
          exact hn
        exact_mod_cast this
      have e2 : ((2 : ℕ) : ℚ) ^ (24 : Int) = 16777216 := by norm_num
      rw [e2]
      exact h24
    have hu : ulpExponent 24 (-149) (n : ℚ) = Int.log 2 |(n : ℚ)| - 23 := by
      unfold ulpExponent
      push_cast
      rw [max_eq_left (by omega)]
    obtain ⟨m, hm⟩ : ∃ m : Nat, Int.log 2 |(n : ℚ)| - 23 = -(m : Int) :=
      ⟨(23 - Int.log 2 |(n : ℚ)|).toNat, by omega⟩
    have hdiv : (n : ℚ) / 2 ^ ulpExponent 24 (-149) (n : ℚ) = ((n * 2 ^ m : Int) : ℚ) := by
      rw [hu, hm, zpow_neg, zpow_natCast]
      push_cast
      field_simp
    have hval : ((n * 2 ^ m : Int) : ℚ) * 2 ^ ulpExponent 24 (-149) (n : ℚ) = (n : ℚ) := by
      rw [hu, hm, zpow_neg, zpow_natCast]
      push_cast
      field_simp
    unfold roundFloat32 roundToFormat
    rw [hdiv, roundHalfEven_intCast, hval]
    have hfin : |(n : ℚ)| < 2 ^ (128 : Int) := by
      have h24 : |(n : ℚ)| < 16777216 := by
        have : |n| < 16777216 := by
          have e : (2 : Int) ^ 24 = 16777216 := by norm_num
          rw [e] at hn
          exact hn
        exact_mod_cast this
      have : (16777216 : ℚ) ≤ 2 ^ (128 : Int) := by norm_num
      linarith
    rw [if_pos hfin]

/-- Evaluation of the rounding of a positive value. -/
theorem roundToFormat_eq_of_pos (p : Nat) (emin emax : Int) (x : ℚ) (e g n : Int)
    (h1 : 2 ^ e ≤ x) (h2 : x < 2 ^ (e + 1)) (hg : g = max (e - ((p : Int) - 1)) emin)
    (hn1 : (n : ℚ) - 1 / 2 < x / 2 ^ g) (hn2 : x / 2 ^ g < (n : ℚ) + 1 / 2)
    (hn0 : 0 ≤ n) (hfin : (n : ℚ) * 2 ^ g < 2 ^ emax) :
    roundToFormat p emin emax x = some ((n : ℚ) * 2 ^ g) := by
  have hx : 0 < x := lt_of_lt_of_le (by positivity) h1
  apply roundToFormat_eq p emin emax x e g n
  · rw [abs_of_pos hx]; exact h1
  · rw [abs_of_pos hx]; exact h2
  · exact hg
  · rw [abs_lt]
    constructor <;> linarith
  · rw [abs_of_nonneg (mul_nonneg (by exact_mod_cast hn0) (by positivity))]
    exact hfin

/-- Evaluation of the rounding of a negative value. -/
theorem roundToFormat_eq_of_neg (p : Nat) (emin emax : Int) (x : ℚ) (e g n : Int)
    (h1 : 2 ^ e ≤ -x) (h2 : -x < 2 ^ (e + 1)) (hg : g = max (e - ((p : Int) - 1)) emin)
    (hn1 : (n : ℚ) - 1 / 2 < x / 2 ^ g) (hn2 : x / 2 ^ g < (n : ℚ) + 1 / 2)
    (hn0 : n ≤ 0) (hfin : -((n : ℚ) * 2 ^ g) < 2 ^ emax) :
    roundToFormat p emin emax x = some ((n : ℚ) * 2 ^ g) := by
  have hx : x < 0 := by
    have : (0 : ℚ) < 2 ^ e := by positivity
    linarith
  apply roundToFormat_eq p emin emax x e g n
  · rw [abs_of_neg hx]; exact h1
  · rw [abs_of_neg hx]; exact h2
  · exact hg
  · rw [abs_lt]
    constructor <;> linarith
  · have hle : (n : ℚ) * 2 ^ g ≤ 0 :=
      mul_nonpos_of_nonpos_of_nonneg (by exact_mod_cast hn0) (by positivity)
    rw [abs_of_nonpos hle]
    exact hfin

/-- Integers of magnitude below `2 ^ 53` are values of `double`. -/
theorem roundFloat64_intCast (n : Int) (hn : |n| < 9007199254740992) :
    roundFloat64 (n : ℚ) = some (n : ℚ) := by
  by_cases h0 : n = 0
  · subst h0
    exact roundToFormat_zero 53 (-1074) 1024
  · have hpos : (0 : ℚ) < |(n : ℚ)| := abs_pos.mpr (by exact_mod_cast h0)
    have h1 : (1 : ℚ) ≤ |(n : ℚ)| := by
      have : (1 : Int) ≤ |n| := Int.one_le_abs h0
      exact_mod_cast this
    have hlo : 0 ≤ Int.log 2 |(n : ℚ)| :=
      (Int.zpow_le_iff_le_log (by norm_num) hpos).mp (by simpa using h1)
    have h53 : |(n : ℚ)| < 9007199254740992 := by exact_mod_cast hn
    have hhi : Int.log 2 |(n : ℚ)| < 53 := by
      apply (Int.lt_zpow_iff_log_lt (by norm_num) hpos).mp
      have e2 : ((2 : ℕ) : ℚ) ^ (53 : Int) = 9007199254740992 := by norm_num
      rw [e2]
      exact h53
    have hu : ulpExponent 53 (-1074) (n : ℚ) = Int.log 2 |(n : ℚ)| - 52 := by
      unfold ulpExponent
      push_cast
      rw [max_eq_left (by omega)]
    obtain ⟨m, hm⟩ : ∃ m : Nat, Int.log 2 |(n : ℚ)| - 52 = -(m : Int) :=
      ⟨(52 - Int.log 2 |(n : ℚ)|).toNat, by omega⟩
    have hdiv : (n : ℚ) / 2 ^ ulpExponent 53 (-1074) (n : ℚ) = ((n * 2 ^ m : Int) : ℚ) := by
      rw [hu, hm, zpow_neg, zpow_natCast]
      push_cast
      field_simp
    have hval : ((n * 2 ^ m : Int) : ℚ) * 2 ^ ulpExponent 53 (-1074) (n : ℚ) = (n : ℚ) := by
      rw [hu, hm, zpow_neg, zpow_natCast]
      push_cast
      field_simp
    unfold roundFloat64 roundToFormat
    rw [hdiv, roundHalfEven_intCast, hval]
    have hfin : |(n : ℚ)| < 2 ^ (1024 : Int) := by
      have : (9007199254740992 : ℚ) ≤ 2 ^ (1024 : Int) := by norm_num
      linarith
    rw [if_pos hfin]

theorem roundFloat32_zero : roundFloat32 0 = some 0 := roundToFormat_zero 24 (-149) 128

theorem roundFloat64_zero : roundFloat64 0 = some 0 := roundToFormat_zero 53 (-1074) 1024

theorem roundFloat32_natCast_small (n : Int) (h1 : -16777216 < n) (h2 : n < 16777216) :
    roundFloat32 (n : ℚ) = some (n : ℚ) := by
  apply roundFloat32_intCast
  have e : (2 : Int) ^ 24 = 16777216 := by norm_num
  rw [e, abs_lt]
  exact ⟨h1, h2⟩

theorem roundFloat64_hundred : roundFloat64 100 = some 100 := by
  have h := roundFloat64_intCast 100 (by norm_num)
  simpa using h

theorem roundFloat32_one : roundFloat32 1 = some 1 := by
  have h := roundFloat32_natCast_small 1 (by norm_num) (by norm_num)
  simpa using h

theorem roundFloat32_hundred : roundFloat32 100 = some 100 := by
  have h := roundFloat32_natCast_small 100 (by norm_num) (by norm_num)
  simpa using h

theorem roundFloat32_neg_hundred : roundFloat32 (-100) = some (-100) := by
  have h := roundFloat32_natCast_small (-100) (by norm_num) (by norm_num)
  simpa using h

/-- The doubles of the integers below `2 ^ 24` are values of `float`. -/
theorem roundFloat32_natCast_mul_two (n : Nat) (h : n < 16777216) :
    roundFloat32 ((n : ℚ) * 2) = some ((n : ℚ) * 2) := by
  by_cases hs : 2 * n < 16777216
  · have h1 := roundFloat32_natCast_small ((2 * n : Nat) : Int) (by omega) (by omega)
    have e : (((2 * n : Nat) : Int) : ℚ) = (n : ℚ) * 2 := by
      push_cast
      ring
    rw [e] at h1
    exact h1
  · have hq1 : (8388608 : ℚ) ≤ (n : ℚ) := by
      have : 8388608 ≤ n := by omega
      exact_mod_cast this
    have hq2 : (n : ℚ) < 16777216 := by exact_mod_cast h
    have h1 := roundToFormat_eq_of_pos 24 (-149) 128 ((n : ℚ) * 2) 24 1 (n : Int)
      (by norm_num; linarith) (by norm_num; linarith) (by norm_num)
      (by push_cast; norm_num) (by push_cast; norm_num) (by omega)
      (by push_cast; norm_num; linarith)
    rw [roundFloat32, h1]
    push_cast
    norm_num

/-- In the normal range the error of a rounding is at most the magnitude of the argument
divided by `2 ^ p`. -/
theorem roundToFormat_rel {p : Nat} {emin emax : Int} {x y : ℚ}
    (h : roundToFormat p emin emax x = some y) (hx : 2 ^ (emin + ((p : Int) - 1)) ≤ |x|) :
    |y - x| ≤ |x| / 2 ^ (p : Int) := by
  have hpos : (0 : ℚ) < |x| := lt_of_lt_of_le (by positivity) hx
  have hL : emin + ((p : Int) - 1) ≤ Int.log 2 |x| :=
    (Int.zpow_le_iff_le_log (by norm_num) hpos).mp (by exact_mod_cast hx)
  have herr := roundToFormat_error h
  have hu : ulpExponent p emin x = Int.log 2 |x| - ((p : Int) - 1) := by
    unfold ulpExponent
    rw [max_eq_left (by omega)]
  rw [hu] at herr
  have hlog : ((2 : ℚ)) ^ Int.log 2 |x| ≤ |x| := by
    have := Int.zpow_log_le_self (b := 2) (r := |x|) (by norm_num) hpos
    exact_mod_cast this
  have e1 : (2 : ℚ) ^ (Int.log 2 |x| - ((p : Int) - 1)) / 2
      = 2 ^ Int.log 2 |x| / 2 ^ (p : Int) := by
    rw [show Int.log 2 |x| - ((p : Int) - 1) = Int.log 2 |x| - (p : Int) + 1 by ring,
      zpow_add_one₀ (by norm_num), zpow_sub₀ (by norm_num)]
    ring
  rw [e1] at herr
  have hp2 : (0 : ℚ) < 2 ^ (p : Int) := by positivity
  calc |y - x| ≤ 2 ^ Int.log 2 |x| / 2 ^ (p : Int) := herr
    _ ≤ |x| / 2 ^ (p : Int) := div_le_div_of_nonneg_right hlog (le_of_lt hp2)

theorem roundFloat32_rel {x y : ℚ} (h : roundFloat32 x = some y)
    (hx : 1 / 85070591730234615865843651857942052864 ≤ |x|) :
    |y - x| ≤ |x| / 16777216 := by
  have h1 := @roundToFormat_rel 24 (-149) 128 x y h
    (by norm_num; linarith)
  norm_num at h1
  linarith

/-! ## Roundings of the values that the examples use -/

theorem roundFloat64_hundredth : roundFloat64 (1 / 100) = some (5764607523034235 / 576460752303423488) := by
  have h := roundToFormat_eq_of_pos 53 (-1074) 1024 (1 / 100) (-7) (-59) 5764607523034235
    (by norm_num) (by norm_num) (by norm_num) (by norm_num) (by norm_num) (by norm_num)
    (by norm_num)
  rw [roundFloat64, h]
  norm_num

theorem roundFloat64_hundred_hundredths : roundFloat64 (144115188075855875 / 144115188075855872) = some (1) := by
  have h := roundToFormat_eq_of_pos 53 (-1074) 1024 (144115188075855875 / 144115188075855872) (0) (-52) 4503599627370496
    (by norm_num) (by norm_num) (by norm_num) (by norm_num) (by norm_num) (by norm_num)
    (by norm_num)
  rw [roundFloat64, h]
  norm_num

theorem gain_example_product : roundFloat32 (206619975 / 2097152) = some (3228437 / 32768) := by
  have h := roundToFormat_eq_of_pos 24 (-149) 128 (206619975 / 2097152) (6) (-17) 12913748
    (by norm_num) (by norm_num) (by norm_num) (by norm_num) (by norm_num) (by norm_num)
    (by norm_num)
  rw [roundFloat32, h]
  norm_num

theorem gain_example_sum : roundFloat64 (3228437 / 32768) = some (3228437 / 32768) := by
  have h := roundToFormat_eq_of_pos 53 (-1074) 1024 (3228437 / 32768) (6) (-46) 6933015666098176
    (by norm_num) (by norm_num) (by norm_num) (by norm_num) (by norm_num) (by norm_num)
    (by norm_num)
  rw [roundFloat64, h]
  norm_num

theorem gain_example_scaled : roundFloat64 (18610672217842076540695 / 18889465931478580854784) = some (8874260052605665 / 9007199254740992) := by
  have h := roundToFormat_eq_of_pos 53 (-1074) 1024 (18610672217842076540695 / 18889465931478580854784) (-1) (-53) 8874260052605665
    (by norm_num) (by norm_num) (by norm_num) (by norm_num) (by norm_num) (by norm_num)
    (by norm_num)
  rw [roundFloat64, h]
  norm_num

theorem gain_example_gain : roundFloat32 (8874260052605665 / 9007199254740992) = some (16529597 / 16777216) := by
  have h := roundToFormat_eq_of_pos 24 (-149) 128 (8874260052605665 / 9007199254740992) (-1) (-24) 16529597
    (by norm_num) (by norm_num) (by norm_num) (by norm_num) (by norm_num) (by norm_num)
    (by norm_num)
  rw [roundFloat32, h]
  norm_num

theorem samplesPerCycle_44100_13 : roundFloat32 (44100 / 13) = some (3473723 / 1024) := by
  have h := roundToFormat_eq_of_pos 24 (-149) 128 (44100 / 13) (11) (-12) 13894892
    (by norm_num) (by norm_num) (by norm_num) (by norm_num) (by norm_num) (by norm_num)
    (by norm_num)
  rw [roundFloat32, h]
  norm_num

theorem scale_44100_13 : roundFloat32 (2048000 / 3473723) = some (9891329 / 16777216) := by
  have h := roundToFormat_eq_of_pos 24 (-149) 128 (2048000 / 3473723) (-1) (-24) 9891329
    (by norm_num) (by norm_num) (by norm_num) (by norm_num) (by norm_num) (by norm_num)
    (by norm_num)
  rw [roundFloat32, h]
  norm_num

theorem product_10000523 : roundFloat32 (98918463165067 / 16777216) = some (5896000) := by
  have h := roundToFormat_eq_of_pos 24 (-149) 128 (98918463165067 / 16777216) (22) (-1) 11792000
    (by norm_num) (by norm_num) (by norm_num) (by norm_num) (by norm_num) (by norm_num)
    (by norm_num)
  rw [roundFloat32, h]
  norm_num

theorem product_5 : roundFloat32 (49456645 / 16777216) = some (12364161 / 4194304) := by
  have h := roundToFormat_eq_of_pos 24 (-149) 128 (49456645 / 16777216) (1) (-22) 12364161
    (by norm_num) (by norm_num) (by norm_num) (by norm_num) (by norm_num) (by norm_num)
    (by norm_num)
  rw [roundFloat32, h]
  norm_num

theorem product_10000528 : roundFloat32 (6182407038857 / 1048576) = some (5896003) := by
  have h := roundToFormat_eq_of_pos 24 (-149) 128 (6182407038857 / 1048576) (22) (-1) 11792006
    (by norm_num) (by norm_num) (by norm_num) (by norm_num) (by norm_num) (by norm_num)
    (by norm_num)
  rw [roundFloat32, h]
  norm_num

theorem samplesPerCycle_8000_13 : roundFloat32 (8000 / 13) = some (5041231 / 8192) := by
  have h := roundToFormat_eq_of_pos 24 (-149) 128 (8000 / 13) (9) (-14) 10082462
    (by norm_num) (by norm_num) (by norm_num) (by norm_num) (by norm_num) (by norm_num)
    (by norm_num)
  rw [roundFloat32, h]
  norm_num

theorem scale_8000_13 : roundFloat32 (16384000 / 5041231) = some (13631487 / 4194304) := by
  have h := roundToFormat_eq_of_pos 24 (-149) 128 (16384000 / 5041231) (1) (-22) 13631487
    (by norm_num) (by norm_num) (by norm_num) (by norm_num) (by norm_num) (by norm_num)
    (by norm_num)
  rw [roundFloat32, h]
  norm_num

theorem samplesPerCycle_tiny : roundFloat32 (1 / 18014398509481984) = some (1 / 18014398509481984) := by
  have h := roundToFormat_eq_of_pos 24 (-149) 128 (1 / 18014398509481984) (-54) (-77) 8388608
    (by norm_num) (by norm_num) (by norm_num) (by norm_num) (by norm_num) (by norm_num)
    (by norm_num)
  rw [roundFloat32, h]
  norm_num

theorem scale_tiny : roundFloat32 (36028797018963968000) = some (36028797018963968000) := by
  have h := roundToFormat_eq_of_pos 24 (-149) 128 (36028797018963968000) (64) (41) 16384000
    (by norm_num) (by norm_num) (by norm_num) (by norm_num) (by norm_num) (by norm_num)
    (by norm_num)
  rw [roundFloat32, h]
  norm_num

theorem gain_example_difference : roundFloat32 (-48363 / 32768) = some (-48363 / 32768) := by
  have h := roundToFormat_eq_of_neg 24 (-149) 128 (-48363 / 32768) (0) (-23) (-12380928)
    (by norm_num) (by norm_num) (by norm_num) (by norm_num) (by norm_num) (by norm_num)
    (by norm_num)
  rw [roundFloat32, h]
  norm_num

theorem scale_44100_20 : roundFloat32 (400 / 441) = some (15217429 / 16777216) := by
  have h := roundToFormat_eq_of_pos 24 (-149) 128 (400 / 441) (-1) (-24) 15217429
    (by norm_num) (by norm_num) (by norm_num) (by norm_num) (by norm_num) (by norm_num)
    (by norm_num)
  rw [roundFloat32, h]
  norm_num

theorem gain_example_output : roundFloat32 (16529597 / 16777216) = some (16529597 / 16777216) := by
  have h := roundToFormat_eq_of_pos 24 (-149) 128 (16529597 / 16777216) (-1) (-24) 16529597
    (by norm_num) (by norm_num) (by norm_num) (by norm_num) (by norm_num) (by norm_num)
    (by norm_num)
  rw [roundFloat32, h]
  norm_num

theorem gain_half_scaled : roundFloat64 (144115188075855875 / 288230376151711744) = some (1 / 2) := by
  have h := roundToFormat_eq_of_pos 53 (-1074) 1024 (144115188075855875 / 288230376151711744) (-1) (-53) 4503599627370496
    (by norm_num) (by norm_num) (by norm_num) (by norm_num) (by norm_num) (by norm_num)
    (by norm_num)
  rw [roundFloat64, h]
  norm_num

theorem roundFloat32_half : roundFloat32 (1 / 2) = some (1 / 2) := by
  have h := roundToFormat_eq_of_pos 24 (-149) 128 (1 / 2) (-1) (-24) 8388608
    (by norm_num) (by norm_num) (by norm_num) (by norm_num) (by norm_num) (by norm_num)
    (by norm_num)
  rw [roundFloat32, h]
  norm_num

theorem roundFloat32_three_halves : roundFloat32 (3 / 2) = some (3 / 2) := by
  have h := roundToFormat_eq_of_pos 24 (-149) 128 (3 / 2) (0) (-23) 12582912
    (by norm_num) (by norm_num) (by norm_num) (by norm_num) (by norm_num) (by norm_num)
    (by norm_num)
  rw [roundFloat32, h]
  norm_num

theorem gain_example_raw : roundFloat32 (8264799 / 8388608) = some (8264799 / 8388608) := by
  have h := roundToFormat_eq_of_pos 24 (-149) 128 (8264799 / 8388608) (-1) (-24) 16529598
    (by norm_num) (by norm_num) (by norm_num) (by norm_num) (by norm_num) (by norm_num)
    (by norm_num)
  rw [roundFloat32, h]
  norm_num

theorem product_8000_13_at_4 : roundFloat32 (13631487 / 1048576) = some (13631487 / 1048576) := by
  have h := roundToFormat_eq_of_pos 24 (-149) 128 (13631487 / 1048576) (3) (-20) 13631487
    (by norm_num) (by norm_num) (by norm_num) (by norm_num) (by norm_num) (by norm_num)
    (by norm_num)
  rw [roundFloat32, h]
  norm_num

/-! ## One loop iteration in `float` arithmetic -/

theorem floatToLong_eq_some {x : ℚ} {t : Int} (h : floatToLong x = some t) :
    t = toLong x ∧ -(2 : Int) ^ 63 ≤ t ∧ t < (2 : Int) ^ 63 := by
  unfold floatToLong at h
  split_ifs at h with hc
  simp only [Option.some.injEq] at h
  rw [← h]
  exact ⟨rfl, hc.1, hc.2⟩

theorem floatToLong_of_range {x : ℚ} (h1 : 0 ≤ x) (h2 : x < 9223372036854775808) :
    floatToLong x = some ⌊x⌋ := by
  have ht : toLong x = ⌊x⌋ := by
    unfold toLong
    rw [if_pos h1]
  have hlo : 0 ≤ ⌊x⌋ := Int.floor_nonneg.mpr h1
  have hhi : ⌊x⌋ < 9223372036854775808 := by
    apply Int.floor_lt.mpr
    push_cast
    exact h2
  unfold floatToLong
  rw [ht, if_pos ⟨by omega, by norm_num; omega⟩]

theorem resync_mCurrentScale (k : TremeloUnitKernel ℚ) (i : Int) :
    (resync k i).mCurrentScale =
      if k.mNextScale ≠ k.mCurrentScale ∧ i = 0 then k.mNextScale else k.mCurrentScale := by
  unfold resync
  simp only
  split_ifs <;> rfl

theorem resync_mSamplesProcessed (k : TremeloUnitKernel ℚ) (i : Int) :
    (resync k i).mSamplesProcessed =
      if (k.mNextScale ≠ k.mCurrentScale ∨ k.mSamplesProcessed ≥ sampleLimit) ∧ i = 0 then 0
      else k.mSamplesProcessed := by
  unfold resync
  simp only
  by_cases hi : i = 0
  · by_cases hs : k.mNextScale = k.mCurrentScale
    · by_cases hl : k.mSamplesProcessed ≥ sampleLimit
      · simp [hi, hs, hl]
      · simp [hi, hs, hl]
    · simp [hi, hs, sampleLimit]
  · simp [hi]

theorem resync_mNextScale (k : TremeloUnitKernel ℚ) (i : Int) :
    (resync k i).mNextScale = k.mNextScale := by
  unfold resync
  simp only
  split_ifs <;> rfl

theorem resync_waveArray (k : TremeloUnitKernel ℚ) (i : Int) :
    (resync k i).waveArray = k.waveArray := by
  unfold resync TremeloUnitKernel.waveArray
  simp only
  split_ifs <;> rfl

theorem resync_frame (k : TremeloUnitKernel ℚ) (i : Int) :
    (resync k i).mSine = k.mSine ∧ (resync k i).mSquare = k.mSquare ∧
      (resync k i).waveArrayPointer = k.waveArrayPointer ∧
      (resync k i).mSampleFrequency = k.mSampleFrequency := by
  unfold resync
  simp only
  split_ifs <;> exact ⟨rfl, rfl, rfl, rfl⟩

theorem resyncWithoutRuleB_mCurrentScale (k : TremeloUnitKernel ℚ) (i : Int) :
    (resyncWithoutRuleB k i).mCurrentScale = (resync k i).mCurrentScale := by
  unfold resync resyncWithoutRuleB
  simp only
  split_ifs <;> rfl

theorem resyncWithoutRuleB_waveArray (k : TremeloUnitKernel ℚ) (i : Int) :
    (resyncWithoutRuleB k i).waveArray = k.waveArray := by
  unfold resyncWithoutRuleB TremeloUnitKernel.waveArray
  split_ifs <;> rfl

theorem resyncWithoutRuleB_mSamplesProcessed (k : TremeloUnitKernel ℚ) (i : Int) :
    (resyncWithoutRuleB k i).mSamplesProcessed =
      if k.mNextScale ≠ k.mCurrentScale ∧ i = 0 then 0 else k.mSamplesProcessed := by
  unfold resyncWithoutRuleB
  split_ifs <;> rfl

/-- The reset at `sampleLimit` applied after the reset on a frequency change is the source's
pair of resets. -/
theorem resync_eq (k : TremeloUnitKernel ℚ) (i : Int) :
    resync k i =
      if (resyncWithoutRuleB k i).mSamplesProcessed ≥ sampleLimit ∧ i = 0 then
        { resyncWithoutRuleB k i with mSamplesProcessed := 0 }
      else resyncWithoutRuleB k i := rfl

theorem increment_eq_some_iff (k k' : TremeloUnitKernel ℚ) :
    increment k = some k' ↔
      k.mSamplesProcessed + 1 < 9223372036854775808 ∧
        k' = { k with mSamplesProcessed := k.mSamplesProcessed + 1 } := by
  unfold increment
  have e : ((2 : Int) ^ 63) = 9223372036854775808 := by norm_num
  rw [e]
  split_ifs with h
  · simp only [Option.some.injEq]
    constructor
    · intro h2
      exact ⟨h, h2.symm⟩
    · intro h2
      exact h2.2.symm
  · constructor
    · intro h2
      cases h2
    · intro h2
      exact absurd h2.1 h

theorem increment_of_lt (k : TremeloUnitKernel ℚ)
    (h : k.mSamplesProcessed + 1 < 9223372036854775808) :
    increment k = some { k with mSamplesProcessed := k.mSamplesProcessed + 1 } :=
  (increment_eq_some_iff k _).mpr ⟨h, rfl⟩

/-- An iteration succeeds exactly when the index, the table read, the gain, the output
sample and the incremented counter are defined; the kernel it leaves is the resynchronised
kernel with the counter incremented. -/
theorem sampleStep_eq_some_iff (k k' : TremeloUnitKernel ℚ) (tremeloDepth inputSample y : ℚ) :
    sampleStep k tremeloDepth inputSample = some (k', y) ↔
      ∃ i raw g, index k = some i ∧ readTable k.waveArray i = some raw ∧
        tremeloGain raw tremeloDepth = some g ∧ roundFloat32 (inputSample * g) = some y ∧
        increment (resync k i) = some k' := by
  unfold sampleStep
  constructor
  · intro h
    cases hi : index k with
    | none => rw [hi] at h; cases h
    | some i =>
      rw [hi, Option.some_bind, resync_waveArray] at h
      cases hr : readTable k.waveArray i with
      | none => rw [hr] at h; cases h
      | some raw =>
        rw [hr, Option.some_bind] at h
        cases hg : tremeloGain raw tremeloDepth with
        | none => rw [hg] at h; cases h
        | some g =>
          rw [hg, Option.some_bind] at h
          cases ho : roundFloat32 (inputSample * g) with
          | none => rw [ho] at h; cases h
          | some out =>
            rw [ho, Option.some_bind] at h
            cases hn : increment (resync k i) with
            | none => rw [hn] at h; cases h
            | some k2 =>
              rw [hn, Option.some_bind] at h
              simp only [Option.some.injEq, Prod.mk.injEq] at h
              exact ⟨i, raw, g, rfl, hr, hg, by rw [← h.2]; exact ho, by rw [← h.1]; exact hn⟩
  · rintro ⟨i, raw, g, hi, hr, hg, ho, hk⟩
    rw [hi, Option.some_bind, resync_waveArray, hr, Option.some_bind, hg, Option.some_bind, ho,
      Option.some_bind, hk, Option.some_bind]

theorem sampleStepWithoutRuleB_eq_some_iff (k k' : TremeloUnitKernel ℚ)
    (tremeloDepth inputSample y : ℚ) :
    sampleStepWithoutRuleB k tremeloDepth inputSample = some (k', y) ↔
      ∃ i raw g, index k = some i ∧ readTable k.waveArray i = some raw ∧
        tremeloGain raw tremeloDepth = some g ∧ roundFloat32 (inputSample * g) = some y ∧
        increment (resyncWithoutRuleB k i) = some k' := by
  unfold sampleStepWithoutRuleB
  constructor
  · intro h
    cases hi : index k with
    | none => rw [hi] at h; cases h
    | some i =>
      rw [hi, Option.some_bind, resyncWithoutRuleB_waveArray] at h
      cases hr : readTable k.waveArray i with
      | none => rw [hr] at h; cases h
      | some raw =>
        rw [hr, Option.some_bind] at h
        cases hg : tremeloGain raw tremeloDepth with
        | none => rw [hg] at h; cases h
        | some g =>
          rw [hg, Option.some_bind] at h
          cases ho : roundFloat32 (inputSample * g) with
          | none => rw [ho] at h; cases h
          | some out =>
            rw [ho, Option.some_bind] at h
            cases hn : increment (resyncWithoutRuleB k i) with
            | none => rw [hn] at h; cases h
            | some k2 =>
              rw [hn, Option.some_bind] at h
              simp only [Option.some.injEq, Prod.mk.injEq] at h
              exact ⟨i, raw, g, rfl, hr, hg, by rw [← h.2]; exact ho, by rw [← h.1]; exact hn⟩
  · rintro ⟨i, raw, g, hi, hr, hg, ho, hk⟩
    rw [hi, Option.some_bind, resyncWithoutRuleB_waveArray, hr, Option.some_bind, hg,
      Option.some_bind, ho, Option.some_bind, hk, Option.some_bind]

/-- The kernel a successful iteration leaves is the one `advance` computes. -/
theorem advance_of_sampleStep {k k' : TremeloUnitKernel ℚ} {tremeloDepth inputSample y : ℚ}
    (h : sampleStep k tremeloDepth inputSample = some (k', y)) : advance k = some k' := by
  obtain ⟨i, raw, g, hi, _, _, _, hk⟩ := (sampleStep_eq_some_iff k k' _ _ y).mp h
  unfold advance
  rw [hi, Option.some_bind, hk]

/-- The index is below the table size, and it is not negative when counter and scale are
not negative. -/
theorem index_range {k : TremeloUnitKernel ℚ} {i : Int} (h : index k = some i) :
    i < 2000 ∧ (0 ≤ k.mSamplesProcessed → 0 ≤ k.mCurrentScale → 0 ≤ i) := by
  unfold index at h
  cases hc : roundFloat32 (k.mSamplesProcessed : ℚ) with
  | none => rw [hc] at h; cases h
  | some c =>
    rw [hc, Option.some_bind] at h
    cases hp : roundFloat32 (c * k.mCurrentScale) with
    | none => rw [hp] at h; cases h
    | some p =>
      rw [hp, Option.some_bind] at h
      cases hl : floatToLong p with
      | none => rw [hl] at h; cases h
      | some t =>
        rw [hl, Option.some_bind] at h
        simp only [Option.some.injEq] at h
        rw [← h]
        refine ⟨Int.tmod_lt_of_pos _ (by norm_num), ?_⟩
        intro h0 hs
        have hc0 : 0 ≤ c := roundToFormat_nonneg hc (by exact_mod_cast h0)
        have hp0 : 0 ≤ p := roundToFormat_nonneg hp (mul_nonneg hc0 hs)
        have ht : t = toLong p := (floatToLong_eq_some hl).1
        apply Int.tmod_nonneg
        rw [ht]
        exact toLong_nonneg hp0

/-- Evaluation of the index from the rounded counter and the rounded product. -/
theorem index_eq_of {k : TremeloUnitKernel ℚ} {c p : ℚ}
    (hc : roundFloat32 (k.mSamplesProcessed : ℚ) = some c)
    (hp : roundFloat32 (c * k.mCurrentScale) = some p) (h0 : 0 ≤ p)
    (h1 : p < 9223372036854775808) :
    index k = some (⌊p⌋ % 2000) := by
  unfold index
  rw [hc, Option.some_bind, hp, Option.some_bind, floatToLong_of_range h0 h1, Option.some_bind]
  have hf : 0 ≤ ⌊p⌋ := Int.floor_nonneg.mpr h0
  have e : ((kWaveArraySize : Nat) : Int) = 2000 := rfl
  rw [e, Int.tmod_eq_emod hf (by norm_num)]

theorem tremeloGain_depth_zero (rawTremeloGain : ℚ) : tremeloGain rawTremeloGain 0 = some 1 := by
  unfold tremeloGain
  have e1 : rawTremeloGain * 0 = 0 := by ring
  have e2 : (0 : ℚ) - 0 = 0 := by ring
  have e3 : (0 : ℚ) + 100 = 100 := by ring
  have e4 : (100 : ℚ) * (5764607523034235 / 576460752303423488) =
      144115188075855875 / 144115188075855872 := by norm_num
  rw [e1, roundFloat32_zero, Option.some_bind, e2, roundFloat32_zero, Option.some_bind, e3,
    roundFloat64_hundred, Option.some_bind, roundFloat64_hundredth, Option.some_bind, e4,
    roundFloat64_hundred_hundredths, Option.some_bind, roundFloat32_one]

theorem tremeloGain_one_hundred : tremeloGain 1 100 = some 1 := by
  unfold tremeloGain
  have e1 : (1 : ℚ) * 100 = 100 := by ring
  have e2 : (100 : ℚ) - 100 = 0 := by ring
  have e3 : (0 : ℚ) + 100 = 100 := by ring
  have e4 : (100 : ℚ) * (5764607523034235 / 576460752303423488) =
      144115188075855875 / 144115188075855872 := by norm_num
  rw [e1, roundFloat32_hundred, Option.some_bind, e2, roundFloat32_zero, Option.some_bind, e3,
    roundFloat64_hundred, Option.some_bind, roundFloat64_hundredth, Option.some_bind, e4,
    roundFloat64_hundred_hundredths, Option.some_bind, roundFloat32_one]

theorem tremeloGain_zero_hundred : tremeloGain 0 100 = some 0 := by
  unfold tremeloGain
  have e1 : (0 : ℚ) * 100 = 0 := by ring
  have e2 : (0 : ℚ) - 100 = -100 := by ring
  have e3 : (-100 : ℚ) + 100 = 0 := by ring
  have e4 : (0 : ℚ) * (5764607523034235 / 576460752303423488) = 0 := by ring
  rw [e1, roundFloat32_zero, Option.some_bind, e2, roundFloat32_neg_hundred, Option.some_bind,
    e3, roundFloat64_zero, Option.some_bind, roundFloat64_hundredth, Option.some_bind, e4,
    roundFloat64_zero, Option.some_bind, roundFloat32_zero]

theorem tremeloGain_example :
    tremeloGain (8264799 / 8388608) 100 = some (16529597 / 16777216) := by
  unfold tremeloGain
  have e1 : (8264799 / 8388608 : ℚ) * 100 = 206619975 / 2097152 := by norm_num
  have e2 : (3228437 / 32768 : ℚ) - 100 = -48363 / 32768 := by norm_num
  have e3 : (-48363 / 32768 : ℚ) + 100 = 3228437 / 32768 := by norm_num
  have e4 : (3228437 / 32768 : ℚ) * (5764607523034235 / 576460752303423488) =
      18610672217842076540695 / 18889465931478580854784 := by norm_num
  rw [e1, gain_example_product, Option.some_bind, e2, gain_example_difference,
    Option.some_bind, e3, gain_example_sum, Option.some_bind, roundFloat64_hundredth,
    Option.some_bind, e4, gain_example_scaled, Option.some_bind, gain_example_gain]

/-- At depth 100 the gain of line 428 is within `2 ^ (-22)` of the raw gain, for every raw
gain in `[0, 1]`. -/
theorem tremeloGain_hundred_near (raw : ℚ) (h0 : 0 ≤ raw) (h1 : raw ≤ 1) :
    ∃ g, tremeloGain raw 100 = some g ∧ |g - raw| ≤ 1 / 4194304 := by
  obtain ⟨a, ha, hae, _⟩ := roundFloat32_near (raw * 100) 6
    (by rw [abs_of_nonneg (by positivity)]; norm_num; linarith) (by norm_num) (by norm_num)
  have hae' := abs_le.mp hae
  norm_num at hae'
  obtain ⟨b, hb, hbe, _⟩ := roundFloat32_near (a - 100) 6
    (by rw [abs_lt]; norm_num; constructor <;> linarith) (by norm_num) (by norm_num)
  have hbe' := abs_le.mp hbe
  norm_num at hbe'
  obtain ⟨c, hc, hce, _⟩ := roundFloat64_near (b + 100) 6
    (by rw [abs_lt]; norm_num; constructor <;> linarith) (by norm_num) (by norm_num)
  have hce' := abs_le.mp hce
  norm_num at hce'
  obtain ⟨d, hd, hde, _⟩ := roundFloat64_near
    (c * (5764607523034235 / 576460752303423488)) 0
    (by rw [abs_lt]; norm_num; constructor <;> linarith) (by norm_num) (by norm_num)
  have hde' := abs_le.mp hde
  norm_num at hde'
  obtain ⟨g, hg, hge, _⟩ := roundFloat32_near d 0
    (by rw [abs_lt]; norm_num; constructor <;> linarith) (by norm_num) (by norm_num)
  have hge' := abs_le.mp hge
  norm_num at hge'
  refine ⟨g, ?_, ?_⟩
  · unfold tremeloGain
    rw [ha, Option.some_bind, hb, Option.some_bind, hc, Option.some_bind,
      roundFloat64_hundredth, Option.some_bind, hd, Option.some_bind, hg]
  · rw [abs_le]
    constructor <;> linarith

theorem index_at_counter_zero (k : TremeloUnitKernel ℚ) (h : k.mSamplesProcessed = 0) :
    index k = some 0 := by
  have hc : roundFloat32 (k.mSamplesProcessed : ℚ) = some 0 := by
    rw [h]
    exact_mod_cast roundFloat32_zero
  have hp : roundFloat32 (0 * k.mCurrentScale) = some 0 := by
    rw [zero_mul]
    exact roundFloat32_zero
  have h := index_eq_of hc hp (le_refl 0) (by norm_num)
  rw [h]
  simp

/-- The index is defined when the counter is at most `2 ^ 40` and the scale at most
`2 ^ 16`: the product is then far below `2 ^ 63`. -/
theorem index_isSome (k : TremeloUnitKernel ℚ) (h0 : 0 ≤ k.mSamplesProcessed)
    (h1 : k.mSamplesProcessed ≤ 1099511627776) (hs0 : 0 ≤ k.mCurrentScale)
    (hs1 : k.mCurrentScale ≤ 65536) :
    ∃ i, index k = some i := by
  have hq0 : (0 : ℚ) ≤ (k.mSamplesProcessed : ℚ) := by exact_mod_cast h0
  have hq1 : (k.mSamplesProcessed : ℚ) ≤ 1099511627776 := by exact_mod_cast h1
  obtain ⟨c, hc, hce, hcn⟩ := roundFloat32_near (k.mSamplesProcessed : ℚ) 40
    (by rw [abs_of_nonneg hq0]; norm_num; linarith) (by norm_num) (by norm_num)
  have hc0 := hcn hq0
  have hce' := abs_le.mp hce
  norm_num at hce'
  have hcs0 : 0 ≤ c * k.mCurrentScale := mul_nonneg hc0 hs0
  have hcs1 : c * k.mCurrentScale ≤ 1099511693312 * 65536 :=
    mul_le_mul (by linarith) hs1 hs0 (by norm_num)
  obtain ⟨p, hp, hpe, hpn⟩ := roundFloat32_near (c * k.mCurrentScale) 56
    (by rw [abs_of_nonneg hcs0]; norm_num; linarith) (by norm_num) (by norm_num)
  have hpe' := abs_le.mp hpe
  norm_num at hpe'
  exact ⟨_, index_eq_of hc hp (hpn hcs0) (by linarith)⟩

theorem advance_eq_of_index {k : TremeloUnitKernel ℚ} {i : Int} (hi : index k = some i) :
    advance k = increment (resync k i) := by
  unfold advance
  rw [hi, Option.some_bind]

theorem advanceWithoutRuleB_eq_of_index {k : TremeloUnitKernel ℚ} {i : Int}
    (hi : index k = some i) :
    advanceWithoutRuleB k = increment (resyncWithoutRuleB k i) := by
  unfold advanceWithoutRuleB
  rw [hi, Option.some_bind]

theorem steps_zero (k : TremeloUnitKernel ℚ) : steps 0 k = some k := rfl

theorem stepsWithoutRuleB_zero (k : TremeloUnitKernel ℚ) :
    stepsWithoutRuleB 0 k = some k := rfl

theorem steps_succ (n : Nat) (k : TremeloUnitKernel ℚ) :
    steps (n + 1) k = (steps n k).bind advance := rfl

theorem stepsWithoutRuleB_succ (n : Nat) (k : TremeloUnitKernel ℚ) :
    stepsWithoutRuleB (n + 1) k = (stepsWithoutRuleB n k).bind advanceWithoutRuleB := rfl

theorem steps_add (m n : Nat) (k : TremeloUnitKernel ℚ) :
    steps (m + n) k = (steps m k).bind (steps n) := by
  induction n with
  | zero =>
    rw [Nat.add_zero]
    have e : steps 0 = some := funext steps_zero
    rw [e, Option.bind_some]
  | succ n ih =>
    rw [← Nat.add_assoc, steps_succ, ih, Option.bind_assoc]
    exact congrArg _ (funext fun x => (steps_succ n x).symm)

theorem stepsWithoutRuleB_add (m n : Nat) (k : TremeloUnitKernel ℚ) :
    stepsWithoutRuleB (m + n) k = (stepsWithoutRuleB m k).bind (stepsWithoutRuleB n) := by
  induction n with
  | zero =>
    rw [Nat.add_zero]
    have e : stepsWithoutRuleB 0 = some := funext stepsWithoutRuleB_zero
    rw [e, Option.bind_some]
  | succ n ih =>
    rw [← Nat.add_assoc, stepsWithoutRuleB_succ, ih, Option.bind_assoc]
    exact congrArg _ (funext fun x => (stepsWithoutRuleB_succ n x).symm)

theorem resyncWithoutRuleB_of_eq (k : TremeloUnitKernel ℚ) (i : Int)
    (h : k.mNextScale = k.mCurrentScale) : resyncWithoutRuleB k i = k := by
  unfold resyncWithoutRuleB
  rw [if_neg (fun hh => hh.1 h)]

theorem resyncWithoutRuleB_adopt (k : TremeloUnitKernel ℚ)
    (h : k.mNextScale ≠ k.mCurrentScale) :
    resyncWithoutRuleB k 0 = { k with mCurrentScale := k.mNextScale, mSamplesProcessed := 0 } := by
  unfold resyncWithoutRuleB
  rw [if_pos ⟨h, rfl⟩]

theorem resync_of_eq (k : TremeloUnitKernel ℚ) (i : Int)
    (h : k.mNextScale = k.mCurrentScale) (h2 : k.mSamplesProcessed < 10000000 ∨ i ≠ 0) :
    resync k i = k := by
  rw [resync_eq, resyncWithoutRuleB_of_eq k i h]
  have h3 : ¬ (k.mSamplesProcessed ≥ sampleLimit ∧ i = 0) := by
    rintro ⟨ha, hb⟩
    have ha' : (10000000 : Int) ≤ k.mSamplesProcessed := ha
    rcases h2 with h2 | h2
    · omega
    · exact h2 hb
  rw [if_neg h3]

theorem resync_wrap (k : TremeloUnitKernel ℚ) (h : k.mNextScale = k.mCurrentScale)
    (h2 : 10000000 ≤ k.mSamplesProcessed) :
    resync k 0 = { k with mSamplesProcessed := 0 } := by
  rw [resync_eq, resyncWithoutRuleB_of_eq k 0 h]
  have h3 : k.mSamplesProcessed ≥ sampleLimit ∧ (0 : Int) = 0 := ⟨h2, rfl⟩
  rw [if_pos h3]

theorem resync_adopt (k : TremeloUnitKernel ℚ) (h : k.mNextScale ≠ k.mCurrentScale) :
    resync k 0 = { k with mCurrentScale := k.mNextScale, mSamplesProcessed := 0 } := by
  rw [resync_eq, resyncWithoutRuleB_adopt k h]
  have h3 : ¬ (({ k with mCurrentScale := k.mNextScale, mSamplesProcessed := 0 } :
      TremeloUnitKernel ℚ).mSamplesProcessed ≥ sampleLimit ∧ (0 : Int) = 0) := by
    rintro ⟨ha, _⟩
    have ha' : (10000000 : Int) ≤ 0 := ha
    omega
  rw [if_neg h3]

/-- An iteration in the steady state that resets nothing. -/
theorem advance_machineKernel_steady (r s : ℚ) (c i : Int)
    (hi : index (machineKernel r c s s) = some i) (h : c < 10000000 ∨ i ≠ 0)
    (hc : c + 1 < 9223372036854775808) :
    advance (machineKernel r c s s) = some (machineKernel r (c + 1) s s) := by
  rw [advance_eq_of_index hi, resync_of_eq _ i rfl h, increment_of_lt _ hc]
  rfl

/-- An iteration in the steady state at which the reset at `sampleLimit` happens. -/
theorem advance_machineKernel_wrap (r s : ℚ) (c : Int)
    (hi : index (machineKernel r c s s) = some 0) (h : 10000000 ≤ c) :
    advance (machineKernel r c s s) = some (machineKernel r 1 s s) := by
  rw [advance_eq_of_index hi, resync_wrap _ rfl h,
    increment_of_lt _ (by show (0 : Int) + 1 < 9223372036854775808; norm_num)]
  rfl

/-- An iteration at index 0 with a pending scale: the scale is adopted. -/
theorem advance_machineKernel_adopt (r s n : ℚ) (c : Int)
    (hi : index (machineKernel r c s n) = some 0) (hne : n ≠ s) :
    advance (machineKernel r c s n) = some (machineKernel r 1 n n) := by
  rw [advance_eq_of_index hi, resync_adopt _ hne,
    increment_of_lt _ (by show (0 : Int) + 1 < 9223372036854775808; norm_num)]
  rfl

theorem advanceWithoutRuleB_machineKernel_steady (r s : ℚ) (c i : Int)
    (hi : index (machineKernel r c s s) = some i) (hc : c + 1 < 9223372036854775808) :
    advanceWithoutRuleB (machineKernel r c s s) = some (machineKernel r (c + 1) s s) := by
  rw [advanceWithoutRuleB_eq_of_index hi, resyncWithoutRuleB_of_eq _ i rfl,
    increment_of_lt _ hc]
  rfl

theorem advanceWithoutRuleB_machineKernel_adopt (r s n : ℚ) (c : Int)
    (hi : index (machineKernel r c s n) = some 0) (hne : n ≠ s) :
    advanceWithoutRuleB (machineKernel r c s n) = some (machineKernel r 1 n n) := by
  rw [advanceWithoutRuleB_eq_of_index hi, resyncWithoutRuleB_adopt _ hne,
    increment_of_lt _ (by show (0 : Int) + 1 < 9223372036854775808; norm_num)]
  rfl

/-- At 44100 Hz and 13 Hz the index is not 0 while the counter runs from 10,000,000 to
10,000,522: the rounded product stays between 5,895,691 and 5,896,000. -/
theorem index_window (r : ℚ) (c i : Int) (h1 : 10000000 ≤ c) (h2 : c ≤ 10000522)
    (hi : index (machineKernel r c (9891329 / 16777216) (9891329 / 16777216)) = some i) :
    i ≠ 0 := by
  have hq1 : (10000000 : ℚ) ≤ (c : ℚ) := by exact_mod_cast h1
  have hq2 : (c : ℚ) ≤ 10000522 := by exact_mod_cast h2
  have hc : roundFloat32 ((machineKernel r c (9891329 / 16777216)
      (9891329 / 16777216)).mSamplesProcessed : ℚ) = some (c : ℚ) :=
    roundFloat32_natCast_small c (by omega) (by omega)
  obtain ⟨p, hp, hpe, hpn⟩ := roundFloat32_near ((c : ℚ) * (9891329 / 16777216)) 22
    (by rw [abs_of_nonneg (by positivity)]; norm_num; linarith) (by norm_num) (by norm_num)
  have hpe' := abs_le.mp hpe
  norm_num at hpe'
  have hp0 : 0 ≤ p := hpn (by positivity)
  have hidx := index_eq_of hc hp hp0 (by linarith)
  rw [hidx] at hi
  simp only [Option.some.injEq] at hi
  have hlo : (5895691 : Int) ≤ ⌊p⌋ := by
    apply Int.le_floor.mpr
    push_cast
    linarith
  have hhi : ⌊p⌋ < 5896000 := by
    apply Int.floor_lt.mpr
    push_cast
    linarith
  omega

theorem index_44100_13_at_10000523 (r : ℚ) :
    index (machineKernel r 10000523 (9891329 / 16777216) (9891329 / 16777216)) = some 0 := by
  have hc : roundFloat32 ((machineKernel r 10000523 (9891329 / 16777216)
      (9891329 / 16777216)).mSamplesProcessed : ℚ) = some ((10000523 : Int) : ℚ) :=
    roundFloat32_natCast_small 10000523 (by norm_num) (by norm_num)
  have hp : roundFloat32 (((10000523 : Int) : ℚ) * (machineKernel r 10000523
      (9891329 / 16777216) (9891329 / 16777216)).mCurrentScale) = some 5896000 := by
    have e : ((10000523 : Int) : ℚ) * (machineKernel r 10000523
        (9891329 / 16777216) (9891329 / 16777216)).mCurrentScale
        = 98918463165067 / 16777216 := by
      show ((10000523 : Int) : ℚ) * (9891329 / 16777216) = _
      norm_num
    rw [e]
    exact product_10000523
  have h := index_eq_of hc hp (by norm_num) (by norm_num)
  rw [h]
  norm_num

theorem floatToInt_intCast (n : Int) (h1 : -2147483648 ≤ n) (h2 : n < 2147483648) :
    floatToInt (n : ℚ) = some n := by
  have ht : toLong (n : ℚ) = n := by
    unfold toLong
    split_ifs
    · exact Int.floor_intCast n
    · exact Int.ceil_intCast n
  unfold floatToInt
  rw [ht, if_pos ⟨by norm_num; omega, by norm_num; omega⟩]

theorem floatToInt_one : floatToInt 1 = some 1 := by
  have h := floatToInt_intCast 1 (by norm_num) (by norm_num)
  simpa using h

/-- The part of `Process` before the loop succeeds exactly when the waveform selector
converts to `int` and the two quotients are finite; it assigns `waveArrayPointer` and
`mNextScale` only. -/
theorem prepare_eq_some_iff (k k' : TremeloUnitKernel ℚ) (GetParameter : Parameters → ℚ) :
    prepare k GetParameter = some k' ↔
      ∃ (w : Int) (samplesPerTremeloCycle mNextScale : ℚ),
        floatToInt (GetParameter Parameters.kParameter_Waveform) = some w ∧
        roundFloat32 (k.mSampleFrequency /
          clampFrequency (GetParameter Parameters.kParameter_Frequency))
            = some samplesPerTremeloCycle ∧
        samplesPerTremeloCycle ≠ 0 ∧
        roundFloat32 (2000 / samplesPerTremeloCycle) = some mNextScale ∧
        k' = { k with
               waveArrayPointer :=
                 if w = kSineWave_Tremelo_Waveform then WavePointer.sine
                 else WavePointer.square,
               mNextScale := mNextScale } := by
  have e : ((kWaveArraySize : Nat) : ℚ) = 2000 := by norm_num [kWaveArraySize]
  have hrate : ∀ w : Int, (if w = kSineWave_Tremelo_Waveform then
      ({ k with waveArrayPointer := WavePointer.sine } : TremeloUnitKernel ℚ)
      else { k with waveArrayPointer := WavePointer.square }).mSampleFrequency
        = k.mSampleFrequency := by
    intro w
    split_ifs <;> rfl
  unfold prepare
  constructor
  · intro h
    cases hw : floatToInt (GetParameter Parameters.kParameter_Waveform) with
    | none => rw [hw] at h; cases h
    | some w =>
      rw [hw, Option.some_bind] at h
      simp only [hrate, e] at h
      cases hs : roundFloat32 (k.mSampleFrequency /
          clampFrequency (GetParameter Parameters.kParameter_Frequency)) with
      | none => rw [hs] at h; cases h
      | some spc =>
        rw [hs, Option.some_bind] at h
        by_cases h0 : spc = 0
        · rw [if_pos h0] at h
          cases h
        · rw [if_neg h0] at h
          cases hn : roundFloat32 (2000 / spc) with
          | none => rw [hn] at h; cases h
          | some ns =>
            rw [hn, Option.some_bind] at h
            simp only [Option.some.injEq] at h
            refine ⟨w, spc, ns, rfl, rfl, h0, hn, ?_⟩
            rw [← h]
            split_ifs <;> rfl
  · rintro ⟨w, spc, ns, hw, hs, h0, hn, hk⟩
    rw [hw, Option.some_bind]
    simp only [hrate, e]
    rw [hs, Option.some_bind, if_neg h0, hn, Option.some_bind, hk]
    split_ifs <;> rfl

theorem index_44100_13_at_10000523_pending (r n : ℚ) :
    index (machineKernel r 10000523 (9891329 / 16777216) n) = some 0 := by
  have hc : roundFloat32 ((machineKernel r 10000523 (9891329 / 16777216)
      n).mSamplesProcessed : ℚ) = some ((10000523 : Int) : ℚ) :=
    roundFloat32_natCast_small 10000523 (by norm_num) (by norm_num)
  have hp : roundFloat32 (((10000523 : Int) : ℚ) * (machineKernel r 10000523
      (9891329 / 16777216) n).mCurrentScale) = some 5896000 := by
    have e : ((10000523 : Int) : ℚ) * (machineKernel r 10000523
        (9891329 / 16777216) n).mCurrentScale
        = 98918463165067 / 16777216 := by
      show ((10000523 : Int) : ℚ) * (9891329 / 16777216) = _
      norm_num
    rw [e]
    exact product_10000523
  have h := index_eq_of hc hp (by norm_num) (by norm_num)
  rw [h]
  norm_num

theorem readTable_machineKernel (r s n : ℚ) (c i : Int) (h0 : 0 ≤ i) (h1 : i < 2000) :
    readTable (machineKernel r c s n).waveArray i = some (1 / 2) := by
  unfold readTable
  have e : ((kWaveArraySize : Nat) : Int) = 2000 := rfl
  rw [dif_pos ⟨h0, by rw [e]; exact h1⟩]
  rfl

theorem roundFloat32_zero_mul (g : ℚ) : roundFloat32 (0 * g) = some 0 := by
  rw [zero_mul]
  exact roundFloat32_zero

theorem tremeloGain_half_hundred : tremeloGain (1 / 2) 100 = some (1 / 2) := by
  unfold tremeloGain
  have e1 : (1 / 2 : ℚ) * 100 = ((50 : Int) : ℚ) := by norm_num
  have e2 : (((50 : Int) : ℚ)) - 100 = ((-50 : Int) : ℚ) := by norm_num
  have e3 : (((-50 : Int) : ℚ)) + 100 = ((50 : Int) : ℚ) := by norm_num
  have e4 : (((50 : Int) : ℚ)) * (5764607523034235 / 576460752303423488) =
      144115188075855875 / 288230376151711744 := by norm_num
  rw [e1, roundFloat32_natCast_small 50 (by norm_num) (by norm_num), Option.some_bind, e2,
    roundFloat32_natCast_small (-50) (by norm_num) (by norm_num), Option.some_bind, e3,
    roundFloat64_intCast 50 (by norm_num), Option.some_bind, roundFloat64_hundredth,
    Option.some_bind, e4, gain_half_scaled, Option.some_bind, roundFloat32_half]

/-- The first iteration after construction or `Reset`: the counter is 0, the index is 0 and
the pending scale is adopted. -/
theorem sampleStep_first (k : TremeloUnitKernel ℚ) (tremeloDepth inputSample raw g y : ℚ)
    (hc : k.mSamplesProcessed = 0) (hne : k.mNextScale ≠ k.mCurrentScale)
    (hr : readTable k.waveArray 0 = some raw) (hg : tremeloGain raw tremeloDepth = some g)
    (hy : roundFloat32 (inputSample * g) = some y) :
    sampleStep k tremeloDepth inputSample =
      some ({ k with mCurrentScale := k.mNextScale, mSamplesProcessed := 1 }, y) := by
  rw [sampleStep_eq_some_iff]
  refine ⟨0, raw, g, index_at_counter_zero k hc, hr, hg, hy, ?_⟩
  rw [resync_adopt k hne,
    increment_of_lt _ (by show (0 : Int) + 1 < 9223372036854775808; norm_num)]
  simp

theorem clampDepth_of_mem {d : ℚ} (h0 : 0 ≤ d) (h1 : d ≤ 100) : clampDepth d = d := by
  rw [clampDepth_eq_max_min, min_eq_right h1, max_eq_right h0]

theorem floatToLong_tiny : floatToLong 36028797018963968000 = none := by
  have ht : toLong (36028797018963968000 : ℚ) = 36028797018963968000 := by
    unfold toLong
    rw [if_pos (by norm_num)]
    have e : (36028797018963968000 : ℚ) = ((36028797018963968000 : Int) : ℚ) := by norm_num
    rw [e, Int.floor_intCast]
  unfold floatToLong
  rw [ht, if_neg]
  norm_num

theorem index_tiny (r n : ℚ) : index (machineKernel r 1 36028797018963968000 n) = none := by
  unfold index
  have hc : roundFloat32 ((machineKernel r 1 36028797018963968000 n).mSamplesProcessed : ℚ)
      = some ((1 : Int) : ℚ) := roundFloat32_natCast_small 1 (by norm_num) (by norm_num)
  rw [hc, Option.some_bind]
  have e : ((1 : Int) : ℚ) * (machineKernel r 1 36028797018963968000 n).mCurrentScale
      = 36028797018963968000 := by
    show ((1 : Int) : ℚ) * 36028797018963968000 = _
    norm_num
  rw [e, scale_tiny, Option.some_bind, floatToLong_tiny]
  rfl

/-! ## The run at 44100 Hz and 13 Hz -/

theorem index_eq_of_floor {k : TremeloUnitKernel ℚ} {c p : ℚ} {f : Int}
    (hc : roundFloat32 (k.mSamplesProcessed : ℚ) = some c)
    (hp : roundFloat32 (c * k.mCurrentScale) = some p) (h0 : 0 ≤ p)
    (h1 : p < 9223372036854775808) (hf1 : (f : ℚ) ≤ p) (hf2 : p < (f : ℚ) + 1) :
    index k = some (f % 2000) := by
  rw [index_eq_of hc hp h0 h1, Int.floor_eq_iff.mpr ⟨hf1, hf2⟩]

/-- From the state a first call at 44100 Hz and 13 Hz leaves before its loop, the kernel
after `n + 1` iterations has counter `n + 1`, up to 10,000,523 iterations. -/
theorem steps_44100_13 (r : ℚ) (n : Nat) (h : n + 1 ≤ 10000523) :
    steps (n + 1) (machineKernel r 0 0 (9891329 / 16777216)) =
      some (machineKernel r ((n : Int) + 1) (9891329 / 16777216) (9891329 / 16777216)) := by
  induction n with
  | zero =>
    rw [steps_succ, steps_zero, Option.some_bind,
      advance_machineKernel_adopt r 0 (9891329 / 16777216) 0
        (index_at_counter_zero _ rfl) (by norm_num)]
    norm_num
  | succ n ih =>
    rw [steps_succ, ih (by omega), Option.some_bind]
    obtain ⟨i, hi⟩ := index_isSome
      (machineKernel r ((n : Int) + 1) (9891329 / 16777216) (9891329 / 16777216))
      (by show (0 : Int) ≤ (n : Int) + 1; omega)
      (by show (n : Int) + 1 ≤ 1099511627776; omega)
      (by show (0 : ℚ) ≤ 9891329 / 16777216; norm_num)
      (by show (9891329 / 16777216 : ℚ) ≤ 65536; norm_num)
    have hcase : (n : Int) + 1 < 10000000 ∨ i ≠ 0 := by
      by_cases hlt : (n : Int) + 1 < 10000000
      · exact Or.inl hlt
      · exact Or.inr (index_window r ((n : Int) + 1) i (by omega) (by omega) hi)
    rw [advance_machineKernel_steady r _ _ i hi hcase (by omega)]
    push_cast
    rfl

/-- At 44100 Hz and 13 Hz the reset at `sampleLimit` happens in iteration 10,000,523: after
10,000,524 iterations the counter is 1. -/
theorem steps_44100_13_wrap (r : ℚ) :
    steps (10000523 + 1) (machineKernel r 0 0 (9891329 / 16777216)) =
      some (machineKernel r 1 (9891329 / 16777216) (9891329 / 16777216)) := by
  rw [steps_succ]
  have h := steps_44100_13 r 10000522 (by norm_num)
  have e : (10000522 : Nat) + 1 = 10000523 := by norm_num
  rw [e] at h
  rw [h, Option.some_bind]
  have e2 : ((10000522 : Nat) : Int) + 1 = 10000523 := by norm_num
  rw [e2]
  exact advance_machineKernel_wrap r _ 10000523 (index_44100_13_at_10000523 r) (by norm_num)

/-- Iterations in the steady state below `sampleLimit`. -/
theorem steps_steady (r s : ℚ) (hs0 : 0 ≤ s) (hs1 : s ≤ 65536) (c : Int) (h0 : 0 ≤ c)
    (m : Nat) (h : c + m ≤ 10000000) :
    steps m (machineKernel r c s s) = some (machineKernel r (c + m) s s) := by
  induction m with
  | zero =>
    rw [steps_zero]
    simp
  | succ m ih =>
    have hm : c + (m : Int) ≤ 10000000 := by push_cast at h; omega
    rw [steps_succ, ih hm, Option.some_bind]
    obtain ⟨i, hi⟩ := index_isSome (machineKernel r (c + m) s s)
      (by show (0 : Int) ≤ c + m; omega) (by show c + (m : Int) ≤ 1099511627776; omega)
      hs0 hs1
    rw [advance_machineKernel_steady r s _ i hi (Or.inl (by push_cast at h; omega)) (by omega)]
    push_cast
    rw [add_assoc]

/-- Without the reset at `sampleLimit` the counter in the steady state is the number of
iterations. -/
theorem stepsWithoutRuleB_steady (r s : ℚ) (hs0 : 0 ≤ s) (hs1 : s ≤ 65536) (c : Int)
    (h0 : 0 ≤ c) (m : Nat) (h : c + m ≤ 1099511627776) :
    stepsWithoutRuleB m (machineKernel r c s s) = some (machineKernel r (c + m) s s) := by
  induction m with
  | zero =>
    rw [stepsWithoutRuleB_zero]
    simp
  | succ m ih =>
    have hm : c + (m : Int) ≤ 1099511627776 := by push_cast at h; omega
    rw [stepsWithoutRuleB_succ, ih hm, Option.some_bind]
    obtain ⟨i, hi⟩ := index_isSome (machineKernel r (c + m) s s)
      (by show (0 : Int) ≤ c + m; omega) (by show c + (m : Int) ≤ 1099511627776; omega)
      hs0 hs1
    rw [advanceWithoutRuleB_machineKernel_steady r s _ i hi (by omega)]
    push_cast
    rw [add_assoc]

theorem stepsWithoutRuleB_start (r s : ℚ) (hs0 : 0 < s) (hs1 : s ≤ 65536) (m : Nat)
    (h : (m : Int) + 1 ≤ 1099511627776) :
    stepsWithoutRuleB (1 + m) (machineKernel r 0 0 s) = some (machineKernel r (1 + m) s s) := by
  rw [stepsWithoutRuleB_add]
  have h1 : stepsWithoutRuleB 1 (machineKernel r 0 0 s) = some (machineKernel r 1 s s) := by
    rw [show (1 : Nat) = 0 + 1 from rfl, stepsWithoutRuleB_succ, stepsWithoutRuleB_zero,
      Option.some_bind]
    exact advanceWithoutRuleB_machineKernel_adopt r 0 s 0 (index_at_counter_zero _ rfl)
      (ne_of_gt hs0)
  rw [h1, Option.some_bind]
  exact stepsWithoutRuleB_steady r s (le_of_lt hs0) hs1 1 (by norm_num) m (by omega)

theorem index_44100_13_at_5 (r : ℚ) :
    index (machineKernel r 5 (9891329 / 16777216) (9891329 / 16777216)) = some 2 := by
  have hc : roundFloat32 ((machineKernel r 5 (9891329 / 16777216)
      (9891329 / 16777216)).mSamplesProcessed : ℚ) = some ((5 : Int) : ℚ) :=
    roundFloat32_natCast_small 5 (by norm_num) (by norm_num)
  have hp : roundFloat32 (((5 : Int) : ℚ) * (machineKernel r 5
      (9891329 / 16777216) (9891329 / 16777216)).mCurrentScale)
      = some (12364161 / 4194304) := by
    have e : ((5 : Int) : ℚ) * (machineKernel r 5
        (9891329 / 16777216) (9891329 / 16777216)).mCurrentScale
        = 49456645 / 16777216 := by
      show ((5 : Int) : ℚ) * (9891329 / 16777216) = _
      norm_num
    rw [e]
    exact product_5
  have h := index_eq_of_floor (f := 2) hc hp (by norm_num) (by norm_num) (by norm_num)
    (by norm_num)
  rw [h]
  norm_num

theorem index_44100_13_at_10000528 (r : ℚ) :
    index (machineKernel r 10000528 (9891329 / 16777216) (9891329 / 16777216)) = some 3 := by
  have hc : roundFloat32 ((machineKernel r 10000528 (9891329 / 16777216)
      (9891329 / 16777216)).mSamplesProcessed : ℚ) = some ((10000528 : Int) : ℚ) :=
    roundFloat32_natCast_small 10000528 (by norm_num) (by norm_num)
  have hp : roundFloat32 (((10000528 : Int) : ℚ) * (machineKernel r 10000528
      (9891329 / 16777216) (9891329 / 16777216)).mCurrentScale)
      = some 5896003 := by
    have e : ((10000528 : Int) : ℚ) * (machineKernel r 10000528
        (9891329 / 16777216) (9891329 / 16777216)).mCurrentScale
        = 6182407038857 / 1048576 := by
      show ((10000528 : Int) : ℚ) * (9891329 / 16777216) = _
      norm_num
    rw [e]
    exact product_10000528
  have h := index_eq_of_floor (f := 5896003) hc hp (by norm_num) (by norm_num)
    (by norm_num) (by norm_num)
  rw [h]
  norm_num

/-- The kernel with the reset at `sampleLimit` after 10,000,528 iterations at 44100 Hz and
13 Hz: the counter is 5. -/
theorem steps_44100_13_final (r : ℚ) :
    steps 10000528 (machineKernel r 0 0 (9891329 / 16777216)) =
      some (machineKernel r 5 (9891329 / 16777216) (9891329 / 16777216)) := by
  have e : (10000528 : Nat) = (10000523 + 1) + 4 := by norm_num
  rw [e, steps_add, steps_44100_13_wrap, Option.some_bind]
  have h := steps_steady r (9891329 / 16777216) (by norm_num) (by norm_num) 1 (by norm_num) 4
    (by norm_num)
  rw [h]
  norm_num

theorem stepsWithoutRuleB_44100_13_final (r : ℚ) :
    stepsWithoutRuleB 10000528 (machineKernel r 0 0 (9891329 / 16777216)) =
      some (machineKernel r 10000528 (9891329 / 16777216) (9891329 / 16777216)) := by
  have e : (10000528 : Nat) = 1 + 10000527 := by norm_num
  rw [e, stepsWithoutRuleB_start r (9891329 / 16777216) (by norm_num) (by norm_num) 10000527
    (by norm_num)]
  norm_num

/-! ## The part of `Process` before the loop, the loop and sequences of calls -/

theorem floatToInt_isSome {x : ℚ} (h : |x| < 2147483648) : ∃ w, floatToInt x = some w := by
  have hx := abs_lt.mp h
  unfold floatToInt
  refine ⟨toLong x, ?_⟩
  rw [if_pos]
  unfold toLong
  split_ifs with h0
  · constructor
    · have : 0 ≤ ⌊x⌋ := Int.floor_nonneg.mpr h0
      norm_num
      omega
    · have : ⌊x⌋ < 2147483648 := by
        apply Int.floor_lt.mpr
        push_cast
        exact hx.2
      norm_num
      omega
  · constructor
    · have : (-2147483648 : Int) < ⌈x⌉ := by
        apply Int.lt_ceil.mpr
        push_cast
        exact hx.1
      norm_num
      omega
    · have : ⌈x⌉ ≤ 0 := by
        apply Int.ceil_le.mpr
        push_cast
        linarith
      norm_num
      omega

theorem prepare_frame {k k' : TremeloUnitKernel ℚ} {GetParameter : Parameters → ℚ}
    (h : prepare k GetParameter = some k') :
    k'.mSine = k.mSine ∧ k'.mSquare = k.mSquare ∧ k'.mSampleFrequency = k.mSampleFrequency ∧
      k'.mSamplesProcessed = k.mSamplesProcessed ∧ k'.mCurrentScale = k.mCurrentScale := by
  obtain ⟨w, spc, ns, _, _, _, _, hk⟩ := (prepare_eq_some_iff k k' GetParameter).mp h
  rw [hk]
  exact ⟨rfl, rfl, rfl, rfl, rfl⟩

/-- The table that the loop reads is the sine table when the waveform selector converts to
1 and the square table otherwise. -/
theorem prepare_waveArray {k k' : TremeloUnitKernel ℚ} {GetParameter : Parameters → ℚ}
    (h : prepare k GetParameter = some k') :
    ∃ w, floatToInt (GetParameter Parameters.kParameter_Waveform) = some w ∧
      k'.waveArray = if w = 1 then k.mSine else k.mSquare := by
  obtain ⟨w, spc, ns, hw, _, _, _, hk⟩ := (prepare_eq_some_iff k k' GetParameter).mp h
  refine ⟨w, hw, ?_⟩
  rw [hk]
  unfold TremeloUnitKernel.waveArray kSineWave_Tremelo_Waveform
  split_ifs <;> rfl

theorem samplesPerTremeloCycle_pos {r f spc : ℚ} (hr : 0 < r) (hf : 0 < f)
    (hs : roundFloat32 (r / f) = some spc) (h0 : spc ≠ 0) : 0 < spc :=
  lt_of_le_of_ne (roundToFormat_nonneg hs (le_of_lt (div_pos hr hf))) (Ne.symm h0)

theorem prepare_mNextScale_nonneg {k k' : TremeloUnitKernel ℚ}
    {GetParameter : Parameters → ℚ} (h : prepare k GetParameter = some k')
    (hr : 0 < k.mSampleFrequency) : 0 ≤ k'.mNextScale := by
  obtain ⟨w, spc, ns, _, hs, h0, hn, hk⟩ := (prepare_eq_some_iff k k' GetParameter).mp h
  have hf := (clampFrequency_bounds (GetParameter Parameters.kParameter_Frequency)).1
  have hspc := samplesPerTremeloCycle_pos hr (by linarith) hs h0
  have hns : 0 ≤ ns := roundToFormat_nonneg hn (le_of_lt (div_pos (by norm_num) hspc))
  rw [hk]
  exact hns

theorem samplesPerTremeloCycle_ge {r f spc : ℚ} (hr : 1 ≤ r) (hf0 : 1 / 2 ≤ f) (hf1 : f ≤ 20)
    (hs : roundFloat32 (r / f) = some spc) : 1 / 21 ≤ spc := by
  have hx1 : 1 / 20 ≤ r / f := by
    rw [le_div_iff₀ (by linarith)]
    linarith
  have hrel := roundFloat32_rel hs (by
    rw [abs_of_nonneg (by linarith)]
    have : (1 / 85070591730234615865843651857942052864 : ℚ) ≤ 1 / 20 := by norm_num
    linarith)
  rw [abs_of_nonneg (by linarith : (0 : ℚ) ≤ r / f)] at hrel
  have h2 := (abs_le.mp hrel).1
  linarith

theorem mNextScale_le {spc ns : ℚ} (hspc : 1 / 21 ≤ spc)
    (hn : roundFloat32 (2000 / spc) = some ns) : ns ≤ 65536 := by
  have hv0 : 0 ≤ 2000 / spc := div_nonneg (by norm_num) (by linarith)
  have hv1 : 2000 / spc ≤ 42000 := by
    rw [div_le_iff₀ (by linarith)]
    linarith
  obtain ⟨y, hy, hye, _⟩ := roundFloat32_near (2000 / spc) 15
    (by rw [abs_of_nonneg hv0]; norm_num; linarith) (by norm_num) (by norm_num)
  rw [hn] at hy
  simp only [Option.some.injEq] at hy
  subst hy
  have h2 := (abs_le.mp hye).2
  norm_num at h2
  linarith

theorem prepare_mNextScale_le {k k' : TremeloUnitKernel ℚ}
    {GetParameter : Parameters → ℚ} (h : prepare k GetParameter = some k')
    (hr : 1 ≤ k.mSampleFrequency) : k'.mNextScale ≤ 65536 := by
  obtain ⟨w, spc, ns, _, hs, h0, hn, hk⟩ := (prepare_eq_some_iff k k' GetParameter).mp h
  have hf := clampFrequency_bounds (GetParameter Parameters.kParameter_Frequency)
  have hspc := samplesPerTremeloCycle_ge hr (by have := hf.1; norm_num at this; linarith)
    hf.2 hs
  rw [hk]
  exact mNextScale_le hspc hn

/-- The part of `Process` before the loop succeeds for a sample rate from 1 to `2 ^ 100` and
a waveform selector of magnitude below `2 ^ 31`. -/
theorem prepare_isSome (k : TremeloUnitKernel ℚ) (GetParameter : Parameters → ℚ)
    (hr1 : 1 ≤ k.mSampleFrequency)
    (hr2 : k.mSampleFrequency ≤ 1267650600228229401496703205376)
    (hw : |GetParameter Parameters.kParameter_Waveform| < 2147483648) :
    ∃ k', prepare k GetParameter = some k' := by
  obtain ⟨w, hw'⟩ := floatToInt_isSome hw
  have hf := clampFrequency_bounds (GetParameter Parameters.kParameter_Frequency)
  have hf0 : 1 / 2 ≤ clampFrequency (GetParameter Parameters.kParameter_Frequency) := by
    have := hf.1
    norm_num at this
    linarith
  have hx0 : 0 ≤ k.mSampleFrequency /
      clampFrequency (GetParameter Parameters.kParameter_Frequency) :=
    div_nonneg (by linarith) (by linarith)
  have hx1 : k.mSampleFrequency /
      clampFrequency (GetParameter Parameters.kParameter_Frequency) ≤
        2535301200456458802993406410752 := by
    rw [div_le_iff₀ (by linarith)]
    nlinarith
  obtain ⟨spc, hs, _, _⟩ := roundFloat32_near (k.mSampleFrequency /
      clampFrequency (GetParameter Parameters.kParameter_Frequency)) 101
    (by rw [abs_of_nonneg hx0]; norm_num; linarith) (by norm_num) (by norm_num)
  have hspc := samplesPerTremeloCycle_ge hr1 hf0 hf.2 hs
  have hv0 : 0 ≤ 2000 / spc := div_nonneg (by norm_num) (by linarith)
  have hv1 : 2000 / spc ≤ 42000 := by
    rw [div_le_iff₀ (by linarith)]
    linarith
  obtain ⟨ns, hn, _, _⟩ := roundFloat32_near (2000 / spc) 15
    (by rw [abs_of_nonneg hv0]; norm_num; linarith) (by norm_num) (by norm_num)
  exact ⟨_, (prepare_eq_some_iff k _ GetParameter).mpr
    ⟨w, spc, ns, hw', hs, by linarith, hn, rfl⟩⟩

/-- What one loop iteration leaves of the kernel. -/
theorem advance_bounds {k k' : TremeloUnitKernel ℚ} (h : advance k = some k') :
    (k'.mSine = k.mSine ∧ k'.mSquare = k.mSquare ∧
      k'.waveArrayPointer = k.waveArrayPointer ∧
      k'.mSampleFrequency = k.mSampleFrequency ∧ k'.mNextScale = k.mNextScale) ∧
    (k'.mCurrentScale = k.mCurrentScale ∨ k'.mCurrentScale = k.mNextScale) ∧
    (k'.mSamplesProcessed = k.mSamplesProcessed + 1 ∨ k'.mSamplesProcessed = 1) := by
  unfold advance at h
  cases hi : index k with
  | none => rw [hi] at h; cases h
  | some i =>
    rw [hi, Option.some_bind] at h
    obtain ⟨_, hk⟩ := (increment_eq_some_iff _ _).mp h
    have hf := resync_frame k i
    have hn := resync_mNextScale k i
    have hs := resync_mCurrentScale k i
    have hc := resync_mSamplesProcessed k i
    rw [hk]
    refine ⟨⟨hf.1, hf.2.1, hf.2.2.1, hf.2.2.2, hn⟩, ?_, ?_⟩
    · show (resync k i).mCurrentScale = _ ∨ (resync k i).mCurrentScale = _
      rw [hs]
      split_ifs
      · exact Or.inr rfl
      · exact Or.inl rfl
    · show (resync k i).mSamplesProcessed + 1 = _ ∨ (resync k i).mSamplesProcessed + 1 = 1
      rw [hc]
      split_ifs
      · exact Or.inr (by norm_num)
      · exact Or.inl rfl

theorem steps_bounds {n : Nat} {k k' : TremeloUnitKernel ℚ} (h : steps n k = some k') :
    (k'.mSine = k.mSine ∧ k'.mSquare = k.mSquare ∧
      k'.waveArrayPointer = k.waveArrayPointer ∧
      k'.mSampleFrequency = k.mSampleFrequency ∧ k'.mNextScale = k.mNextScale) ∧
    (k'.mCurrentScale = k.mCurrentScale ∨ k'.mCurrentScale = k.mNextScale) ∧
    (0 ≤ k.mSamplesProcessed →
      0 ≤ k'.mSamplesProcessed ∧ k'.mSamplesProcessed ≤ k.mSamplesProcessed + n) := by
  induction n generalizing k' with
  | zero =>
    rw [steps_zero] at h
    simp only [Option.some.injEq] at h
    subst h
    exact ⟨⟨rfl, rfl, rfl, rfl, rfl⟩, Or.inl rfl, fun h0 => ⟨h0, by simp⟩⟩
  | succ n ih =>
    rw [steps_succ] at h
    cases hn : steps n k with
    | none => rw [hn] at h; cases h
    | some kn =>
      rw [hn, Option.some_bind] at h
      obtain ⟨hf, hs, hc⟩ := ih hn
      obtain ⟨hf2, hs2, hc2⟩ := advance_bounds h
      refine ⟨⟨hf2.1.trans hf.1, hf2.2.1.trans hf.2.1, hf2.2.2.1.trans hf.2.2.1,
        hf2.2.2.2.1.trans hf.2.2.2.1, hf2.2.2.2.2.trans hf.2.2.2.2⟩, ?_, ?_⟩
      · rcases hs2 with hs2 | hs2
        · rw [hs2]
          exact hs
        · rw [hs2, hf.2.2.2.2]
          exact Or.inr rfl
      · intro h0
        obtain ⟨ha, hb⟩ := hc h0
        push_cast
        rcases hc2 with hc2 | hc2 <;> rw [hc2] <;> constructor <;> omega

theorem steps_succ_head (n : Nat) (k : TremeloUnitKernel ℚ) :
    steps (n + 1) k = (advance k).bind (steps n) := by
  rw [Nat.add_comm, steps_add]
  have e : steps 1 k = advance k := by
    rw [show (1 : Nat) = 0 + 1 from rfl, steps_succ, steps_zero, Option.some_bind]
  rw [e]

theorem processLoop_of_nil (k : TremeloUnitKernel ℚ) (tremeloDepth : ℚ) (inDestP : List ℚ) :
    processLoop k tremeloDepth [] inDestP = some (k, inDestP) := rfl

theorem processLoop_of_cons (k : TremeloUnitKernel ℚ) (tremeloDepth inputSample : ℚ)
    (sourceP inDestP : List ℚ) :
    processLoop k tremeloDepth (inputSample :: sourceP) inDestP =
      (sampleStep k tremeloDepth inputSample).bind fun r =>
        (processLoop r.1 tremeloDepth sourceP inDestP.tail).bind fun r2 =>
          some (r2.1, r.2 :: r2.2) := rfl

/-- A successful loop: its first iteration and the loop on the rest. -/
theorem processLoop_cons_eq_some {k k' : TremeloUnitKernel ℚ} {tremeloDepth x : ℚ}
    {xs inDestP out : List ℚ}
    (h : processLoop k tremeloDepth (x :: xs) inDestP = some (k', out)) :
    ∃ k1 y rest, sampleStep k tremeloDepth x = some (k1, y) ∧
      processLoop k1 tremeloDepth xs inDestP.tail = some (k', rest) ∧ out = y :: rest := by
  rw [processLoop_of_cons] at h
  cases h1 : sampleStep k tremeloDepth x with
  | none => rw [h1] at h; cases h
  | some r =>
    obtain ⟨k1, y⟩ := r
    rw [h1, Option.some_bind] at h
    cases h2 : processLoop k1 tremeloDepth xs inDestP.tail with
    | none =>
      simp only [h2] at h
      cases h
    | some r2 =>
      obtain ⟨k2, rest⟩ := r2
      simp only [h2, Option.some_bind, Option.some.injEq, Prod.mk.injEq] at h
      exact ⟨k1, y, rest, rfl, by rw [← h.1]; exact h2, h.2.symm⟩

/-- The kernel a successful loop leaves is the kernel after as many iterations as there are
samples. -/
theorem processLoop_steps {k k' : TremeloUnitKernel ℚ} {tremeloDepth : ℚ}
    {xs inDestP out : List ℚ}
    (h : processLoop k tremeloDepth xs inDestP = some (k', out)) :
    steps xs.length k = some k' := by
  induction xs generalizing k inDestP out with
  | nil =>
    rw [processLoop_of_nil] at h
    simp only [Option.some.injEq, Prod.mk.injEq] at h
    rw [List.length_nil, steps_zero, h.1]
  | cons x xs ih =>
    obtain ⟨k1, y, rest, h1, h2, _⟩ := processLoop_cons_eq_some h
    rw [List.length_cons, steps_succ_head, advance_of_sampleStep h1, Option.some_bind]
    exact ih h2

theorem Process_eq_some {k k' : TremeloUnitKernel ℚ} {GetParameter : Parameters → ℚ}
    {inSourceP inDestP out : List ℚ}
    (h : Process k GetParameter inSourceP inDestP false = some (k', out)) :
    ∃ kp, prepare k GetParameter = some kp ∧ inSourceP.length < 2 ^ 31 ∧
      processLoop kp (clampDepth (GetParameter Parameters.kParameter_Depth)) inSourceP inDestP
        = some (k', out) := by
  unfold Process at h
  simp only [Bool.not_false, if_true] at h
  cases hp : prepare k GetParameter with
  | none => rw [hp] at h; cases h
  | some kp =>
    rw [hp, Option.some_bind] at h
    split_ifs at h with hl
    exact ⟨kp, rfl, hl, h⟩

theorem Process_of_prepare {k kp : TremeloUnitKernel ℚ} {GetParameter : Parameters → ℚ}
    {inSourceP : List ℚ} (inDestP : List ℚ) (hp : prepare k GetParameter = some kp)
    (hl : inSourceP.length < 2 ^ 31) :
    Process k GetParameter inSourceP inDestP false =
      processLoop kp (clampDepth (GetParameter Parameters.kParameter_Depth))
        inSourceP inDestP := by
  unfold Process
  simp only [Bool.not_false, if_true]
  rw [hp, Option.some_bind, if_pos hl]

theorem Process_silent (k : TremeloUnitKernel ℚ) (GetParameter : Parameters → ℚ)
    (inSourceP inDestP : List ℚ) :
    Process k GetParameter inSourceP inDestP true = some (k, inDestP) := by
  unfold Process
  simp

/-- A `Process` call keeps the tables and the sample rate, a non-negative counter and a
non-negative scale; at a sample rate of at least 1 it keeps the scale at most `2 ^ 16`. -/
theorem Process_invariant {k k' : TremeloUnitKernel ℚ} {GetParameter : Parameters → ℚ}
    {inSourceP inDestP out : List ℚ} {ioSilence : Bool}
    (h : Process k GetParameter inSourceP inDestP ioSilence = some (k', out))
    (hr : 0 < k.mSampleFrequency)
    (hinv : 0 ≤ k.mSamplesProcessed ∧ 0 ≤ k.mCurrentScale ∧
      (1 ≤ k.mSampleFrequency → k.mCurrentScale ≤ 65536)) :
    (k'.mSine = k.mSine ∧ k'.mSquare = k.mSquare ∧
      k'.mSampleFrequency = k.mSampleFrequency) ∧
    0 ≤ k'.mSamplesProcessed ∧ 0 ≤ k'.mCurrentScale ∧
      (1 ≤ k.mSampleFrequency → k'.mCurrentScale ≤ 65536) := by
  cases ioSilence with
  | true =>
    rw [Process_silent] at h
    simp only [Option.some.injEq, Prod.mk.injEq] at h
    rw [← h.1]
    exact ⟨⟨rfl, rfl, rfl⟩, hinv⟩
  | false =>
    obtain ⟨kp, hp, _, hl⟩ := Process_eq_some h
    obtain ⟨f1, f2, f3, f4, f5⟩ := prepare_frame hp
    have hn0 := prepare_mNextScale_nonneg hp hr
    obtain ⟨⟨g1, g2, _, g4, _⟩, hs, hc⟩ := steps_bounds (processLoop_steps hl)
    refine ⟨⟨g1.trans f1, g2.trans f2, g4.trans f3⟩, (hc (by rw [f4]; exact hinv.1)).1, ?_, ?_⟩
    · rcases hs with hs | hs
      · rw [hs, f5]
        exact hinv.2.1
      · rw [hs]
        exact hn0
    · intro h1
      rcases hs with hs | hs
      · rw [hs, f5]
        exact hinv.2.2 h1
      · rw [hs]
        exact prepare_mNextScale_le hp h1

theorem runCalls_nil (k : TremeloUnitKernel ℚ) : runCalls k [] = some k := rfl

theorem runCalls_process (k : TremeloUnitKernel ℚ) (GetParameter : Parameters → ℚ)
    (inSourceP inDestP : List ℚ) (ioSilence : Bool) (calls : List (Call ℚ)) :
    runCalls k (Call.process GetParameter inSourceP inDestP ioSilence :: calls) =
      (Process k GetParameter inSourceP inDestP ioSilence).bind fun r =>
        runCalls r.1 calls := rfl

theorem runCalls_reset (k : TremeloUnitKernel ℚ) (calls : List (Call ℚ)) :
    runCalls k (Call.reset :: calls) = runCalls k.Reset calls := rfl

/-- Every sequence of calls keeps the tables and the sample rate, a non-negative counter and
a non-negative scale. -/
theorem runCalls_invariant {calls : List (Call ℚ)} {k k' : TremeloUnitKernel ℚ}
    (h : runCalls k calls = some k') (hr : 0 < k.mSampleFrequency)
    (hinv : 0 ≤ k.mSamplesProcessed ∧ 0 ≤ k.mCurrentScale ∧
      (1 ≤ k.mSampleFrequency → k.mCurrentScale ≤ 65536)) :
    (k'.mSine = k.mSine ∧ k'.mSquare = k.mSquare ∧
      k'.mSampleFrequency = k.mSampleFrequency) ∧
    0 ≤ k'.mSamplesProcessed ∧ 0 ≤ k'.mCurrentScale ∧
      (1 ≤ k.mSampleFrequency → k'.mCurrentScale ≤ 65536) := by
  induction calls generalizing k with
  | nil =>
    rw [runCalls_nil] at h
    simp only [Option.some.injEq] at h
    rw [← h]
    exact ⟨⟨rfl, rfl, rfl⟩, hinv⟩
  | cons c calls ih =>
    cases c with
    | process GetParameter inSourceP inDestP ioSilence =>
      rw [runCalls_process] at h
      cases hp : Process k GetParameter inSourceP inDestP ioSilence with
      | none => rw [hp] at h; cases h
      | some r =>
        obtain ⟨k1, out⟩ := r
        rw [hp, Option.some_bind] at h
        obtain ⟨⟨f1, f2, f3⟩, i1, i2, i3⟩ := Process_invariant hp hr hinv
        obtain ⟨⟨g1, g2, g3⟩, j1, j2, j3⟩ := ih h (by rw [f3]; exact hr)
          ⟨i1, i2, fun h1 => i3 (by rw [← f3]; exact h1)⟩
        exact ⟨⟨g1.trans f1, g2.trans f2, g3.trans f3⟩, j1, j2,
          fun h1 => j3 (by rw [f3]; exact h1)⟩
    | reset =>
      rw [runCalls_reset] at h
      have hreset : (0 : Int) ≤ k.Reset.mSamplesProcessed ∧ (0 : ℚ) ≤ k.Reset.mCurrentScale ∧
          (1 ≤ k.Reset.mSampleFrequency → k.Reset.mCurrentScale ≤ 65536) :=
        ⟨le_refl 0, le_refl 0, fun _ => by
          show (0 : ℚ) ≤ 65536
          norm_num⟩
      obtain ⟨⟨g1, g2, g3⟩, j1, j2, j3⟩ := ih (k := k.Reset) h hr hreset
      exact ⟨⟨g1, g2, g3⟩, j1, j2, j3⟩

theorem readTable_isSome_of_range {table : Fin kWaveArraySize → ℚ} {i : Int} (h0 : 0 ≤ i)
    (h1 : i < 2000) : ∃ raw, readTable table i = some raw := by
  unfold readTable
  have e : ((kWaveArraySize : Nat) : Int) = 2000 := rfl
  rw [dif_pos ⟨h0, by rw [e]; exact h1⟩]
  exact ⟨_, rfl⟩

theorem readTable_mem {table : Fin kWaveArraySize → ℚ} {i : Int} {raw : ℚ}
    (h : readTable table i = some raw) : ∃ j, raw = table j := by
  unfold readTable at h
  split_ifs at h
  simp only [Option.some.injEq] at h
  exact ⟨_, h.symm⟩

/-- The gain of line 428 is defined for a table value of magnitude at most 2 and a depth
from 0 to 100, and its magnitude is at most 9. -/
theorem tremeloGain_isSome {raw depth : ℚ} (hr : |raw| ≤ 2) (hd0 : 0 ≤ depth)
    (hd1 : depth ≤ 100) : ∃ g, tremeloGain raw depth = some g ∧ |g| ≤ 9 := by
  have hr' := abs_le.mp hr
  have hp1 : raw * depth ≤ 200 := by nlinarith
  have hp2 : -200 ≤ raw * depth := by nlinarith
  obtain ⟨a, ha, hae, _⟩ := roundFloat32_near (raw * depth) 7
    (by rw [abs_lt]; norm_num; constructor <;> linarith) (by norm_num) (by norm_num)
  have hae' := abs_le.mp hae
  norm_num at hae'
  obtain ⟨b, hb, hbe, _⟩ := roundFloat32_near (a - depth) 8
    (by rw [abs_lt]; norm_num; constructor <;> linarith) (by norm_num) (by norm_num)
  have hbe' := abs_le.mp hbe
  norm_num at hbe'
  obtain ⟨c, hc, hce, _⟩ := roundFloat64_near (b + 100) 8
    (by rw [abs_lt]; norm_num; constructor <;> linarith) (by norm_num) (by norm_num)
  have hce' := abs_le.mp hce
  norm_num at hce'
  obtain ⟨d, hd, hde, _⟩ := roundFloat64_near
    (c * (5764607523034235 / 576460752303423488)) 2
    (by rw [abs_lt]; norm_num; constructor <;> linarith) (by norm_num) (by norm_num)
  have hde' := abs_le.mp hde
  norm_num at hde'
  obtain ⟨g, hg, hge, _⟩ := roundFloat32_near d 2
    (by rw [abs_lt]; norm_num; constructor <;> linarith) (by norm_num) (by norm_num)
  have hge' := abs_le.mp hge
  norm_num at hge'
  refine ⟨g, ?_, ?_⟩
  · unfold tremeloGain
    rw [ha, Option.some_bind, hb, Option.some_bind, hc, Option.some_bind,
      roundFloat64_hundredth, Option.some_bind, hd, Option.some_bind, hg]
  · rw [abs_le]
    constructor <;> linarith

theorem waveArray_congr {k k' : TremeloUnitKernel ℚ} (h1 : k'.mSine = k.mSine)
    (h2 : k'.mSquare = k.mSquare) (h3 : k'.waveArrayPointer = k.waveArrayPointer) :
    k'.waveArray = k.waveArray := by
  unfold TremeloUnitKernel.waveArray
  rw [h1, h2, h3]

theorem waveArray_abs_le {k : TremeloUnitKernel ℚ} {b : ℚ}
    (ht : ∀ j, |k.mSine j| ≤ b ∧ |k.mSquare j| ≤ b) (j : Fin kWaveArraySize) :
    |k.waveArray j| ≤ b := by
  unfold TremeloUnitKernel.waveArray
  cases k.waveArrayPointer
  · exact (ht j).1
  · exact (ht j).2

/-- The contents of the destination after a successful loop: beyond the processed samples
it is as before, and position `j` holds the `float` product of input sample `j` and the gain
for the table entry at the index of iteration `j`. -/
theorem processLoop_output {k k' : TremeloUnitKernel ℚ} {tremeloDepth : ℚ}
    {xs inDestP out : List ℚ}
    (h : processLoop k tremeloDepth xs inDestP = some (k', out)) :
    out.drop xs.length = inDestP.drop xs.length ∧ xs.length ≤ out.length ∧
    ∀ j (hj : j < xs.length), ∃ kj i raw g y,
      steps j k = some kj ∧ index kj = some i ∧ readTable k.waveArray i = some raw ∧
      tremeloGain raw tremeloDepth = some g ∧ roundFloat32 (xs[j] * g) = some y ∧
      out[j]? = some y := by
  induction xs generalizing k inDestP out with
  | nil =>
    rw [processLoop_of_nil] at h
    simp only [Option.some.injEq, Prod.mk.injEq] at h
    refine ⟨by rw [h.2], Nat.zero_le _, ?_⟩
    intro j hj
    exact absurd hj (Nat.not_lt_zero j)
  | cons x xs ih =>
    obtain ⟨k1, y, rest, h1, h2, ho⟩ := processLoop_cons_eq_some h
    obtain ⟨hd, hl, hj⟩ := ih h2
    obtain ⟨i, raw, g, hi, hr, hg, hy, _⟩ := (sampleStep_eq_some_iff k k1 _ _ y).mp h1
    have hadv := advance_of_sampleStep h1
    obtain ⟨⟨f1, f2, f3, _, _⟩, _, _⟩ := advance_bounds hadv
    rw [ho]
    refine ⟨?_, ?_, ?_⟩
    · rw [List.length_cons, List.drop_succ_cons, hd, List.drop_tail]
    · rw [List.length_cons, List.length_cons]
      exact Nat.succ_le_succ hl
    · intro j hjlt
      cases j with
      | zero =>
        exact ⟨k, i, raw, g, y, steps_zero k, hi, hr, hg, by simpa using hy, by simp⟩
      | succ j =>
        obtain ⟨kj, i', raw', g', y', hs', hi', hr', hg', hy', ho'⟩ :=
          hj j (Nat.lt_of_succ_lt_succ hjlt)
        refine ⟨kj, i', raw', g', y', ?_, hi', ?_, hg', ?_, ?_⟩
        · rw [steps_succ_head, hadv, Option.some_bind]
          exact hs'
        · rw [← waveArray_congr f1 f2 f3]
          exact hr'
        · simpa using hy'
        · rw [List.getElem?_cons_succ]
          exact ho'

/-- One loop iteration succeeds when the counter is from 0 to `2 ^ 40`, the scale from 0 to
`2 ^ 16`, the table values of magnitude at most 2, the depth from 0 to 100 and the input
sample of magnitude at most `2 ^ 100`. -/
theorem sampleStep_isSome (k : TremeloUnitKernel ℚ) (tremeloDepth inputSample : ℚ)
    (hc0 : 0 ≤ k.mSamplesProcessed) (hc1 : k.mSamplesProcessed ≤ 1099511627776)
    (hs0 : 0 ≤ k.mCurrentScale) (hs1 : k.mCurrentScale ≤ 65536)
    (ht : ∀ j, |k.mSine j| ≤ 2 ∧ |k.mSquare j| ≤ 2)
    (hd0 : 0 ≤ tremeloDepth) (hd1 : tremeloDepth ≤ 100)
    (hx : |inputSample| ≤ 1267650600228229401496703205376) :
    ∃ k' y, sampleStep k tremeloDepth inputSample = some (k', y) := by
  obtain ⟨i, hi⟩ := index_isSome k hc0 hc1 hs0 hs1
  obtain ⟨hi1, hi0⟩ := index_range hi
  obtain ⟨raw, hr⟩ := @readTable_isSome_of_range k.waveArray i (hi0 hc0 hs0) hi1
  obtain ⟨j, hj⟩ := readTable_mem hr
  have hraw : |raw| ≤ 2 := by
    rw [hj]
    exact waveArray_abs_le ht j
  obtain ⟨g, hg, hgb⟩ := tremeloGain_isSome hraw hd0 hd1
  have hxg : |inputSample * g| ≤ 1267650600228229401496703205376 * 9 := by
    rw [abs_mul]
    exact mul_le_mul hx hgb (abs_nonneg g) (by norm_num)
  obtain ⟨y, hy, _, _⟩ := roundFloat32_near (inputSample * g) 103
    (by norm_num; linarith) (by norm_num) (by norm_num)
  have hcnt : (resync k i).mSamplesProcessed + 1 < 9223372036854775808 := by
    rw [resync_mSamplesProcessed]
    split_ifs <;> omega
  exact ⟨_, y, (sampleStep_eq_some_iff k _ _ _ y).mpr
    ⟨i, raw, g, hi, hr, hg, hy, increment_of_lt _ hcnt⟩⟩

/-- The loop succeeds when the counter stays at most `2 ^ 40` and the scales, the table
values, the depth and the input samples are in range. -/
theorem processLoop_defined (k : TremeloUnitKernel ℚ) (tremeloDepth : ℚ)
    (xs inDestP : List ℚ)
    (hc0 : 0 ≤ k.mSamplesProcessed)
    (hc1 : k.mSamplesProcessed + xs.length ≤ 1099511627776)
    (hs0 : 0 ≤ k.mCurrentScale) (hs1 : k.mCurrentScale ≤ 65536)
    (hn0 : 0 ≤ k.mNextScale) (hn1 : k.mNextScale ≤ 65536)
    (ht : ∀ j, |k.mSine j| ≤ 2 ∧ |k.mSquare j| ≤ 2)
    (hd0 : 0 ≤ tremeloDepth) (hd1 : tremeloDepth ≤ 100)
    (hx : ∀ x ∈ xs, |x| ≤ 1267650600228229401496703205376) :
    ∃ k' out, processLoop k tremeloDepth xs inDestP = some (k', out) := by
  induction xs generalizing k inDestP with
  | nil => exact ⟨k, inDestP, processLoop_of_nil k tremeloDepth inDestP⟩
  | cons x xs ih =>
    rw [List.length_cons] at hc1
    push_cast at hc1
    obtain ⟨k1, y, h1⟩ := sampleStep_isSome k tremeloDepth x hc0 (by omega) hs0 hs1 ht hd0 hd1
      (hx x (List.mem_cons_self x xs))
    obtain ⟨⟨f1, f2, _, _, f5⟩, hs, hc⟩ := advance_bounds (advance_of_sampleStep h1)
    have hk1c0 : 0 ≤ k1.mSamplesProcessed := by
      rcases hc with hc | hc <;> rw [hc] <;> omega
    have hk1c1 : k1.mSamplesProcessed + xs.length ≤ 1099511627776 := by
      rcases hc with hc | hc <;> rw [hc] <;> omega
    have hk1s : 0 ≤ k1.mCurrentScale ∧ k1.mCurrentScale ≤ 65536 := by
      rcases hs with hs | hs <;> rw [hs]
      · exact ⟨hs0, hs1⟩
      · exact ⟨hn0, hn1⟩
    obtain ⟨k2, rest, h2⟩ := ih k1 inDestP.tail hk1c0 hk1c1 hk1s.1 hk1s.2
      (by rw [f5]; exact hn0) (by rw [f5]; exact hn1)
      (by rw [f1, f2]; exact ht) (fun z hz => hx z (List.mem_cons_of_mem x hz))
    refine ⟨k2, y :: rest, ?_⟩
    rw [processLoop_of_cons, h1, Option.some_bind]
    simp only [h2, Option.some_bind]

/-! ## The loop without the reset at `sampleLimit` -/

/-- The two resets are the reset on a frequency change alone unless the reset at
`sampleLimit` happens. -/
theorem resync_of_not_ruleBFires {k : TremeloUnitKernel ℚ} {i : Int} (hi : index k = some i)
    (h : ¬ ruleBFires k) : resync k i = resyncWithoutRuleB k i := by
  rw [resync_eq]
  rw [if_neg]
  rintro ⟨hc, h0⟩
  rw [resyncWithoutRuleB_mSamplesProcessed] at hc
  by_cases hne : k.mNextScale ≠ k.mCurrentScale ∧ i = 0
  · rw [if_pos hne] at hc
    have hc' : (10000000 : Int) ≤ 0 := hc
    omega
  · rw [if_neg hne] at hc
    apply h
    refine ⟨by rw [hi, h0], ?_, hc⟩
    by_contra hcon
    exact hne ⟨hcon, h0⟩

theorem advance_of_not_ruleBFires {k : TremeloUnitKernel ℚ} (h : ¬ ruleBFires k) :
    advanceWithoutRuleB k = advance k := by
  unfold advance advanceWithoutRuleB
  cases hi : index k with
  | none => rfl
  | some i =>
    rw [Option.some_bind, Option.some_bind, resync_of_not_ruleBFires hi h]

/-- Up to the first iteration in which the reset at `sampleLimit` happens the kernel without
the reset goes through the same states. -/
theorem stepsWithoutRuleB_eq_steps (n : Nat) (k : TremeloUnitKernel ℚ)
    (hno : ∀ j, j < n → ∀ kj, steps j k = some kj → ¬ ruleBFires kj) :
    stepsWithoutRuleB n k = steps n k := by
  induction n with
  | zero => rw [steps_zero, stepsWithoutRuleB_zero]
  | succ n ih =>
    rw [steps_succ, stepsWithoutRuleB_succ,
      ih (fun j hj kj hkj => hno j (Nat.lt_succ_of_lt hj) kj hkj)]
    cases hn : steps n k with
    | none => rfl
    | some kn =>
      rw [Option.some_bind, Option.some_bind]
      exact advance_of_not_ruleBFires (hno n (Nat.lt_succ_self n) kn hn)

theorem increment_resyncWithoutRuleB_isSome (k : TremeloUnitKernel ℚ) (i : Int)
    (hc : k.mSamplesProcessed + 1 < 9223372036854775808) :
    ∃ k', increment (resyncWithoutRuleB k i) = some k' ∧
      k'.mCurrentScale = (resync k i).mCurrentScale := by
  refine ⟨_, increment_of_lt _ ?_, ?_⟩
  · rw [resyncWithoutRuleB_mSamplesProcessed]
    split_ifs <;> omega
  · show (resyncWithoutRuleB k i).mCurrentScale = _
    exact resyncWithoutRuleB_mCurrentScale k i

theorem increment_resync_isSome (k : TremeloUnitKernel ℚ) (i : Int)
    (hc : k.mSamplesProcessed + 1 < 9223372036854775808) :
    ∃ k', increment (resync k i) = some k' := by
  refine ⟨_, increment_of_lt _ ?_⟩
  rw [resync_mSamplesProcessed]
  split_ifs <;> omega

/-- One iteration with and without the reset at `sampleLimit`, from the same state: the
same index, table value, gain and output sample, and the same scale afterwards. -/
theorem sampleStepWithoutRuleB_of_sampleStep {k k' : TremeloUnitKernel ℚ}
    {tremeloDepth inputSample y : ℚ}
    (hc : k.mSamplesProcessed + 1 < 9223372036854775808)
    (h : sampleStep k tremeloDepth inputSample = some (k', y)) :
    ∃ kw i raw g, sampleStepWithoutRuleB k tremeloDepth inputSample = some (kw, y) ∧
      index k = some i ∧ readTable k.waveArray i = some raw ∧
      tremeloGain raw tremeloDepth = some g ∧ roundFloat32 (inputSample * g) = some y ∧
      kw.mCurrentScale = k'.mCurrentScale := by
  obtain ⟨i, raw, g, hi, hr, hg, hy, hk⟩ := (sampleStep_eq_some_iff k k' _ _ y).mp h
  obtain ⟨kw, hkw, hs⟩ := increment_resyncWithoutRuleB_isSome k i hc
  refine ⟨kw, i, raw, g, (sampleStepWithoutRuleB_eq_some_iff k kw _ _ y).mpr
    ⟨i, raw, g, hi, hr, hg, hy, hkw⟩, hi, hr, hg, hy, ?_⟩
  rw [hs, ((increment_eq_some_iff _ _).mp hk).2]

theorem sampleStep_of_sampleStepWithoutRuleB {k kw : TremeloUnitKernel ℚ}
    {tremeloDepth inputSample y : ℚ}
    (hc : k.mSamplesProcessed + 1 < 9223372036854775808)
    (h : sampleStepWithoutRuleB k tremeloDepth inputSample = some (kw, y)) :
    ∃ k', sampleStep k tremeloDepth inputSample = some (k', y) := by
  obtain ⟨i, raw, g, hi, hr, hg, hy, _⟩ :=
    (sampleStepWithoutRuleB_eq_some_iff k kw _ _ y).mp h
  obtain ⟨k', hk'⟩ := increment_resync_isSome k i hc
  exact ⟨k', (sampleStep_eq_some_iff k k' _ _ y).mpr ⟨i, raw, g, hi, hr, hg, hy, hk'⟩⟩

theorem sampleStep_output_eq (k : TremeloUnitKernel ℚ) (tremeloDepth inputSample : ℚ)
    (hc : k.mSamplesProcessed + 1 < 9223372036854775808) :
    (sampleStepWithoutRuleB k tremeloDepth inputSample).map Prod.snd =
      (sampleStep k tremeloDepth inputSample).map Prod.snd := by
  apply Option.ext
  intro y
  simp only [Option.mem_def, Option.map_eq_some', Prod.exists, exists_and_right, exists_eq_right]
  constructor
  · rintro ⟨kw, h⟩
    exact sampleStep_of_sampleStepWithoutRuleB hc h
  · rintro ⟨k', h⟩
    obtain ⟨kw, _, _, _, h2, _⟩ := sampleStepWithoutRuleB_of_sampleStep hc h
    exact ⟨kw, h2⟩

/-- At 44100 Hz and 13 Hz the reset at `sampleLimit` does not happen before iteration
10,000,523. -/
theorem not_ruleBFires_44100_13 (r : ℚ) (j : Nat) (hj : j < 10000523)
    (kj : TremeloUnitKernel ℚ)
    (h : steps j (machineKernel r 0 0 (9891329 / 16777216)) = some kj) : ¬ ruleBFires kj := by
  cases j with
  | zero =>
    rw [steps_zero] at h
    simp only [Option.some.injEq] at h
    rw [← h]
    rintro ⟨_, _, hc⟩
    have hc' : (10000000 : Int) ≤ 0 := hc
    omega
  | succ m =>
    rw [steps_44100_13 r m (by omega)] at h
    simp only [Option.some.injEq] at h
    rw [← h]
    rintro ⟨hi, _, hc⟩
    have hc' : (10000000 : Int) ≤ (m : Int) + 1 := hc
    exact index_window r ((m : Int) + 1) 0 hc' (by omega) hi rfl

/-! ## Evaluation on the concrete kernels -/

theorem clampFrequency_of_mem {f : ℚ} (h1 : 1 / 2 ≤ f) (h2 : f ≤ 20) : clampFrequency f = f := by
  rw [clampFrequency_eq_max_min, min_eq_right h2, max_eq_right (by norm_num; linarith)]

/-- Evaluation of the part of `Process` before the loop on a kernel with the sine table
selected. -/
theorem prepare_machineKernel (r s n f d spc ns : ℚ) (c : Int) (h1 : 1 / 2 ≤ f) (h2 : f ≤ 20)
    (hs : roundFloat32 (r / f) = some spc) (h0 : spc ≠ 0)
    (hn : roundFloat32 (2000 / spc) = some ns) :
    prepare (machineKernel r c s n) (sampleParameters f d 1) = some (machineKernel r c s ns) := by
  rw [prepare_eq_some_iff]
  refine ⟨1, spc, ns, floatToInt_one, ?_, h0, hn, ?_⟩
  · show roundFloat32 (r / clampFrequency f) = some spc
    rw [clampFrequency_of_mem h1 h2]
    exact hs
  · rfl

theorem roundFloat32_2205 : roundFloat32 (44100 / 20) = some 2205 := by
  have h := roundFloat32_natCast_small 2205 (by norm_num) (by norm_num)
  have e : (44100 / 20 : ℚ) = ((2205 : Int) : ℚ) := by norm_num
  rw [e, h]
  norm_num

theorem sampleStep_adopt_silent (r s n : ℚ) (c : Int)
    (hi : index (machineKernel r c s n) = some 0) (hne : n ≠ s) :
    sampleStep (machineKernel r c s n) 0 0 = some (machineKernel r 1 n n, 0) := by
  rw [sampleStep_eq_some_iff]
  refine ⟨0, 1 / 2, 1, hi, readTable_machineKernel r s n c 0 (le_refl 0) (by norm_num),
    tremeloGain_depth_zero _, roundFloat32_zero_mul 1, ?_⟩
  have h := advance_machineKernel_adopt r s n c hi hne
  rw [advance_eq_of_index hi] at h
  exact h

theorem index_scale_two (k : TremeloUnitKernel ℚ) (n : Nat) (hn : n < 16777216)
    (hc : k.mSamplesProcessed = n) (hs : k.mCurrentScale = 2) :
    index k = some (((2 * n : Nat) : Int) % 2000) := by
  have h1 : roundFloat32 (k.mSamplesProcessed : ℚ) = some (n : ℚ) := by
    rw [hc]
    exact roundFloat32_natCast_small (n : Int) (by omega) (by omega)
  have h2 : roundFloat32 ((n : ℚ) * k.mCurrentScale) = some ((n : ℚ) * 2) := by
    rw [hs]
    exact roundFloat32_natCast_mul_two n hn
  have hq : (n : ℚ) < 16777216 := by exact_mod_cast hn
  have h := index_eq_of_floor (f := ((2 * n : Nat) : Int)) h1 h2 (by positivity)
    (by linarith) (by push_cast; linarith) (by push_cast; linarith)
  exact h

theorem roundFloat32_1000 : roundFloat32 (10000 / 10) = some 1000 := by
  have h := roundFloat32_natCast_small 1000 (by norm_num) (by norm_num)
  have e : (10000 / 10 : ℚ) = ((1000 : Int) : ℚ) := by norm_num
  rw [e, h]
  norm_num

theorem roundFloat32_two : roundFloat32 (2000 / 1000) = some 2 := by
  have h := roundFloat32_natCast_small 2 (by norm_num) (by norm_num)
  have e : (2000 / 1000 : ℚ) = ((2 : Int) : ℚ) := by norm_num
  rw [e, h]
  norm_num

theorem sampleParameters_depth (f d w : ℚ) :
    sampleParameters f d w Parameters.kParameter_Depth = d := rfl

theorem Process_rounded_example :
    (Process (construct (fun _ => 8264799 / 8388608) (fun _ => 1) 10000
      WavePointer.sine 0) (sampleParameters 10 100 1) [1] [0] false).map Prod.snd =
        some [16529597 / 16777216] := by
  have hp2 := (prepare_eq_some_iff
    (construct (fun _ => 8264799 / 8388608) (fun _ => 1) 10000 WavePointer.sine 0) _
    (sampleParameters 10 100 1)).mpr ⟨1, 1000, 2, floatToInt_one, by
      show roundFloat32 (10000 / clampFrequency 10) = some 1000
      rw [clampFrequency_of_mem (by norm_num) (by norm_num)]
      exact roundFloat32_1000, by norm_num, roundFloat32_two, rfl⟩
  have hread : readTable ({ construct (fun _ => 8264799 / 8388608) (fun _ => 1) 10000
      WavePointer.sine 0 with
        waveArrayPointer :=
          if (1 : Int) = kSineWave_Tremelo_Waveform then WavePointer.sine
          else WavePointer.square,
        mNextScale := 2 } : TremeloUnitKernel ℚ).waveArray 0
      = some (8264799 / 8388608) := by
    unfold readTable
    have e : ((kWaveArraySize : Nat) : Int) = 2000 := rfl
    rw [dif_pos ⟨le_refl 0, by rw [e]; norm_num⟩]
    rfl
  rw [Process_of_prepare _ hp2 (by norm_num), sampleParameters_depth,
    clampDepth_of_mem (by norm_num) (le_refl 100), processLoop_of_cons,
    sampleStep_first _ 100 1 (8264799 / 8388608) (16529597 / 16777216)
      (16529597 / 16777216) rfl (by
        show (2 : ℚ) ≠ 0
        norm_num) hread tremeloGain_example (by
        rw [one_mul]
        exact gain_example_output),
    Option.some_bind, processLoop_of_nil, Option.some_bind]
  rfl

theorem index_8000_13_at_4 (r n : ℚ) :
    index (machineKernel r 4 (13631487 / 4194304) n) = some 12 := by
  have hc : roundFloat32 ((machineKernel r 4 (13631487 / 4194304) n).mSamplesProcessed : ℚ)
      = some ((4 : Int) : ℚ) := roundFloat32_natCast_small 4 (by norm_num) (by norm_num)
  have hp : roundFloat32 (((4 : Int) : ℚ) *
      (machineKernel r 4 (13631487 / 4194304) n).mCurrentScale)
      = some (13631487 / 1048576) := by
    have e : ((4 : Int) : ℚ) * (machineKernel r 4 (13631487 / 4194304) n).mCurrentScale
        = 13631487 / 1048576 := by
      show ((4 : Int) : ℚ) * (13631487 / 4194304) = _
      norm_num
    rw [e]
    exact product_8000_13_at_4
  have h := index_eq_of_floor (f := 12) hc hp (by norm_num) (by norm_num) (by norm_num)
    (by norm_num)
  rw [h]
  norm_num

/-! ## The claims about the values that the code computes -/

/-- C2, counterexample.  At 44100 Hz and 13 Hz the kernel reaches counter 10,000,523 with
the scale 9891329/16777216; the frequency is then set to 20 Hz.  The index of the claim's
formula, the floor of counter times scale modulo 2000, is 1999, not 0; the code rounds the
product to `float`, its index is 0, and the iteration adopts the pending scale. -/
theorem scale_adopted_where_formula_is_not_zero :
    steps 10000523 (machineKernel 44100 0 0 (9891329 / 16777216)) =
      some (machineKernel 44100 10000523 (9891329 / 16777216) (9891329 / 16777216)) ∧
    prepare (machineKernel 44100 10000523 (9891329 / 16777216) (9891329 / 16777216))
      (sampleParameters 20 0 1) =
      some (machineKernel 44100 10000523 (9891329 / 16777216) (15217429 / 16777216)) ∧
    ⌊((10000523 : Int) : ℚ) * (9891329 / 16777216)⌋ % 2000 = 1999 ∧
    sampleStep (machineKernel 44100 10000523 (9891329 / 16777216) (15217429 / 16777216)) 0 0 =
      some (machineKernel 44100 1 (15217429 / 16777216) (15217429 / 16777216), 0) := by
  refine ⟨?_, ?_, ?_, ?_⟩
  · have h := steps_44100_13 44100 10000522 (by norm_num)
    have e : (10000522 : Nat) + 1 = 10000523 := by norm_num
    have e2 : ((10000522 : Nat) : Int) + 1 = 10000523 := by norm_num
    rw [e, e2] at h
    exact h
  · exact prepare_machineKernel 44100 _ _ 20 0 2205 _ 10000523 (by norm_num) (by norm_num)
      roundFloat32_2205 (by norm_num)
      (by have h := scale_44100_20
          have e : (2000 / 2205 : ℚ) = 400 / 441 := by norm_num
          rw [e]
          exact h)
  · have hf : ⌊((10000523 : Int) : ℚ) * (9891329 / 16777216)⌋ = 5895999 := by
      rw [Int.floor_eq_iff]
      constructor <;> norm_num
    rw [hf]
    norm_num
  · exact sampleStep_adopt_silent 44100 _ _ 10000523
      (index_44100_13_at_10000523_pending 44100 _) (by norm_num)

/-- C2, amended.  Resync rule A on the index the code computes: a loop iteration leaves
`mCurrentScale` unchanged whenever its index is not 0; `mCurrentScale` changes only in an
iteration where the index is 0 and `mNextScale` differs from `mCurrentScale`, and in such an
iteration it becomes `mNextScale` and the counter is 1 afterwards.  The index is the `float`
product of counter and scale, converted to `long`, modulo 2000. -/
theorem sampleStep_resync_rule_A_binary32 (k k' : TremeloUnitKernel ℚ)
    (tremeloDepth inputSample y : ℚ)
    (h : sampleStep k tremeloDepth inputSample = some (k', y)) :
    ∃ i, index k = some i ∧
      (i ≠ 0 → k'.mCurrentScale = k.mCurrentScale) ∧
      (k'.mCurrentScale ≠ k.mCurrentScale → i = 0 ∧ k.mNextScale ≠ k.mCurrentScale) ∧
      (i = 0 → k.mNextScale ≠ k.mCurrentScale →
        k'.mCurrentScale = k.mNextScale ∧ k'.mSamplesProcessed = 1) := by
  obtain ⟨i, raw, g, hi, _, _, _, hk⟩ := (sampleStep_eq_some_iff k k' _ _ y).mp h
  obtain ⟨_, hk'⟩ := (increment_eq_some_iff _ _).mp hk
  have hs : k'.mCurrentScale = (resync k i).mCurrentScale := by rw [hk']
  have hc : k'.mSamplesProcessed = (resync k i).mSamplesProcessed + 1 := by rw [hk']
  rw [resync_mCurrentScale] at hs
  rw [resync_mSamplesProcessed] at hc
  refine ⟨i, hi, ?_, ?_, ?_⟩
  · intro h0
    rw [hs, if_neg (fun hh => h0 hh.2)]
  · intro hne
    by_contra hcon
    apply hne
    rw [hs, if_neg]
    intro hh
    exact hcon ⟨hh.2, hh.1⟩
  · intro h0 hne
    constructor
    · rw [hs, if_pos ⟨hne, h0⟩]
    · rw [hc, if_pos ⟨Or.inl hne, h0⟩]
      norm_num

/-- C2 at the state of the counterexample with the pending scale 1/2: the index the code
computes is 0, and the iteration adopts the pending scale and leaves the counter at 1. -/
theorem sampleStep_resync_rule_A_binary32_witness :
    sampleStep (machineKernel 44100 10000523 (9891329 / 16777216) (1 / 2)) 0 0 =
      some (machineKernel 44100 1 (1 / 2) (1 / 2), 0) ∧
    ∃ i, index (machineKernel 44100 10000523 (9891329 / 16777216) (1 / 2)) = some i ∧
      i = 0 ∧ (machineKernel 44100 1 (1 / 2) (1 / 2)).mCurrentScale = 1 / 2 ∧
      (machineKernel 44100 1 (1 / 2) (1 / 2)).mSamplesProcessed = 1 := by
  have hs := sampleStep_adopt_silent 44100 (9891329 / 16777216) (1 / 2) 10000523
    (index_44100_13_at_10000523_pending 44100 _) (by norm_num)
  obtain ⟨i, hi, _, _, h3⟩ := sampleStep_resync_rule_A_binary32 _ _ 0 0 0 hs
  have hi0 : i = 0 := by
    rw [index_44100_13_at_10000523_pending] at hi
    simp only [Option.some.injEq] at hi
    exact hi.symm
  have hne : (machineKernel 44100 10000523 (9891329 / 16777216) (1 / 2)).mNextScale ≠
      (machineKernel 44100 10000523 (9891329 / 16777216) (1 / 2)).mCurrentScale := by
    show (1 / 2 : ℚ) ≠ 9891329 / 16777216
    norm_num
  exact ⟨hs, i, hi, hi0, (h3 hi0 hne).1, (h3 hi0 hne).2⟩

/-- C6, counterexample.  The table value 8264799/8388608 is a `float`; at depth 100 the gain
that line 428 computes for it is 16529597/16777216, one unit in the last place below it, so
the applied gain does not equal the raw gain. -/
theorem depth_hundred_gain_below_raw :
    roundFloat32 (8264799 / 8388608) = some (8264799 / 8388608) ∧
    clampDepth (100 : ℚ) = 100 ∧
    tremeloGain (8264799 / 8388608) 100 = some (16529597 / 16777216) ∧
    (16529597 / 16777216 : ℚ) < 8264799 / 8388608 :=
  ⟨gain_example_raw, clampDepth_of_mem (by norm_num) (le_refl 100), tremeloGain_example,
    by norm_num⟩

/-- C6, amended.  Depth 100 applies the raw table value up to rounding: the bounds check
leaves depth 100 at 100; for every raw gain in `[0, 1]` the gain of line 428 (`float` product
and difference, `double` sum and product, stored as `float`) is defined and within
`2 ^ (-22)` of the raw gain; an iteration multiplies the input sample by this gain of
`table[index]`; the gain is exactly 1 for the raw gain 1 and exactly 0 for the raw gain 0,
which are the values of the sine table (with the real `sin` and `π`) at index 500, the table
maximum, and at index 1500, the table minimum. -/
theorem depth_hundred_gain_binary32 (sampleRate mNextScale : ℝ)
    (waveArrayPointer : WavePointer) :
    clampDepth (100 : ℚ) = 100 ∧
    (∀ rawTremeloGain : ℚ, 0 ≤ rawTremeloGain → rawTremeloGain ≤ 1 →
      ∃ g, tremeloGain rawTremeloGain 100 = some g ∧ |g - rawTremeloGain| ≤ 1 / 4194304) ∧
    (∀ (k k' : TremeloUnitKernel ℚ) (inputSample y : ℚ),
      sampleStep k 100 inputSample = some (k', y) →
        ∃ i rawTremeloGain g, index k = some i ∧
          readTable k.waveArray i = some rawTremeloGain ∧
          tremeloGain rawTremeloGain 100 = some g ∧
          roundFloat32 (inputSample * g) = some y) ∧
    (TremeloUnitKernel.construct Real.sin Real.pi sampleRate waveArrayPointer
      mNextScale).mSine ⟨500, by norm_num⟩ = 1 ∧
    tremeloGain 1 100 = some 1 ∧
    (TremeloUnitKernel.construct Real.sin Real.pi sampleRate waveArrayPointer
      mNextScale).mSine ⟨1500, by norm_num⟩ = 0 ∧
    tremeloGain 0 100 = some 0 ∧
    ∀ i : Fin kWaveArraySize,
      0 ≤ (TremeloUnitKernel.construct Real.sin Real.pi sampleRate waveArrayPointer
        mNextScale).mSine i ∧
      (TremeloUnitKernel.construct Real.sin Real.pi sampleRate waveArrayPointer
        mNextScale).mSine i ≤ 1 := by
  have hmax : (TremeloUnitKernel.construct Real.sin Real.pi sampleRate waveArrayPointer
      mNextScale).mSine ⟨500, by norm_num⟩ = 1 := by
    simp only [TremeloUnitKernel.construct, kWaveArraySize]
    have ha : ((500 : ℕ) : ℝ) * 2.0 * Real.pi / ((2000 : ℕ) : ℝ) = Real.pi / 2 := by
      push_cast
      ring
    rw [ha, Real.sin_pi_div_two]
    norm_num
  have hmin : (TremeloUnitKernel.construct Real.sin Real.pi sampleRate waveArrayPointer
      mNextScale).mSine ⟨1500, by norm_num⟩ = 0 := by
    simp only [TremeloUnitKernel.construct, kWaveArraySize]
    have ha : ((1500 : ℕ) : ℝ) * 2.0 * Real.pi / ((2000 : ℕ) : ℝ) = Real.pi / 2 + Real.pi := by
      push_cast
      ring
    rw [ha, Real.sin_add_pi, Real.sin_pi_div_two]
    norm_num
  refine ⟨clampDepth_of_mem (by norm_num) (le_refl 100), tremeloGain_hundred_near, ?_, hmax,
    tremeloGain_one_hundred, hmin, tremeloGain_zero_hundred, ?_⟩
  · intro k k' inputSample y h
    obtain ⟨i, raw, g, hi, hr, hg, hy, _⟩ := (sampleStep_eq_some_iff k k' _ _ y).mp h
    exact ⟨i, raw, g, hi, hr, hg, hy⟩
  · intro i
    have hb : ∀ x : ℝ, 0 ≤ (Real.sin x + 1.0) * 0.5 ∧ (Real.sin x + 1.0) * 0.5 ≤ 1 := by
      intro x
      have h1 := Real.neg_one_le_sin x
      have h2 := Real.sin_le_one x
      constructor <;> norm_num <;> linarith
    exact hb _

/-- C6 at the table value 8264799/8388608: the gain at depth 100 is within `2 ^ (-22)`. -/
theorem depth_hundred_gain_binary32_witness :
    (0 : ℚ) ≤ 8264799 / 8388608 ∧ (8264799 / 8388608 : ℚ) ≤ 1 ∧
    ∃ g, tremeloGain (8264799 / 8388608) 100 = some g ∧
      |g - 8264799 / 8388608| ≤ 1 / 4194304 :=
  ⟨by norm_num, by norm_num,
    (depth_hundred_gain_binary32 44100 0 WavePointer.sine).2.1 (8264799 / 8388608)
      (by norm_num) (by norm_num)⟩

/-- C12, counterexample.  At 8000 Hz and 13 Hz the part of `Process` before the loop leaves
`mNextScale` at 13631487/4194304, which is not `2000 / (8000 / 13)`; the quotient
`8000 / 13` is rounded to the `float` 5041231/8192 first.  With this scale the index at
counter 4 is 12, where the exact quotient 13/4 gives 13. -/
theorem pending_scale_8000_13_rounded :
    clampFrequency (13 : ℚ) = 13 ∧
    roundFloat32 (8000 / 13) = some (5041231 / 8192) ∧
    prepare (machineKernel 8000 0 0 0) (sampleParameters 13 50 1) =
      some (machineKernel 8000 0 0 (13631487 / 4194304)) ∧
    (13631487 / 4194304 : ℚ) ≠ 2000 / (8000 / 13) ∧
    index (machineKernel 8000 4 (13631487 / 4194304) (13631487 / 4194304)) = some 12 ∧
    ⌊((4 : Int) : ℚ) * (2000 / (8000 / 13))⌋ % 2000 = 13 := by
  refine ⟨clampFrequency_of_mem (by norm_num) (by norm_num), samplesPerCycle_8000_13, ?_,
    by norm_num, index_8000_13_at_4 8000 _, ?_⟩
  swap
  · have hf : ⌊((4 : Int) : ℚ) * (2000 / (8000 / 13))⌋ = 13 := by
      rw [Int.floor_eq_iff]
      constructor <;> norm_num
    rw [hf]
    norm_num
  exact prepare_machineKernel 8000 0 0 13 50 (5041231 / 8192) _ 0 (by norm_num) (by norm_num)
    samplesPerCycle_8000_13 (by norm_num)
    (by have h := scale_8000_13
        have e : (2000 / (5041231 / 8192) : ℚ) = 16384000 / 5041231 := by norm_num
        rw [e]
        exact h)

/-- C12, amended.  Pending scale derivation in the code's arithmetic: the part of `Process`
before the loop leaves `mNextScale` = `2000 / (sampleRate / frequency)` with the clamped
frequency, where each of the two quotients is rounded to `float`; it succeeds for every
sample rate from 1 to `2 ^ 100`.  For sample rate 10000 Hz and frequency 10 Hz both
quotients are exact: `samplesPerTremeloCycle` is 1000 and `mNextScale` is 2; with
`mCurrentScale` 2 the index at counter `n` is `2n mod 2000` for every `n` below `2 ^ 24`. -/
theorem pending_scale_binary32 :
    (∀ (k k' : TremeloUnitKernel ℚ) (GetParameter : Parameters → ℚ),
      prepare k GetParameter = some k' →
        ∃ samplesPerTremeloCycle,
          roundFloat32 (k.mSampleFrequency /
            clampFrequency (GetParameter Parameters.kParameter_Frequency))
              = some samplesPerTremeloCycle ∧
          samplesPerTremeloCycle ≠ 0 ∧
          roundFloat32 (2000 / samplesPerTremeloCycle) = some k'.mNextScale) ∧
    (∀ (k : TremeloUnitKernel ℚ) (GetParameter : Parameters → ℚ),
      1 ≤ k.mSampleFrequency → k.mSampleFrequency ≤ 1267650600228229401496703205376 →
      |GetParameter Parameters.kParameter_Waveform| < 2147483648 →
        ∃ k', prepare k GetParameter = some k') ∧
    roundFloat32 (10000 / 10) = some 1000 ∧ roundFloat32 (2000 / 1000) = some 2 ∧
    (∀ (k : TremeloUnitKernel ℚ) (GetParameter : Parameters → ℚ),
      k.mSampleFrequency = 10000 → GetParameter Parameters.kParameter_Frequency = 10 →
      |GetParameter Parameters.kParameter_Waveform| < 2147483648 →
        ∃ k', prepare k GetParameter = some k' ∧ k'.mNextScale = 2) ∧
    (∀ (k : TremeloUnitKernel ℚ) (n : Nat), n < 16777216 → k.mSamplesProcessed = n →
      k.mCurrentScale = 2 → index k = some (((2 * n : Nat) : Int) % 2000)) := by
  refine ⟨?_, prepare_isSome, roundFloat32_1000, roundFloat32_two, ?_, ?_⟩
  · intro k k' GetParameter h
    obtain ⟨w, spc, ns, _, hs, h0, hn, hk⟩ := (prepare_eq_some_iff k k' GetParameter).mp h
    refine ⟨spc, hs, h0, ?_⟩
    rw [hk]
    exact hn
  · intro k GetParameter hr hf hw
    obtain ⟨w, hw'⟩ := floatToInt_isSome hw
    refine ⟨_, (prepare_eq_some_iff k _ GetParameter).mpr
      ⟨w, 1000, 2, hw', ?_, by norm_num, roundFloat32_two, rfl⟩, rfl⟩
    rw [hr, hf, clampFrequency_of_mem (by norm_num) (by norm_num)]
    exact roundFloat32_1000
  · intro k n hn hc hs
    exact index_scale_two k n hn hc hs

/-- C12 at a concrete kernel: at 10000 Hz and 10 Hz the requested scale is 2, and at counter
1007 with scale 2 the index is 14. -/
theorem pending_scale_binary32_witness :
    (∃ k', prepare (machineKernel 10000 0 0 0) (sampleParameters 10 50 1) = some k' ∧
      k'.mNextScale = 2) ∧
    index (machineKernel 10000 1007 2 2) = some 14 := by
  refine ⟨pending_scale_binary32.2.2.2.2.1 (machineKernel 10000 0 0 0)
    (sampleParameters 10 50 1) rfl rfl (by
      show |(1 : ℚ)| < 2147483648
      norm_num), ?_⟩
  have h := pending_scale_binary32.2.2.2.2.2 (machineKernel 10000 1007 2 2) 1007
    (by norm_num) rfl rfl
  rw [h]
  norm_num

/-- C14, counterexample.  At 44100 Hz and 13 Hz the requested scale is 9891329/16777216.
After 10,000,528 iterations the kernel has counter 5 (the reset at `sampleLimit` happened in
iteration 10,000,523) and its next index is 2; the kernel without the reset has counter
10,000,528 and its next index is 3. -/
theorem ruleB_changes_index_binary32 :
    prepare (machineKernel 44100 0 0 0) (sampleParameters 13 50 1) =
      some (machineKernel 44100 0 0 (9891329 / 16777216)) ∧
    steps 10000528 (machineKernel 44100 0 0 (9891329 / 16777216)) =
      some (machineKernel 44100 5 (9891329 / 16777216) (9891329 / 16777216)) ∧
    stepsWithoutRuleB 10000528 (machineKernel 44100 0 0 (9891329 / 16777216)) =
      some (machineKernel 44100 10000528 (9891329 / 16777216) (9891329 / 16777216)) ∧
    index (machineKernel 44100 5 (9891329 / 16777216) (9891329 / 16777216)) = some 2 ∧
    index (machineKernel 44100 10000528 (9891329 / 16777216) (9891329 / 16777216))
      = some 3 := by
  refine ⟨?_, steps_44100_13_final 44100, stepsWithoutRuleB_44100_13_final 44100,
    index_44100_13_at_5 44100, index_44100_13_at_10000528 44100⟩
  exact prepare_machineKernel 44100 0 0 13 50 (3473723 / 1024) _ 0 (by norm_num)
    (by norm_num) samplesPerCycle_44100_13 (by norm_num)
    (by have h := scale_44100_13
        have e : (2000 / (3473723 / 1024) : ℚ) = 2048000 / 3473723 := by norm_num
        rw [e]
        exact h)

/-- C14, amended.  The reset at `sampleLimit` does not affect the output up to and including
the first iteration in which it happens: if it does not happen in the first `n` iterations
from a state `k`, the kernel without the reset is in the same state after `n` iterations,
and iteration `n` itself, with or without the reset, is defined for the same inputs and
computes the same index, table value, gain and output sample and leaves the same scale.
The counter is assumed below the largest `long`. -/
theorem ruleB_until_first_wrap (k kn : TremeloUnitKernel ℚ) (n : Nat)
    (hn : steps n k = some kn)
    (hno : ∀ j, j < n → ∀ kj, steps j k = some kj → ¬ ruleBFires kj)
    (hc : kn.mSamplesProcessed + 1 < 9223372036854775808) :
    stepsWithoutRuleB n k = some kn ∧
    ∀ tremeloDepth inputSample : ℚ,
      (sampleStepWithoutRuleB kn tremeloDepth inputSample).map Prod.snd =
        (sampleStep kn tremeloDepth inputSample).map Prod.snd ∧
      ∀ k' y, sampleStep kn tremeloDepth inputSample = some (k', y) →
        ∃ kw i rawTremeloGain g,
          sampleStepWithoutRuleB kn tremeloDepth inputSample = some (kw, y) ∧
          index kn = some i ∧ readTable kn.waveArray i = some rawTremeloGain ∧
          tremeloGain rawTremeloGain tremeloDepth = some g ∧
          roundFloat32 (inputSample * g) = some y ∧
          kw.mCurrentScale = k'.mCurrentScale := by
  refine ⟨?_, ?_⟩
  · rw [stepsWithoutRuleB_eq_steps n k hno]
    exact hn
  · intro tremeloDepth inputSample
    refine ⟨sampleStep_output_eq kn tremeloDepth inputSample hc, ?_⟩
    intro k' y h
    exact sampleStepWithoutRuleB_of_sampleStep hc h

/-- C14 at 44100 Hz and 13 Hz: the reset at `sampleLimit` first happens in iteration
10,000,523; up to and including that iteration the kernel without the reset computes the
same output. -/
theorem ruleB_until_first_wrap_witness :
    steps 10000523 (machineKernel 44100 0 0 (9891329 / 16777216)) =
      some (machineKernel 44100 10000523 (9891329 / 16777216) (9891329 / 16777216)) ∧
    ruleBFires (machineKernel 44100 10000523 (9891329 / 16777216) (9891329 / 16777216)) ∧
    stepsWithoutRuleB 10000523 (machineKernel 44100 0 0 (9891329 / 16777216)) =
      some (machineKernel 44100 10000523 (9891329 / 16777216) (9891329 / 16777216)) ∧
    (sampleStepWithoutRuleB
      (machineKernel 44100 10000523 (9891329 / 16777216) (9891329 / 16777216)) 50 1).map
        Prod.snd =
      (sampleStep
        (machineKernel 44100 10000523 (9891329 / 16777216) (9891329 / 16777216)) 50 1).map
          Prod.snd := by
  have hs : steps 10000523 (machineKernel 44100 0 0 (9891329 / 16777216)) =
      some (machineKernel 44100 10000523 (9891329 / 16777216) (9891329 / 16777216)) := by
    have h := steps_44100_13 44100 10000522 (by norm_num)
    have e : (10000522 : Nat) + 1 = 10000523 := by norm_num
    have e2 : ((10000522 : Nat) : Int) + 1 = 10000523 := by norm_num
    rw [e, e2] at h
    exact h
  have hfire : ruleBFires
      (machineKernel 44100 10000523 (9891329 / 16777216) (9891329 / 16777216)) :=
    ⟨index_44100_13_at_10000523 44100, rfl, by
      show (10000000 : Int) ≤ 10000523
      norm_num⟩
  have h := ruleB_until_first_wrap (machineKernel 44100 0 0 (9891329 / 16777216))
    (machineKernel 44100 10000523 (9891329 / 16777216) (9891329 / 16777216)) 10000523 hs
    (not_ruleBFires_44100_13 44100) (by
      show (10000523 : Int) + 1 < 9223372036854775808
      norm_num)
  exact ⟨hs, hfire, h.1, (h.2 50 1).1⟩

/-- C10, counterexample.  At the sample rate `2 ^ (-50)` and 16 Hz a non-silent `Process`
call on two samples is undefined: the first iteration adopts the scale `2000 * 2 ^ 54`, and
in the second the product of counter and scale does not convert to `long`.  At 10000 Hz with
the table value 8264799/8388608 and depth 100, the output for the input sample 1 is
16529597/16777216, not `1 * ((8264799/8388608 * 100 - 100 + 100) * 0.01)`. -/
theorem Process_undefined_or_rounded :
    Process (machineKernel (1 / 1125899906842624) 0 0 0) (sampleParameters 16 0 1)
      [0, 0] [0, 0] false = none ∧
    prepare (machineKernel (1 / 1125899906842624) 0 0 0) (sampleParameters 16 0 1) =
      some (machineKernel (1 / 1125899906842624) 0 0 36028797018963968000) ∧
    sampleStep (machineKernel (1 / 1125899906842624) 0 0 36028797018963968000) 0 0 =
      some (machineKernel (1 / 1125899906842624) 1 36028797018963968000
        36028797018963968000, 0) ∧
    floatToLong 36028797018963968000 = none ∧
    (Process (construct (fun _ => 8264799 / 8388608) (fun _ => 1) 10000
      WavePointer.sine 0) (sampleParameters 10 100 1) [1] [0] false).map Prod.snd =
        some [16529597 / 16777216] ∧
    (16529597 / 16777216 : ℚ) ≠ 1 * ((8264799 / 8388608 * 100 - 100 + 100) * 0.01) := by
  have hp : prepare (machineKernel (1 / 1125899906842624) 0 0 0) (sampleParameters 16 0 1) =
      some (machineKernel (1 / 1125899906842624) 0 0 36028797018963968000) :=
    prepare_machineKernel (1 / 1125899906842624) 0 0 16 0 (1 / 18014398509481984) _ 0
      (by norm_num) (by norm_num)
      (by have h := samplesPerCycle_tiny
          have e : (1 / 1125899906842624 / 16 : ℚ) = 1 / 18014398509481984 := by norm_num
          rw [e]
          exact h)
      (by norm_num)
      (by have h := scale_tiny
          have e : (2000 / (1 / 18014398509481984) : ℚ) = 36028797018963968000 := by norm_num
          rw [e]
          exact h)
  have hstep := sampleStep_adopt_silent (1 / 1125899906842624) 0 36028797018963968000 0
    (index_at_counter_zero _ rfl) (by norm_num)
  have hfail : sampleStep (machineKernel (1 / 1125899906842624) 1 36028797018963968000
      36028797018963968000) 0 0 = none := by
    unfold sampleStep
    rw [index_tiny]
    rfl
  refine ⟨?_, hp, hstep, floatToLong_tiny, ?_, by norm_num⟩
  · rw [Process_of_prepare _ hp (by norm_num), sampleParameters_depth,
      clampDepth_of_mem (le_refl 0) (by norm_num), processLoop_of_cons, hstep, Option.some_bind,
      processLoop_of_cons, hfail]
    rfl
  · exact Process_rounded_example

/-- C10, amended.  `Process` output in the code's arithmetic.  On a kernel reached from
construction at a sample rate from 1 to `2 ^ 100`, with table values of magnitude at most 2,
a non-silent `Process` call with `N` input samples succeeds when the waveform selector has
magnitude below `2 ^ 31`, `N` is below `2 ^ 31`, the counter stays at most `2 ^ 40` and the
input samples have magnitude at most `2 ^ 100`.  It writes exactly `N` output samples, and
the output sample at position `j` is the `float` product of `input[j]` and the gain that line
428 computes in `float` and `double` arithmetic from `table[index_j]` and the clamped depth,
where `index_j` is the index computed in iteration `j` and `table` is the sine table when the
waveform selector converts to 1 and the square table for every other selector value. -/
theorem Process_reference_binary32 (mSine mSquare : Fin kWaveArraySize → ℚ)
    (sampleRate : ℚ) (waveArrayPointer : WavePointer) (mNextScale : ℚ)
    (hr1 : 1 ≤ sampleRate) (hr2 : sampleRate ≤ 1267650600228229401496703205376)
    (ht : ∀ j, |mSine j| ≤ 2 ∧ |mSquare j| ≤ 2)
    (calls : List (Call ℚ)) (k : TremeloUnitKernel ℚ)
    (hrun : runCalls (construct mSine mSquare sampleRate waveArrayPointer mNextScale) calls
      = some k)
    (GetParameter : Parameters → ℚ) (inSourceP inDestP : List ℚ)
    (hw : |GetParameter Parameters.kParameter_Waveform| < 2147483648)
    (hN : inSourceP.length < 2 ^ 31)
    (hc : k.mSamplesProcessed + inSourceP.length ≤ 1099511627776)
    (hx : ∀ x ∈ inSourceP, |x| ≤ 1267650600228229401496703205376) :
    ∃ k' outDestP kp w,
      Process k GetParameter inSourceP inDestP false = some (k', outDestP) ∧
      prepare k GetParameter = some kp ∧
      floatToInt (GetParameter Parameters.kParameter_Waveform) = some w ∧
      steps inSourceP.length kp = some k' ∧
      inSourceP.length ≤ outDestP.length ∧
      outDestP.drop inSourceP.length = inDestP.drop inSourceP.length ∧
      ∀ j (hj : j < inSourceP.length), ∃ kj i rawTremeloGain g y,
        steps j kp = some kj ∧ index kj = some i ∧
        readTable (if w = 1 then mSine else mSquare) i = some rawTremeloGain ∧
        tremeloGain rawTremeloGain (clampDepth (GetParameter Parameters.kParameter_Depth))
          = some g ∧
        roundFloat32 (inSourceP[j] * g) = some y ∧ outDestP[j]? = some y := by
  obtain ⟨⟨f1, f2, f3⟩, i1, i2, i3⟩ := runCalls_invariant hrun
    (by show (0 : ℚ) < sampleRate; linarith)
    ⟨le_refl 0, le_refl 0, fun _ => by
      show (0 : ℚ) ≤ 65536
      norm_num⟩
  have f1' : k.mSine = mSine := f1
  have f2' : k.mSquare = mSquare := f2
  have f3' : k.mSampleFrequency = sampleRate := f3
  have i3' : k.mCurrentScale ≤ 65536 := i3 hr1
  obtain ⟨kp, hp⟩ := prepare_isSome k GetParameter (by rw [f3']; exact hr1)
    (by rw [f3']; exact hr2) hw
  obtain ⟨p1, p2, p3, p4, p5⟩ := prepare_frame hp
  have hn0 := prepare_mNextScale_nonneg hp (by rw [f3']; linarith)
  have hn1 := prepare_mNextScale_le hp (by rw [f3']; exact hr1)
  obtain ⟨w, hw', hwa⟩ := prepare_waveArray hp
  have hd := clampDepth_bounds (GetParameter Parameters.kParameter_Depth)
  obtain ⟨k', out, hl⟩ := processLoop_defined kp
    (clampDepth (GetParameter Parameters.kParameter_Depth)) inSourceP inDestP
    (by rw [p4]; exact i1) (by rw [p4]; exact hc) (by rw [p5]; exact i2)
    (by rw [p5]; exact i3') hn0 hn1 (by rw [p1, p2, f1', f2']; exact ht) hd.1 hd.2 hx
  obtain ⟨ho1, ho2, ho3⟩ := processLoop_output hl
  refine ⟨k', out, kp, w, ?_, hp, hw', processLoop_steps hl, ho2, ho1, ?_⟩
  · rw [Process_of_prepare inDestP hp hN]
    exact hl
  · intro j hj
    obtain ⟨kj, i, raw, g, y, h1, h2, h3, h4, h5, h6⟩ := ho3 j hj
    refine ⟨kj, i, raw, g, y, h1, h2, ?_, h4, h5, h6⟩
    rw [hwa, f1', f2'] at h3
    exact h3

/-- C10 at a concrete call: a constructed kernel at sample rate 10000 whose sine table holds
1/2, a non-silent call at depth 100 on the two samples 3 and 5 with a destination of three
samples; the call succeeds, the first output sample is 3/2 and the third destination sample
is as it was. -/
theorem Process_reference_binary32_witness :
    ∃ k' outDestP,
      Process (construct (fun _ => 1 / 2) (fun _ => 1) 10000 WavePointer.sine 0)
        (sampleParameters 10 100 1) [3, 5] [9, 9, 9] false = some (k', outDestP) ∧
      outDestP[0]? = some (3 / 2) ∧ outDestP.drop 2 = [9] := by
  obtain ⟨k', out, kp, w, h, _, hw, _, _, hd, hj⟩ :=
    Process_reference_binary32 (fun _ => 1 / 2) (fun _ => 1) 10000 WavePointer.sine 0
      (by norm_num) (by norm_num) (by intro j; constructor <;> norm_num [abs_le]) []
      (construct (fun _ => 1 / 2) (fun _ => 1) 10000 WavePointer.sine 0) (runCalls_nil _)
      (sampleParameters 10 100 1) [3, 5] [9, 9, 9]
      (by show |(1 : ℚ)| < 2147483648; norm_num) (by norm_num)
      (by show (0 : Int) + (([3, 5] : List ℚ).length : Int) ≤ 1099511627776; norm_num)
      (by
        intro x hx
        simp only [List.mem_cons, List.mem_singleton, List.not_mem_nil, or_false] at hx
        rcases hx with hx | hx <;> rw [hx] <;> norm_num [abs_le])
  refine ⟨k', out, h, ?_, hd⟩
  obtain ⟨kj, i, raw, g, y, _, _, hr, hg, hy, ho⟩ := hj 0 (by norm_num)
  have hw1 : w = 1 := by
    have h1 : floatToInt (sampleParameters 10 100 1 Parameters.kParameter_Waveform)
        = some 1 := floatToInt_one
    rw [h1] at hw
    simp only [Option.some.injEq] at hw
    exact hw.symm
  rw [hw1, if_pos rfl] at hr
  obtain ⟨j', hj'⟩ := readTable_mem hr
  have hraw : raw = 1 / 2 := hj'
  rw [hraw, sampleParameters_depth, clampDepth_of_mem (by norm_num) (le_refl 100),
    tremeloGain_half_hundred] at hg
  simp only [Option.some.injEq] at hg
  rw [← hg] at hy
  have e : (([3, 5] : List ℚ)[0]) * (1 / 2) = 3 / 2 := by
    simp
    norm_num
  rw [e, roundFloat32_three_halves] at hy
  simp only [Option.some.injEq] at hy
  rw [ho, hy]

end Machine

end TremeloUnit
